import Mathlib

/-!
# Modbus RTU master engine (`spindle/modbus.c`, `spindle/modbus.h`)

A shallow embedding of the Modbus RTU engine of the grblHAL driver for the
STM32F401: the CRC codec, the asynchronous request ring, the poll-driven
transaction state machine and the blocking dispatcher.

Conventions of the embedding.

* Bytes (`char`, unsigned on the ARM EABI target) are naturals below 256;
  `uint16_t` values are naturals reduced modulo `2 ^ 16`, `uint32_t` values
  modulo `2 ^ 32`.  `uint_fast8_t` and `uint_fast16_t` are the 32-bit
  `unsigned int` of the target.
* The file-scope statics of `modbus.c` are the fields of `ModbusState`.
  Pointers into the ring `queue[MODBUS_QUEUE_LENGTH]` are slot indices; the
  `packet` pointer is `none` (NULL), a ring slot, or the static `sync_msg`.
* The serial transport and the millisecond tick are external.  What they
  answer during one call of `modbus_poll` is the `PollEnv` argument; every
  call the engine makes on the transport and every callback it invokes is
  recorded, in order, in the returned list of `Event`s.
* One call of the host scheduler hook `grbl.on_execute_realtime` made by the
  blocking dispatcher runs `modbus_poll` once; the list of `PollEnv`s handed
  to `modbus_send` is the sequence of those calls.  When the list is used up
  before the dispatcher is done the call has not returned (`ret = none`).
-/

namespace Modbus

/-! ## Constants and types (`modbus.h`) -/

/-- Size of the `adu` buffer of a message. -/
def MODBUS_MAX_ADU_SIZE : Nat := 10

/-- Number of slots of the asynchronous request ring. -/
def MODBUS_QUEUE_LENGTH : Nat := 8

/-- Index of the default baud rate (19200) in the `baud` table. -/
def MODBUS_BAUDRATE : Nat := 3

/-- Engine states, `modbus_state_t`. -/
inductive modbus_state_t where
  | ModBus_Idle
  | ModBus_Silent
  | ModBus_TX
  | ModBus_AwaitReply
  | ModBus_Timeout
  | ModBus_GotReply
  | ModBus_Exception
deriving DecidableEq, Repr

/-- One transaction, `modbus_message_t`. -/
structure modbus_message_t where
  context : Nat
  crc_check : Bool
  tx_length : Nat
  rx_length : Nat
  adu : List Nat
deriving DecidableEq, Repr

/-- Completion callbacks, `modbus_callbacks_t`; a function pointer is `none`
when NULL and otherwise the identity of the function. -/
structure modbus_callbacks_t where
  on_rx_packet : Option Nat
  on_rx_exception : Option Nat
deriving DecidableEq, Repr

/-- Ring slot, `queue_entry_t`; `next` is the index of the following slot. -/
structure queue_entry_t where
  async : Bool
  sent : Bool
  msg : modbus_message_t
  callbacks : modbus_callbacks_t
  next : Nat
deriving DecidableEq, Repr

/-- Targets of the `packet` pointer: a slot of `queue` or the static
`sync_msg` of `modbus_send`. -/
inductive PacketRef where
  | slot (i : Nat)
  | sync_msg
deriving DecidableEq, Repr

/-- Settings block `modbus_settings_t` (fields used by `modbus.c`). -/
structure modbus_settings_t where
  baud_rate : Nat
  rx_timeout : Nat
deriving DecidableEq, Repr

/-- Calls made by the engine on the transport binding (`modbus_stream_t`) and
on the callbacks of a transaction.  `write` and the callbacks carry the
queue entry through which the engine reached the data. -/
inductive Event where
  | set_direction (tx : Bool)
  | flush_rx_buffer
  | flush_tx_buffer
  | get_tx_buffer_count
  | get_rx_buffer_count
  | read
  | write (src : PacketRef) (bytes : List Nat)
  | on_rx_packet (src : PacketRef) (fn : Nat) (msg : modbus_message_t)
  | on_rx_exception (src : PacketRef) (fn : Nat) (code : Nat) (context : Nat)
deriving DecidableEq, Repr

/-- Answers of the environment during one call of `modbus_poll`: the tick
`hal.get_elapsed_ticks()`, the pending transmit and receive counts and the
successive results of `stream.read()` (an `int16_t`, -1 when no data). -/
structure PollEnv where
  ms : Nat
  tx_buffer_count : Nat
  rx_buffer_count : Nat
  rx : List Int
deriving DecidableEq, Repr

/-- The file-scope statics of `modbus.c`, with the function-scope statics
`last_ms` (of `modbus_poll`) and `sync_msg` (of `modbus_send`).
`stream_set_direction` tells whether `stream.set_direction` is non-NULL. -/
structure ModbusState where
  stream_set_direction : Bool
  rx_timeout : Nat
  silence_until : Nat
  silence_timeout : Nat
  exception_code : Int
  silence : List Nat
  queue : Nat → queue_entry_t
  modbus : modbus_settings_t
  spin_lock : Bool
  is_up : Bool
  tail : Nat
  head : Nat
  packet : Option PacketRef
  state : modbus_state_t
  last_ms : Nat
  sync_msg : queue_entry_t

/-! ## Machine integer conversions -/

/-- Conversion of an `int` to the 32-bit unsigned `uint_fast16_t`. -/
def to_uint_fast16 (x : Int) : Nat := (x % 4294967296).toNat

/-- Conversion of an `int16_t` to `char` (unsigned, 8 bits). -/
def to_char (x : Int) : Nat := (x % 256).toNat

/-- Sum of two `uint32_t` values. -/
def add_u32 (a b : Nat) : Nat := (a + b) % 4294967296

/-! ## CRC codec -/

/-- One pass of the inner loop body of `modbus_CRC16x` on the `uint16_t` crc. -/
def crc_bit (crc : Nat) : Nat :=
  if crc &&& 0x0001 ≠ 0 then ((crc >>> 1) ^^^ 0xA001) % 65536 else crc >>> 1

/-- The inner loop `for (i = 8; i != 0; i--)`. -/
def crc_bits : Nat → Nat → Nat
  | 0, crc => crc
  | i + 1, crc => crc_bits i (crc_bit crc)

/-- The outer loop `for (pos = ...; pos < len; pos++)` with `n` passes left. -/
def crc_from (buf : List Nat) : Nat → Nat → Nat → Nat
  | 0, _, crc => crc
  | n + 1, pos, crc =>
      crc_from buf n (pos + 1) (crc_bits 8 ((crc ^^^ (buf.getD pos 0 % 65536)) % 65536))

/-- `modbus_CRC16x (buf, len)`: the loop runs `pos` from 0 to `len - 1`. -/
def modbus_CRC16x (buf : List Nat) (len : Nat) : Nat :=
  crc_from buf len 0 0xFFFF

/-- The receive-side test of `modbus_poll`:
`adu[rx_len-2] != (crc & 0xFF) || adu[rx_len-1] != (crc >> 8)` with
`crc = modbus_CRC16x(adu, rx_len - 2)`. -/
def rx_crc_error (adu : List Nat) (rx_len : Nat) : Bool :=
  let crc := modbus_CRC16x adu (to_uint_fast16 ((rx_len : Int) - 2))
  adu.getD (rx_len - 2) 0 != crc &&& 0xFF || adu.getD (rx_len - 1) 0 != crc >>> 8

/-- The first statements of `modbus_send`: the CRC of the first
`tx_length - 2` bytes is stored, high byte at `tx_length - 1` and low byte
at `tx_length - 2`. -/
def insert_crc (msg : modbus_message_t) : modbus_message_t :=
  let crc := modbus_CRC16x msg.adu (to_uint_fast16 ((msg.tx_length : Int) - 2))
  { msg with adu := (msg.adu.set (msg.tx_length - 1) ((crc >>> 8) % 256)).set
                      (msg.tx_length - 2) (crc &&& 0xFF) }

/-! ## Queue plumbing -/

/-- Store `e` in slot `i` of the ring. -/
def set_entry (q : Nat → queue_entry_t) (i : Nat) (e : queue_entry_t) : Nat → queue_entry_t :=
  fun j => if j = i then e else q j

/-- The entry a `packet` pointer designates. -/
def entry_of (s : ModbusState) : PacketRef → queue_entry_t
  | .slot i => s.queue i
  | .sync_msg => s.sync_msg

/-- Write an entry through a `packet` pointer. -/
def store_entry (s : ModbusState) (r : PacketRef) (e : queue_entry_t) : ModbusState :=
  match r with
  | .slot i => { s with queue := set_entry s.queue i e }
  | .sync_msg => { s with sync_msg := e }

/-- `add_message (packet, msg, callbacks)`. -/
def add_message (packet : queue_entry_t) (msg : modbus_message_t)
    (callbacks : Option modbus_callbacks_t) : queue_entry_t :=
  match callbacks with
  | some c => { packet with sent := false, msg := msg, callbacks := c }
  | none => { packet with sent := false, msg := msg,
                          callbacks := { on_rx_packet := none, on_rx_exception := none } }

/-- The events of `if(stream.set_direction) stream.set_direction(tx)`. -/
def direction_events (s : ModbusState) (tx : Bool) : List Event :=
  if s.stream_set_direction then [Event.set_direction tx] else []

/-- The event of `if(fn) fn(code, context)` for an exception callback. -/
def exception_events (src : PacketRef) (e : queue_entry_t) (code : Nat) : List Event :=
  match e.callbacks.on_rx_exception with
  | some fn => [Event.on_rx_exception src fn code e.msg.context]
  | none => []

/-- The event of `if(fn) fn(&msg)` for a reply callback. -/
def packet_events (src : PacketRef) (e : queue_entry_t) : List Event :=
  match e.callbacks.on_rx_packet with
  | some fn => [Event.on_rx_packet src fn e.msg]
  | none => []

/-! ## The poll function -/

/-- Number of passes of `do { *buf++ = stream.read(); } while(--rx_length)`
on the `uint8_t` counter `rx_length`. -/
def capture_count (rx_length : Nat) : Nat :=
  if rx_length = 0 then 256 else rx_length

/-- The reply capture loop: pass `k` stores the `k`-th byte read at
`adu[k]`; `n` passes are left. -/
def read_reply (rx : List Int) : Nat → Nat → List Nat → List Nat
  | 0, _, adu => adu
  | n + 1, k, adu => read_reply rx n (k + 1) (adu.set k (to_char (rx.getD k (-1))))

/-- The `ModBus_AwaitReply` case of `modbus_poll` once `packet` is known to
designate `r`. -/
def poll_await_reply (env : PollEnv) (s : ModbusState) (r : PacketRef) :
    ModbusState × List Event :=
  let e := entry_of s r
  if s.rx_timeout ≠ 0 ∧ s.rx_timeout - 1 = 0 then
    -- `if(rx_timeout && --rx_timeout == 0)`: leaves by `return`, `last_ms` is not stored
    let deadline := add_u32 env.ms s.silence_timeout
    if e.async then
      ({ s with rx_timeout := 0, state := .ModBus_Silent, packet := none,
                spin_lock := false, silence_until := deadline }, [])
    else if env.rx.getD 0 (-1) = 1 then
      if to_uint_fast16 (env.rx.getD 1 (-1)) &&& 0x80 ≠ 0 then
        ({ s with rx_timeout := 0, exception_code := env.rx.getD 2 (-1),
                  state := .ModBus_Exception, spin_lock := false, silence_until := deadline },
         [Event.read, Event.read, Event.read])
      else
        ({ s with rx_timeout := 0, state := .ModBus_Timeout, spin_lock := false,
                  silence_until := deadline }, [Event.read, Event.read])
    else
      ({ s with rx_timeout := 0, state := .ModBus_Timeout, spin_lock := false,
                silence_until := deadline }, [Event.read])
  else
    let s1 := { s with rx_timeout := s.rx_timeout - 1 }
    if env.rx_buffer_count ≥ e.msg.rx_length then
      let rx_len := e.msg.rx_length
      let n := capture_count rx_len
      let e1 := { e with msg := { e.msg with adu := read_reply env.rx n 0 e.msg.adu,
                                             rx_length := 0 } }
      let s2 := store_entry s1 r e1
      let evs := Event.get_rx_buffer_count :: List.replicate n Event.read
      let deadline := add_u32 env.ms s.silence_timeout
      if e.msg.crc_check ∧ rx_crc_error e1.msg.adu rx_len then
        if e.async then
          ({ s2 with state := .ModBus_Silent, packet := none, silence_until := deadline,
                     last_ms := env.ms, spin_lock := false },
           evs ++ exception_events r e1 0)
        else
          ({ s2 with state := .ModBus_Exception, silence_until := deadline,
                     last_ms := env.ms, spin_lock := false }, evs)
      else
        if e.async then
          ({ s2 with state := .ModBus_Silent, packet := none, silence_until := deadline,
                     last_ms := env.ms, spin_lock := false },
           evs ++ packet_events r e1)
        else
          ({ s2 with state := .ModBus_GotReply, silence_until := deadline,
                     last_ms := env.ms, spin_lock := false }, evs)
    else
      ({ s1 with last_ms := env.ms, spin_lock := false }, [Event.get_rx_buffer_count])

/-- `modbus_poll ()`.  In `ModBus_AwaitReply` the C code dereferences
`packet`; with `packet == NULL` that is undefined and the embedding leaves
the state alone. -/
def modbus_poll (env : PollEnv) (s : ModbusState) : ModbusState × List Event :=
  if env.ms = s.last_ms ∨ s.spin_lock = true then (s, [])
  else
    match s.state with
    | .ModBus_Idle =>
      if s.tail ≠ s.head ∧ s.packet = none then
        let p := s.tail
        let e := { s.queue p with sent := true }
        ({ s with packet := some (.slot p), tail := (s.queue p).next, state := .ModBus_TX,
                  rx_timeout := s.modbus.rx_timeout, queue := set_entry s.queue p e,
                  last_ms := env.ms, spin_lock := false },
         direction_events s true ++
           [Event.flush_rx_buffer, Event.write (.slot p) (e.msg.adu.take e.msg.tx_length)])
      else ({ s with last_ms := env.ms, spin_lock := false }, [])
    | .ModBus_Silent =>
      if env.ms ≥ s.silence_until then
        ({ s with silence_until := 0, state := .ModBus_Idle, last_ms := env.ms,
                  spin_lock := false }, [])
      else ({ s with last_ms := env.ms, spin_lock := false }, [])
    | .ModBus_TX =>
      if env.tx_buffer_count = 0 then
        ({ s with state := .ModBus_AwaitReply, last_ms := env.ms, spin_lock := false },
         [Event.get_tx_buffer_count, Event.flush_rx_buffer] ++ direction_events s false)
      else ({ s with last_ms := env.ms, spin_lock := false }, [Event.get_tx_buffer_count])
    | .ModBus_AwaitReply =>
      match s.packet with
      | some r => poll_await_reply env s r
      | none => (s, [])
    | .ModBus_Timeout =>
      ({ s with state := .ModBus_Silent, silence_until := add_u32 env.ms s.silence_timeout,
                last_ms := env.ms, spin_lock := false }, [])
    | _ => ({ s with last_ms := env.ms, spin_lock := false }, [])

/-! ## Sending -/

/-- Outcome of a call of `modbus_send`: the engine afterwards, the caller's
message (its CRC bytes are written in place), the events of the call and the
value returned, `none` while the call has not returned. -/
structure SendResult where
  st : ModbusState
  msg : modbus_message_t
  events : List Event
  ret : Option Bool

/-- The loop `do { grbl.on_execute_realtime(...); } while(state != ModBus_Idle)`.
Returns the polls left over when the loop is done. -/
def wait_idle : List PollEnv → ModbusState → ModbusState × List Event × Option (List PollEnv)
  | [], s => (s, [], none)
  | env :: rest, s =>
    let r := modbus_poll env s
    if r.1.state = .ModBus_Idle then (r.1, r.2, some rest)
    else
      let w := wait_idle rest r.1
      (w.1, r.2 ++ w.2.1, w.2.2)

/-- The end of the blocking branch: `packet = NULL` and
`state = silence_until > 0 ? ModBus_Silent : ModBus_Idle`. -/
def release (s : ModbusState) : ModbusState :=
  { s with packet := none,
           state := if s.silence_until > 0 then .ModBus_Silent else .ModBus_Idle }

/-- The statement `if(packet->callbacks.on_rx_exception) ...(code, packet->msg.context)`
of the blocking branch (`packet` is never NULL there; a NULL `packet` is
undefined in C and gives no event here). -/
def packet_exception_events (s : ModbusState) (code : Nat) : List Event :=
  match s.packet with
  | some p => exception_events p (entry_of s p) code
  | none => []

/-- The statement `if(packet->callbacks.on_rx_packet) ...(&packet->msg)` of the
blocking branch. -/
def packet_reply_events (s : ModbusState) : List Event :=
  match s.packet with
  | some p => packet_events p (entry_of s p)
  | none => []

/-- The loop `while(poll) { ... }` of the blocking branch.  Returns the
engine, the events and the final value of `block` once a terminal state has
been seen. -/
def dispatch : List PollEnv → ModbusState → ModbusState × List Event × Option Bool
  | [], s => (s, [], none)
  | env :: rest, s =>
    let r := modbus_poll env s
    match r.1.state with
    | .ModBus_Timeout => (r.1, r.2 ++ packet_exception_events r.1 0, some true)
    | .ModBus_Exception =>
      (r.1, r.2 ++ packet_exception_events r.1
          (if r.1.exception_code = -1 then 0 else to_char r.1.exception_code), some true)
    | .ModBus_GotReply => (r.1, r.2 ++ packet_reply_events r.1, some false)
    | _ =>
      let d := dispatch rest r.1
      (d.1, r.2 ++ d.2.1, d.2.2)

/-- The blocking branch between its two loops: the engine is put in
`ModBus_TX` with the countdown armed, the message is copied into the static
`sync_msg`, which becomes `packet`. -/
def begin_sync (s : ModbusState) (m : modbus_message_t)
    (callbacks : Option modbus_callbacks_t) : ModbusState :=
  { s with state := .ModBus_TX, rx_timeout := s.modbus.rx_timeout,
           sync_msg := { add_message s.sync_msg m callbacks with async := false },
           packet := some .sync_msg }

/-- The transport calls made between the two loops of the blocking branch. -/
def begin_sync_events (s : ModbusState) (m : modbus_message_t)
    (callbacks : Option modbus_callbacks_t) : List Event :=
  direction_events s true ++
    [Event.flush_rx_buffer,
     Event.write .sync_msg ((begin_sync s m callbacks).sync_msg.msg.adu.take
       (begin_sync s m callbacks).sync_msg.msg.tx_length)]

/-- `modbus_send (msg, callbacks, block)`; `sched` is the sequence of
scheduler calls available to the blocking branch.  `while(spin_lock);`
never ends when the guard is set. -/
def modbus_send (s : ModbusState) (msg : modbus_message_t)
    (callbacks : Option modbus_callbacks_t) (block : Bool) (sched : List PollEnv) : SendResult :=
  let m := insert_crc msg
  if s.spin_lock then { st := s, msg := m, events := [], ret := none }
  else if block then
    let w := wait_idle sched s
    match w.2.2 with
    | none => { st := w.1, msg := m, events := w.2.1, ret := none }
    | some rest =>
      let d := dispatch rest (begin_sync w.1 m callbacks)
      let evs := w.2.1 ++ begin_sync_events w.1 m callbacks ++ d.2.1
      match d.2.2 with
      | none => { st := d.1, msg := m, events := evs, ret := none }
      | some b => { st := release d.1, msg := m, events := evs, ret := some (!b) }
  else if s.packet ≠ some .sync_msg then
    if (s.queue s.head).next ≠ s.tail then
      let e := { add_message (s.queue s.head) m callbacks with async := true }
      { st := { s with queue := set_entry s.queue s.head e, head := (s.queue s.head).next },
        msg := m, events := [], ret := some true }
    else { st := s, msg := m, events := [], ret := some true }
  else { st := s, msg := m, events := [], ret := some true }

/-! ## Initialisation and settings -/

/-- The table `baud`. -/
def baud : List Nat := [2400, 4800, 9600, 19200, 38400, 115200]

/-- The table `dflt_timeout`. -/
def dflt_timeout : List Nat := [16, 8, 4, 2, 2, 2]

/-- The search loop of `get_baudrate`, `idx` counting down. -/
def get_baudrate_from (rate : Nat) : Nat → Nat
  | 0 => MODBUS_BAUDRATE
  | idx + 1 => if baud.getD idx 0 = rate then idx else get_baudrate_from rate idx

/-- `get_baudrate (rate)`. -/
def get_baudrate (rate : Nat) : Nat := get_baudrate_from rate 6

/-- A zero-initialised message. -/
def zero_message : modbus_message_t :=
  { context := 0, crc_check := false, tx_length := 0, rx_length := 0,
    adu := List.replicate MODBUS_MAX_ADU_SIZE 0 }

/-- A zero-initialised ring slot whose `next` link is `n`. -/
def zero_entry (n : Nat) : queue_entry_t :=
  { async := false, sent := false, msg := zero_message,
    callbacks := { on_rx_packet := none, on_rx_exception := none }, next := n }

/-- `modbus_set_silence (timeout)`. -/
def modbus_set_silence (timeout : Option (List Nat)) (s : ModbusState) : ModbusState :=
  let table := match timeout with
    | some t => t
    | none => dflt_timeout
  { s with silence := table,
           silence_timeout := table.getD (get_baudrate s.modbus.baud_rate) 0 }

/-- The engine after a successful `modbus_init ()`: zeroed statics, the ring
linked by `queue[idx].next = idx == MODBUS_QUEUE_LENGTH - 1 ? &queue[0] : &queue[idx + 1]`,
`head = tail = &queue[0]` and the default silence table. -/
def modbus_init (set_direction : Bool) : ModbusState :=
  modbus_set_silence none
    { stream_set_direction := set_direction
      rx_timeout := 0
      silence_until := 0
      silence_timeout := 0
      exception_code := 0
      silence := List.replicate 6 0
      queue := fun idx => zero_entry (if idx = MODBUS_QUEUE_LENGTH - 1 then 0 else idx + 1)
      modbus := { baud_rate := 0, rx_timeout := 0 }
      spin_lock := false
      is_up := false
      tail := 0
      head := 0
      packet := none
      state := .ModBus_Idle
      last_ms := 0
      sync_msg := zero_entry 0 }

/-- `modbus_settings_restore ()` (the settings block only). -/
def modbus_settings_restore (s : ModbusState) : ModbusState :=
  { s with modbus := { rx_timeout := 50, baud_rate := baud.getD MODBUS_BAUDRATE 0 } }

/-- `modbus_settings_load ()`; `nvs` is the stored block when the transfer
from non-volatile storage succeeds. -/
def modbus_settings_load (nvs : Option modbus_settings_t) (s : ModbusState) : ModbusState :=
  let s1 := match nvs with
    | some m => { s with modbus := m }
    | none => modbus_settings_restore s
  { s1 with is_up := true,
            silence_timeout := s1.silence.getD (get_baudrate s1.modbus.baud_rate) 0 }

/-! ## Runs of the engine -/

/-- What the rest of the firmware does with the engine: a poll, a
non-blocking `modbus_send`, or a blocking `modbus_send` together with the
scheduler calls made while it runs. -/
inductive Action where
  | poll (env : PollEnv)
  | send (msg : modbus_message_t) (callbacks : Option modbus_callbacks_t)
  | send_block (msg : modbus_message_t) (callbacks : Option modbus_callbacks_t)
      (sched : List PollEnv)

/-- One action: the engine afterwards, the events, and whether the call has
returned. -/
def step (s : ModbusState) : Action → ModbusState × List Event × Bool
  | .poll env =>
    let r := modbus_poll env s
    (r.1, r.2, true)
  | .send msg callbacks =>
    let r := modbus_send s msg callbacks false []
    (r.st, r.events, r.ret.isSome)
  | .send_block msg callbacks sched =>
    let r := modbus_send s msg callbacks true sched
    (r.st, r.events, r.ret.isSome)

/-- A sequence of actions, with the events in order.  Nothing follows a call
that has not returned. -/
def run : List Action → ModbusState → ModbusState × List Event
  | [], s => (s, [])
  | a :: rest, s =>
    let r := step s a
    if r.2.2 then
      let t := run rest r.1
      (t.1, r.2.1 ++ t.2)
    else (r.1, r.2.1)

/-! ## The CRC as the specification words it -/

/-- One right shift of the running value, "XORing with 0xA001 whenever the
bit shifted out was 1". -/
def spec_shift (crc : Nat) : Nat :=
  if crc % 2 = 1 then (crc / 2) ^^^ 0xA001 else crc / 2

/-- One byte: "XOR it into the low byte of the running value, then eight
times shift right by one bit". -/
def spec_crc_byte (crc b : Nat) : Nat :=
  spec_shift^[8] (crc / 256 * 256 + ((crc % 256) ^^^ b))

/-- The Modbus RTU CRC-16: "start from 0xFFFF; for each byte in order ...". -/
def spec_crc16 (bytes : List Nat) : Nat :=
  bytes.foldl spec_crc_byte 0xFFFF

/-! ## Vocabulary of the statements -/

/-- The transmit side of the buffer contract: `adu` is the
`MODBUS_MAX_ADU_SIZE`-byte array and `tx_length` stays inside it and leaves
room for the two CRC bytes. -/
def frame_wf (m : modbus_message_t) : Prop :=
  m.adu.length = MODBUS_MAX_ADU_SIZE ∧ (∀ b ∈ m.adu, b < 256) ∧
    2 ≤ m.tx_length ∧ m.tx_length ≤ MODBUS_MAX_ADU_SIZE

instance (m : modbus_message_t) : Decidable (frame_wf m) := by
  unfold frame_wf; infer_instance

/-- The buffer contract of a message: `adu` is the `MODBUS_MAX_ADU_SIZE`-byte
array, the lengths stay inside it and leave room for the two CRC bytes. -/
def msg_wf (m : modbus_message_t) : Prop :=
  m.adu.length = MODBUS_MAX_ADU_SIZE ∧ (∀ b ∈ m.adu, b < 256) ∧
    2 ≤ m.tx_length ∧ m.tx_length ≤ MODBUS_MAX_ADU_SIZE ∧
    1 ≤ m.rx_length ∧ m.rx_length ≤ MODBUS_MAX_ADU_SIZE ∧
    (m.crc_check = true → 2 ≤ m.rx_length)

instance (m : modbus_message_t) : Decidable (msg_wf m) := by
  unfold msg_wf; infer_instance

/-- An action whose message, if any, meets the buffer contract. -/
def Action.wf : Action → Prop
  | .poll _ => True
  | .send m _ => msg_wf m
  | .send_block m _ _ => msg_wf m

instance (a : Action) : Decidable a.wf := by
  cases a <;> unfold Action.wf <;> infer_instance

/-- Polls and non-blocking sends. -/
def Action.nonblocking : Action → Prop
  | .send_block _ _ _ => False
  | _ => True

instance (a : Action) : Decidable a.nonblocking := by
  cases a <;> unfold Action.nonblocking <;> infer_instance

/-- The bytes `stream.write` receives for a message handed to `modbus_send`:
the first `tx_length` bytes of `adu` after the CRC bytes have been stored. -/
def frame_of (m : modbus_message_t) : List Nat :=
  (insert_crc m).adu.take m.tx_length

/-- The frame as the specification words it: the first `tx_length - 2` bytes
unchanged, then the low byte and the high byte of their CRC. -/
def spec_frame (m : modbus_message_t) : List Nat :=
  m.adu.take (m.tx_length - 2) ++
    [modbus_CRC16x m.adu (m.tx_length - 2) % 256, modbus_CRC16x m.adu (m.tx_length - 2) / 256]

/-- The frames written to the transport from ring slots, in order. -/
def written : List Event → List (List Nat)
  | [] => []
  | Event.write (.slot _) bytes :: rest => bytes :: written rest
  | _ :: rest => written rest

/-- All the frames written to the transport, in order. -/
def all_written : List Event → List (List Nat)
  | [] => []
  | Event.write _ bytes :: rest => bytes :: all_written rest
  | _ :: rest => all_written rest

/-- The frames written to the transport for the entry `src`, in order. -/
def written_for (src : PacketRef) : List Event → List (List Nat)
  | [] => []
  | Event.write r bytes :: rest =>
    if r = src then bytes :: written_for src rest else written_for src rest
  | _ :: rest => written_for src rest

/-- The ring is linked as `modbus_init` links it. -/
def ring_linked (s : ModbusState) : Prop :=
  ∀ i, i < MODBUS_QUEUE_LENGTH → (s.queue i).next = if i = MODBUS_QUEUE_LENGTH - 1 then 0 else i + 1

instance (s : ModbusState) : Decidable (ring_linked s) := by
  unfold ring_linked; infer_instance

/-- `modbus_send` with `block = false` stores the message: no blocking
transaction holds `packet` and the successor of `head` is not `tail`. -/
def accepts (s : ModbusState) : Bool :=
  decide (s.packet ≠ some PacketRef.sync_msg) && decide ((s.queue s.head).next ≠ s.tail)

/-- The slots holding requests not yet transmitted, from `tail` up to `head`. -/
def pending_slots (s : ModbusState) : List Nat :=
  (List.range ((s.head + MODBUS_QUEUE_LENGTH - s.tail) % MODBUS_QUEUE_LENGTH)).map
    (fun k => (s.tail + k) % MODBUS_QUEUE_LENGTH)

/-- The bytes `modbus_poll` writes when it dequeues slot `i`. -/
def slot_frame (s : ModbusState) (i : Nat) : List Nat :=
  (s.queue i).msg.adu.take (s.queue i).msg.tx_length

/-- The frames waiting in the ring, oldest first. -/
def pending_frames (s : ModbusState) : List (List Nat) :=
  (pending_slots s).map (slot_frame s)

/-- The frame an action adds to the ring, if any. -/
def accepted_by (s : ModbusState) : Action → List (List Nat)
  | .send m _ => if accepts s then [frame_of m] else []
  | _ => []

/-- The frames of the sends of a run that were stored in the ring, in the
order of the calls. -/
def accepted_frames : List Action → ModbusState → List (List Nat)
  | [], _ => []
  | a :: rest, s => accepted_by s a ++ accepted_frames rest (step s a).1

/-- An Idle engine with an empty ring, as `modbus_init` leaves it and as it
is again whenever every transaction has been completed. -/
def idle_empty (s : ModbusState) : Prop :=
  s.state = .ModBus_Idle ∧ s.packet = none ∧ s.head = s.tail ∧
    s.head < MODBUS_QUEUE_LENGTH ∧ ring_linked s ∧ s.spin_lock = false

instance (s : ModbusState) : Decidable (idle_empty s) := by
  unfold idle_empty; infer_instance

/-- The slot before `t` in the ring. -/
def prev_slot (t : Nat) : Nat := (t + (MODBUS_QUEUE_LENGTH - 1)) % MODBUS_QUEUE_LENGTH

/-- What holds of the engine between the actions of a run without blocking
calls: the ring is intact, requests waiting in it are asynchronous, and the
state tells whether `packet` is set, in which case it is the slot just
before `tail`. -/
structure Inv (s : ModbusState) : Prop where
  head_lt : s.head < MODBUS_QUEUE_LENGTH
  tail_lt : s.tail < MODBUS_QUEUE_LENGTH
  linked : ring_linked s
  unlocked : s.spin_lock = false
  pending_async : ∀ i ∈ pending_slots s, (s.queue i).async = true
  phase : ((s.state = .ModBus_Idle ∨ s.state = .ModBus_Silent) ∧ s.packet = none) ∨
    ((s.state = .ModBus_TX ∨ s.state = .ModBus_AwaitReply) ∧
      s.packet = some (.slot (prev_slot s.tail)) ∧
      (s.queue (prev_slot s.tail)).async = true ∧ (s.queue (prev_slot s.tail)).sent = true)

/-- The blocking dispatcher holds the transaction slot: `packet` is the
static `sync_msg`, which is not asynchronous, and the transaction is being
transmitted or awaits its reply. -/
def SyncPhase (s : ModbusState) : Prop :=
  s.packet = some .sync_msg ∧ s.sync_msg.async = false ∧
    (s.state = .ModBus_TX ∨ s.state = .ModBus_AwaitReply) ∧ s.spin_lock = false

instance (s : ModbusState) : Decidable (SyncPhase s) := by
  unfold SyncPhase; infer_instance

/-- Number of `on_rx_packet` calls made for the entry `src`. -/
def packet_calls (src : PacketRef) (evs : List Event) : Nat :=
  evs.countP (fun e => match e with
    | .on_rx_packet r _ _ => decide (r = src)
    | _ => false)

/-- Number of `on_rx_exception` calls made for the entry `src`. -/
def exception_calls (src : PacketRef) (evs : List Event) : Nat :=
  evs.countP (fun e => match e with
    | .on_rx_exception r _ _ _ => decide (r = src)
    | _ => false)

/-- The ticks at which an action polls the engine. -/
def Action.ticks : Action → List Nat
  | .poll env => [env.ms]
  | .send _ _ => []
  | .send_block _ _ sched => sched.map (fun env => env.ms)

/-! ## Sample data -/

/-- The engine after `modbus_init` and a settings load that falls back to
the defaults: 19200 baud, response timeout 50 ms, silence 2 ms. -/
def demo_engine : ModbusState := modbus_settings_load none (modbus_init false)

/-- A poll at tick `ms` that sees an empty transmit buffer and `rx` received
bytes waiting. -/
def demo_poll (ms : Nat) (rx : List Int) : PollEnv :=
  { ms := ms, tx_buffer_count := 0, rx_buffer_count := rx.length, rx := rx }

/-- A read request for `n` registers from device 1, without CRC check of the
8-byte reply. -/
def demo_request (n : Nat) : modbus_message_t :=
  { context := n, crc_check := false, tx_length := 8, rx_length := 8,
    adu := [0x01, 0x03, 0x00, 0x00, 0x00, n, 0, 0, 0, 0] }

/-- An 8-byte reply. -/
def demo_reply : List Int := [0x01, 0x03, 0x04, 0x00, 0x00, 0x00, 0x00, 0x00]

/-- The polls that carry one transaction from Idle through TX, AwaitReply and
Silent back to Idle, starting at tick `t + 1`. -/
def demo_cycle (t : Nat) : List Action :=
  [.poll (demo_poll (t + 1) []), .poll (demo_poll (t + 2) []),
   .poll (demo_poll (t + 3) demo_reply), .poll (demo_poll (t + 5) [])]

/-- A ring filled to capacity: the requests 1 to 7 wait in the eight slots. -/
def demo_full_ring : ModbusState :=
  (run ((List.range 7).map (fun n => Action.send (demo_request (n + 1)) none)) demo_engine).1

/-- A poll at tick `ms` during which nothing has been received. -/
def demo_quiet_poll (ms : Nat) : PollEnv := demo_poll ms []

/-- The buffer with bit `k` of byte `i` flipped. -/
def flip_bit (adu : List Nat) (i k : Nat) : List Nat :=
  adu.set i (adu.getD i 0 ^^^ 2 ^ k)

/-- The engine once a transaction ended by a poll has been handed back to
the firmware.  An asynchronous transaction is already in Silent.  A blocking
one is left in Timeout, Exception or GotReply for the dispatcher loop of
`modbus_send`, which makes the callback and leaves through `release`. -/
def after_terminal (s : ModbusState) : ModbusState :=
  if s.state = .ModBus_Silent then s else release s

/-- The engine at 2400 baud, where the default silence duration is 16 ms. -/
def demo_slow_engine : ModbusState :=
  modbus_settings_load (some { baud_rate := 2400, rx_timeout := 50 }) (modbus_init false)

/-- Two requests are queued and the first is carried to the capture of its
reply at tick 4294967280, which is `2 ^ 32 - 16`. -/
def demo_wrap_prefix : List Action :=
  [.send (demo_request 1) none, .send (demo_request 2) none,
   .poll (demo_poll 4294967278 []), .poll (demo_poll 4294967279 []),
   .poll (demo_poll 4294967280 demo_reply)]

/-! ## Sample scenarios -/

/-- Both callbacks supplied: `on_rx_packet` is function 1, `on_rx_exception`
function 2. -/
def demo_callbacks : Option modbus_callbacks_t :=
  some { on_rx_packet := some 1, on_rx_exception := some 2 }

/-- Scheduler calls at the ticks `t + 1` to `t + n`, one per millisecond,
each seeing an empty transmit buffer and the bytes `rx` received. -/
def demo_sched (t n : Nat) (rx : List Int) : List PollEnv :=
  (List.range n).map (fun k => demo_poll (t + k + 1) rx)

/-- A 6-byte read request to device 1 with CRC check of the 6-byte reply. -/
def demo_short_request : modbus_message_t :=
  { context := 16, crc_check := true, tx_length := 6, rx_length := 6,
    adu := [0x01, 0x03, 0x00, 0x01, 0, 0, 0, 0, 0, 0] }

/-- The scheduler calls of the concrete scenario: one call per millisecond
from tick 1; the request is written after the call at tick 1 and the valid
6-byte reply (the frame 01 03 00 01 with its CRC) is there 10 ms later. -/
def demo_scenario_sched : List PollEnv :=
  demo_sched 0 10 [] ++ demo_sched 10 5 ((frame_of demo_short_request).map Int.ofNat)

/-- An 8-byte write request to the device at `address`, with CRC check. -/
def demo_write_request (address : Nat) : modbus_message_t :=
  { context := 5, crc_check := true, tx_length := 8, rx_length := 8,
    adu := [address, 0x06, 0x00, 0x01, 0x00, 0x02, 0, 0, 0, 0] }

/-- The exception reply of the device at `address` to function 6 with
exception code 2: five bytes. -/
def demo_exception_reply (address : Nat) : List Int :=
  (frame_of { context := 0, crc_check := true, tx_length := 5, rx_length := 5,
              adu := [address, 0x86, 0x02, 0, 0, 0, 0, 0, 0, 0] }).map Int.ofNat

/-- Scheduler calls of a blocking transaction started on an idle engine at
tick `t + 1` during which the five bytes `rx` are all that is received: the
50 ms countdown expires at tick `t + 52`. -/
def demo_timeout_sched (t : Nat) (rx : List Int) : List PollEnv :=
  demo_sched t 2 [] ++ demo_sched (t + 2) 50 rx

/-- An 8-byte reply whose CRC bytes are wrong. -/
def demo_bad_reply : List Int := [0x01, 0x06, 0x00, 0x01, 0x00, 0x02, 0x00, 0x00]

/-! ## Vocabulary of the reply claims -/

/-- The message an action hands to `modbus_send`, if any. -/
def Action.messages : Action → List modbus_message_t
  | .poll _ => []
  | .send m _ => [m]
  | .send_block m _ _ => [m]

/-- The messages handed to `modbus_send` in a run, in the order of the calls. -/
def sent_messages : List Action → List modbus_message_t
  | [] => []
  | a :: rest => a.messages ++ sent_messages rest

/-- The message `m` handed to `modbus_send` as the engine holds it once the
reply bytes `rx` have been captured: the CRC bytes were stored at send time,
then the capture loop has stored one byte read per pass from `adu[0]` on and
has counted `rx_length` down to 0. -/
def captured (m : modbus_message_t) (rx : List Int) : modbus_message_t :=
  { insert_crc m with
    adu := read_reply rx (capture_count m.rx_length) 0 (insert_crc m).adu, rx_length := 0 }

/-- Every request waiting in the ring, and the one `packet` designates, is a
message of `sent` as `modbus_send` stored it. -/
def Tracked (sent : List modbus_message_t) (s : ModbusState) : Prop :=
  (∀ i ∈ pending_slots s, ∃ m ∈ sent, (s.queue i).msg = insert_crc m) ∧
    (∀ r, s.packet = some r → ∃ m ∈ sent, (entry_of s r).msg = insert_crc m)

/-- A blocking 5-byte write request with CRC check of a 5-byte reply. -/
def demo_tiny_request : modbus_message_t :=
  { context := 9, crc_check := true, tx_length := 5, rx_length := 5,
    adu := [0x01, 0x06, 0x02, 0, 0, 0, 0, 0, 0, 0] }

/-- The message `m'` is one of the messages of `sent` with a reply captured
into it; when the message asks for the CRC check, the receive-side test on
the captured bytes has passed. -/
def IsReply (sent : List modbus_message_t) (m' : modbus_message_t) : Prop :=
  ∃ m ∈ sent, ∃ rx, m' = captured m rx ∧
    (m.crc_check = true → rx_crc_error m'.adu m.rx_length = false)

/-! ## Vocabulary of the termination claim -/

/-- A host scheduler as the blocking branch of `modbus_send` needs it: call
`j` polls the engine once with the answers `g j`; every call advances the
tick, beyond `last_ms` to begin with, and the pending-transmit count is zero
again after finitely many calls, from any call on. -/
def Advancing (g : Nat → PollEnv) (s : ModbusState) : Prop :=
  s.last_ms < (g 0).ms ∧ (∀ j, (g j).ms < (g (j + 1)).ms) ∧
    (∀ k, ∃ j, k ≤ j ∧ (g j).tx_buffer_count = 0)

/-- The wait loop of the blocking branch is done after finitely many calls
of the scheduler `g`, whatever calls `extra` would follow, and the scheduler
goes on advancing from there. -/
def WaitDone (g : Nat → PollEnv) (s : ModbusState) : Prop :=
  ∃ n, ∀ extra,
    (wait_idle ((List.range n).map g ++ extra) s).2.2 = some extra ∧
    Advancing (fun j => g (n + j)) (wait_idle ((List.range n).map g ++ extra) s).1 ∧
    (wait_idle ((List.range n).map g ++ extra) s).1.modbus = s.modbus

/-- The dispatcher loop of the blocking branch is done after finitely many
calls of the scheduler `g`, whatever calls `extra` would follow. -/
def DispatchDone (g : Nat → PollEnv) (s : ModbusState) : Prop :=
  ∃ n b, ∀ extra, (dispatch ((List.range n).map g ++ extra) s).2.2 = some b

/-! ## Baud rate setting (`modbus_set_baud`, `modbus_get_baud`) -/

/-- `modbus_set_baud (id, value)`: the selector `value` indexes the tables
`baud` and `silence.timeout`.  For `value` of 6 or more the C code reads past
the end of both tables; the embedding reads 0 there.  The call of
`stream.set_baud_rate`, which reprograms the serial port, touches no static
of the engine. -/
def modbus_set_baud (value : Nat) (s : ModbusState) : ModbusState :=
  { s with modbus := { s.modbus with baud_rate := baud.getD value 0 },
           silence_timeout := s.silence.getD value 0 }

/-- `modbus_get_baud (setting)`. -/
def modbus_get_baud (s : ModbusState) : Nat := get_baudrate s.modbus.baud_rate

/-- The silence table `v1_silence` of the Huanyang v1 client (`vfd/huanyang.c`). -/
def v1_silence : List Nat := [16, 8, 6, 6, 6, 6]

/-- Seven requests are queued on the engine after initialisation, the first
is taken from the ring by the poll at tick 1, and an eighth request is
queued. -/
def demo_busy_actions : List Action :=
  (List.range 7).map (fun n => Action.send (demo_request (n + 1)) demo_callbacks) ++
    [.poll (demo_poll 1 []), .send (demo_request 8) demo_callbacks]
/-! ## The `adu` positions the engine touches -/

/-- The positions of `buf` that `modbus_CRC16x (buf, len)` reads: `buf[pos]`
for `pos` from 0 to `len - 1`. -/
def crc_accesses (len : Nat) : List Int := (List.range len).map Int.ofNat

/-- The positions of `msg->adu` the first statements of `modbus_send` touch:
those read by `modbus_CRC16x (msg->adu, msg->tx_length - 2)`, then
`msg->tx_length - 1` and `msg->tx_length - 2`, computed in `int`. -/
def send_accesses (m : modbus_message_t) : List Int :=
  crc_accesses (to_uint_fast16 ((m.tx_length : Int) - 2)) ++
    [(m.tx_length : Int) - 1, (m.tx_length : Int) - 2]

/-- The positions of `adu` the capture loop of `modbus_poll` writes: one per
pass, from 0 on. -/
def capture_accesses (m : modbus_message_t) : List Int :=
  (List.range (capture_count m.rx_length)).map Int.ofNat

/-- The positions of `adu` the receive-side CRC check of `modbus_poll` reads
when `crc_check` is set: those read by `modbus_CRC16x (adu, rx_len - 2)`,
then `rx_len - 2` and `rx_len - 1`. -/
def check_accesses (m : modbus_message_t) : List Int :=
  if m.crc_check then
    crc_accesses (to_uint_fast16 ((m.rx_length : Int) - 2)) ++
      [(m.rx_length : Int) - 2, (m.rx_length : Int) - 1]
  else []
/-! ## Inside a call of `modbus_poll` -/

/-- The statics while `modbus_poll` makes the callback of the asynchronous
transaction `r` whose reply it has just captured: the guard `spin_lock` has
been set on entry, the countdown has been lowered, the reply is in the entry
and `state` has been assigned `ModBus_Silent`; `packet`, `silence_until` and
`last_ms` are assigned only after the callback. -/
def poll_in_callback (env : PollEnv) (s : ModbusState) (r : PacketRef) : ModbusState :=
  let e := entry_of s r
  let e1 := { e with msg := { e.msg with
      adu := read_reply env.rx (capture_count e.msg.rx_length) 0 e.msg.adu, rx_length := 0 } }
  { store_entry { s with rx_timeout := s.rx_timeout - 1 } r e1 with
    state := .ModBus_Silent, spin_lock := true }

/-- The statements of `modbus_poll` that follow the callback of an
asynchronous transaction: `packet = NULL; silence_until = ms + silence_timeout;`
and, after the `switch`, `last_ms = ms; spin_lock = false;`. -/
def poll_after_callback (env : PollEnv) (s : ModbusState) : ModbusState :=
  { s with packet := none, silence_until := add_u32 env.ms s.silence_timeout,
           last_ms := env.ms, spin_lock := false }

/-! ## Reset (`modbus_reset`) -/

/-- Outcome of a call of `modbus_reset`: the engine afterwards, the events of
the call, and whether the call has reached `driver_reset ()`. -/
structure ResetResult where
  st : ModbusState
  events : List Event
  done : Bool

/-- The loop `while(state != ModBus_Idle) modbus_poll();` of `modbus_reset`;
`polls` are the answers of the environment to the successive calls of
`modbus_poll`.  The last component tells whether the loop has ended. -/
def reset_drain : List PollEnv → ModbusState → ModbusState × List Event × Bool
  | [], s => (s, [], decide (s.state = .ModBus_Idle))
  | env :: rest, s =>
    if s.state = .ModBus_Idle then (s, [], true)
    else
      let r := modbus_poll env s
      let d := reset_drain rest r.1
      (d.1, r.2 ++ d.2.1, d.2.2)

/-- `modbus_reset ()`; `abort` is `sys.abort`.  `while(spin_lock);` never
ends when the guard is set. -/
def modbus_reset (abort : Bool) (polls : List PollEnv) (s : ModbusState) : ResetResult :=
  if s.spin_lock then { st := s, events := [], done := false }
  else if abort then
    let d := reset_drain polls
      { s with packet := none, tail := s.head, silence_until := 0, state := .ModBus_Idle }
    { st := d.1, events := [Event.flush_tx_buffer, Event.flush_rx_buffer] ++ d.2.1,
      done := d.2.2 }
  else
    let d := reset_drain polls s
    { st := d.1, events := d.2.1, done := d.2.2 }

/-! ## The polls a run makes -/

/-- The scheduler calls the wait loop of the blocking branch makes out of
`sched`: it stops after the first poll that leaves the engine in Idle. -/
def wait_idle_calls : List PollEnv → ModbusState → List PollEnv
  | [], _ => []
  | env :: rest, s =>
    let r := modbus_poll env s
    if r.1.state = .ModBus_Idle then [env] else env :: wait_idle_calls rest r.1

/-- The scheduler calls the dispatcher loop of the blocking branch makes out
of `sched`: it stops after the first poll that leaves the engine in Timeout,
Exception or GotReply. -/
def dispatch_calls : List PollEnv → ModbusState → List PollEnv
  | [], _ => []
  | env :: rest, s =>
    let r := modbus_poll env s
    match r.1.state with
    | .ModBus_Timeout => [env]
    | .ModBus_Exception => [env]
    | .ModBus_GotReply => [env]
    | _ => env :: dispatch_calls rest r.1

/-- The calls of `modbus_poll` made during a call of `modbus_send`: none by
a non-blocking call, those of the two loops by a blocking call. -/
def send_calls (s : ModbusState) (msg : modbus_message_t)
    (callbacks : Option modbus_callbacks_t) (block : Bool) (sched : List PollEnv) :
    List PollEnv :=
  if s.spin_lock then []
  else if block then
    match (wait_idle sched s).2.2 with
    | none => wait_idle_calls sched s
    | some rest =>
      wait_idle_calls sched s ++
        dispatch_calls rest (begin_sync (wait_idle sched s).1 (insert_crc msg) callbacks)
  else []

/-- The calls of `modbus_poll` made during one action. -/
def step_calls (s : ModbusState) : Action → List PollEnv
  | .poll env => [env]
  | .send _ _ => []
  | .send_block msg callbacks sched => send_calls s msg callbacks true sched

/-- The calls of `modbus_poll` made during a run, in order.  Nothing follows
a call that has not returned. -/
def run_calls : List Action → ModbusState → List PollEnv
  | [], _ => []
  | a :: rest, s =>
    let r := step s a
    if r.2.2 then step_calls s a ++ run_calls rest r.1 else step_calls s a

/-- The message `m'` is one of the messages of `sent` after the capture loop
has run in one of the polls `polls`: that poll found at least `rx_length`
bytes pending and stored what its calls of `stream.read()` returned. -/
def IsCapture (sent : List modbus_message_t) (polls : List PollEnv)
    (m' : modbus_message_t) : Prop :=
  ∃ m ∈ sent, ∃ env ∈ polls, m.rx_length ≤ env.rx_buffer_count ∧ m' = captured m env.rx

/-! ## A callback of the blocking dispatcher -/

/-- The engine as the dispatcher loop of a blocking `modbus_send` leaves it,
which is how the callback made in the last pass of that loop finds it: the
statements `packet = NULL; state = silence_until > 0 ? ...` come after the
loop.  When the call is still at `while(spin_lock);` or in its wait loop, the
engine as it is there. -/
def send_at_callback (s : ModbusState) (msg : modbus_message_t)
    (callbacks : Option modbus_callbacks_t) (sched : List PollEnv) : ModbusState :=
  if s.spin_lock then s
  else
    match (wait_idle sched s).2.2 with
    | none => (wait_idle sched s).1
    | some rest => (dispatch rest (begin_sync (wait_idle sched s).1 (insert_crc msg) callbacks)).1

/-! ## Facts about the CRC codec -/

theorem crc_bit_eq_spec_shift (c : Nat) (h : c < 65536) : crc_bit c = spec_shift c := by
  have h1 : c / 2 < 2 ^ 16 := by omega
  have h2 : (c / 2) ^^^ 0xA001 < 2 ^ 16 := Nat.xor_lt_two_pow h1 (by norm_num)
  unfold crc_bit spec_shift
  rw [Nat.and_one_is_mod, Nat.shiftRight_one]
  by_cases hc : c % 2 = 1
  · have : c % 2 ≠ 0 := by omega
    rw [if_pos this, if_pos hc]
    exact Nat.mod_eq_of_lt h2
  · have : ¬ (c % 2 ≠ 0) := by omega
    rw [if_neg this, if_neg hc]

theorem spec_shift_lt (c : Nat) (h : c < 65536) : spec_shift c < 65536 := by
  have h1 : c / 2 < 2 ^ 16 := by omega
  have h2 : (c / 2) ^^^ 0xA001 < 2 ^ 16 := Nat.xor_lt_two_pow h1 (by norm_num)
  unfold spec_shift
  split
  · exact h2
  · omega

theorem spec_shift_iterate_lt (i c : Nat) (h : c < 65536) : spec_shift^[i] c < 65536 := by
  induction i generalizing c with
  | zero => simpa using h
  | succ i ih =>
    rw [Function.iterate_succ_apply]
    exact ih _ (spec_shift_lt c h)

theorem crc_bits_eq_iterate (i c : Nat) (h : c < 65536) :
    crc_bits i c = spec_shift^[i] c := by
  induction i generalizing c with
  | zero => rfl
  | succ i ih =>
    rw [Function.iterate_succ_apply, crc_bits, crc_bit_eq_spec_shift c h]
    exact ih _ (spec_shift_lt c h)

theorem xor_low_byte (c b : Nat) (hb : b < 256) :
    c ^^^ b = c / 256 * 256 + ((c % 256) ^^^ b) := by
  have hlow : (c % 256) ^^^ b < 2 ^ 8 :=
    Nat.xor_lt_two_pow (Nat.mod_lt _ (by norm_num)) hb
  apply Nat.eq_of_testBit_eq
  intro j
  have e : c / 256 * 256 + ((c % 256) ^^^ b) = 2 ^ 8 * (c / 256) + ((c % 256) ^^^ b) := by
    omega
  rw [e, Nat.testBit_mul_pow_two_add _ hlow, Nat.testBit_xor]
  by_cases hj : j < 8
  · rw [if_pos hj, Nat.testBit_xor]
    have : (256 : Nat) = 2 ^ 8 := by norm_num
    rw [this, Nat.testBit_mod_two_pow]
    simp [hj]
  · rw [if_neg hj]
    have hbj : b.testBit j = false := by
      apply Nat.testBit_lt_two_pow
      calc b < 2 ^ 8 := hb
        _ ≤ 2 ^ j := Nat.pow_le_pow_right (by norm_num) (by omega)
    have hc : (c / 256).testBit (j - 8) = c.testBit j := by
      have : c / 256 = c >>> 8 := by rw [Nat.shiftRight_eq_div_pow]
      rw [this, Nat.testBit_shiftRight]
      congr 1
      omega
    rw [hbj, hc]
    simp

theorem crc_step_eq_spec (crc b : Nat) (hc : crc < 65536) (hb : b < 256) :
    crc_bits 8 ((crc ^^^ (b % 65536)) % 65536) = spec_crc_byte crc b := by
  have hb2 : b < 2 ^ 16 := by omega
  have hx : crc ^^^ b < 2 ^ 16 := Nat.xor_lt_two_pow hc hb2
  have hx2 : crc ^^^ b < 65536 := hx
  rw [Nat.mod_eq_of_lt (show b < 65536 by omega), Nat.mod_eq_of_lt hx2,
    crc_bits_eq_iterate 8 _ hx2, xor_low_byte crc b hb]
  rfl

theorem spec_crc_byte_lt (crc b : Nat) (hc : crc < 65536) (hb : b < 256) :
    spec_crc_byte crc b < 65536 := by
  have hb2 : b < 2 ^ 16 := by omega
  have hx : crc ^^^ b < 2 ^ 16 := Nat.xor_lt_two_pow hc hb2
  unfold spec_crc_byte
  rw [← xor_low_byte crc b hb]
  exact spec_shift_iterate_lt 8 _ hx

/-- The outer loop of `modbus_CRC16x` folds the specification's byte step
over the bytes it visits. -/
theorem crc_from_eq_foldl (buf : List Nat) (hbuf : ∀ b ∈ buf, b < 256) :
    ∀ (n pos crc : Nat), crc < 65536 → pos + n ≤ buf.length →
      crc_from buf n pos crc = ((buf.drop pos).take n).foldl spec_crc_byte crc := by
  intro n
  induction n with
  | zero => intro pos crc _ _; simp [crc_from]
  | succ n ih =>
    intro pos crc hc hlen
    have hpos : pos < buf.length := by omega
    have hget : buf.getD pos 0 = buf[pos] := by
      simp [List.getD_eq_getElem?_getD, List.getElem?_eq_getElem hpos]
    have hb : buf[pos] < 256 := hbuf _ (List.getElem_mem hpos)
    rw [crc_from, hget, crc_step_eq_spec crc _ hc hb,
      ih (pos + 1) _ (spec_crc_byte_lt crc _ hc hb) (by omega)]
    rw [List.drop_eq_getElem_cons hpos, List.take_succ_cons, List.foldl_cons]

theorem modbus_CRC16x_eq_foldl (buf : List Nat) (hbuf : ∀ b ∈ buf, b < 256) (n : Nat)
    (hn : n ≤ buf.length) :
    modbus_CRC16x buf n = (buf.take n).foldl spec_crc_byte 0xFFFF := by
  unfold modbus_CRC16x
  rw [crc_from_eq_foldl buf hbuf n 0 0xFFFF (by norm_num) (by omega)]
  simp

/-! ## The request ring -/

theorem pending_slots_dequeue (s : ModbusState) (hh : s.head < MODBUS_QUEUE_LENGTH)
    (ht : s.tail < MODBUS_QUEUE_LENGTH) (hne : s.tail ≠ s.head) (t' : Nat)
    (ht' : t' = if s.tail = MODBUS_QUEUE_LENGTH - 1 then 0 else s.tail + 1) (s' : ModbusState)
    (hhead : s'.head = s.head) (htail : s'.tail = t') :
    pending_slots s = s.tail :: pending_slots s' := by
  unfold pending_slots
  rw [hhead, htail]
  simp only [ MODBUS_QUEUE_LENGTH] at *
  obtain ⟨c, hc⟩ : ∃ c, (s.head + 8 - s.tail) % 8 = c + 1 := ⟨(s.head + 8 - s.tail) % 8 - 1, by omega⟩
  have hc' : (s.head + 8 - t') % 8 = c := by subst ht'; split <;> omega
  rw [hc, hc', List.range_succ_eq_map, List.map_cons, List.map_map]
  congr 1
  · omega
  · apply List.map_congr_left
    intro k _
    subst ht'
    simp only [Function.comp]
    split <;> omega

theorem pending_slots_enqueue (s : ModbusState) (hh : s.head < MODBUS_QUEUE_LENGTH)
    (ht : s.tail < MODBUS_QUEUE_LENGTH) (h' : Nat)
    (hh' : h' = if s.head = MODBUS_QUEUE_LENGTH - 1 then 0 else s.head + 1) (hne : h' ≠ s.tail)
    (s' : ModbusState) (hhead : s'.head = h') (htail : s'.tail = s.tail) :
    pending_slots s' = pending_slots s ++ [s.head] := by
  unfold pending_slots
  rw [hhead, htail]
  simp only [ MODBUS_QUEUE_LENGTH] at *
  have hc' : (h' + 8 - s.tail) % 8 = (s.head + 8 - s.tail) % 8 + 1 := by
    subst hh'; split at hne <;> simp_all <;> omega
  rw [hc', List.range_succ, List.map_append, List.map_singleton]
  congr 2
  omega

theorem mem_pending_slots (s : ModbusState) (i : Nat) :
    i ∈ pending_slots s ↔
      ∃ k, k < (s.head + MODBUS_QUEUE_LENGTH - s.tail) % MODBUS_QUEUE_LENGTH ∧
        (s.tail + k) % MODBUS_QUEUE_LENGTH = i := by
  simp [pending_slots]

theorem prev_slot_not_pending (s : ModbusState) : prev_slot s.tail ∉ pending_slots s := by
  rw [mem_pending_slots]
  simp only [ MODBUS_QUEUE_LENGTH, prev_slot] at *
  rintro ⟨k, hk, he⟩
  omega

theorem head_not_pending (s : ModbusState) : s.head ∉ pending_slots s := by
  rw [mem_pending_slots]
  simp only [ MODBUS_QUEUE_LENGTH] at *
  rintro ⟨k, hk, he⟩
  omega

theorem pending_slots_congr (s s' : ModbusState) (hhead : s'.head = s.head)
    (htail : s'.tail = s.tail) : pending_slots s' = pending_slots s := by
  unfold pending_slots
  rw [hhead, htail]

theorem pending_frames_congr (s s' : ModbusState) (hhead : s'.head = s.head)
    (htail : s'.tail = s.tail)
    (hq : ∀ i ∈ pending_slots s, s'.queue i = s.queue i) :
    pending_frames s' = pending_frames s := by
  unfold pending_frames
  rw [pending_slots_congr s s' hhead htail]
  apply List.map_congr_left
  intro i hi
  simp only [slot_frame, hq i hi]

theorem written_append (a b : List Event) : written (a ++ b) = written a ++ written b := by
  induction a with
  | nil => rfl
  | cons e a ih =>
    cases e with
    | write src bytes => cases src <;> simp [written, ih]
    | _ => simp [written, ih]

theorem written_direction_events (s : ModbusState) (tx : Bool) :
    written (direction_events s tx) = [] := by
  unfold direction_events; split <;> rfl

theorem written_exception_events (r : PacketRef) (e : queue_entry_t) (c : Nat) :
    written (exception_events r e c) = [] := by
  unfold exception_events; split <;> rfl

theorem written_packet_events (r : PacketRef) (e : queue_entry_t) :
    written (packet_events r e) = [] := by
  unfold packet_events; split <;> rfl

theorem written_replicate_read (n : Nat) : written (List.replicate n Event.read) = [] := by
  induction n with
  | zero => rfl
  | succ n ih => simp [List.replicate_succ, written, ih]

theorem Inv.of_same_ring (s s' : ModbusState) (h : Inv s) (hhead : s'.head = s.head)
    (htail : s'.tail = s.tail) (hq : s'.queue = s.queue) (hl : s'.spin_lock = false)
    (hp : ((s'.state = .ModBus_Idle ∨ s'.state = .ModBus_Silent) ∧ s'.packet = none) ∨
      ((s'.state = .ModBus_TX ∨ s'.state = .ModBus_AwaitReply) ∧
        s'.packet = some (.slot (prev_slot s'.tail)) ∧
        (s'.queue (prev_slot s'.tail)).async = true ∧
        (s'.queue (prev_slot s'.tail)).sent = true)) : Inv s' where
  head_lt := hhead ▸ h.head_lt
  tail_lt := htail ▸ h.tail_lt
  linked := by
    intro i hi
    rw [hq]
    exact h.linked i hi
  unlocked := hl
  pending_async := by
    intro i hi
    rw [pending_slots_congr s s' hhead htail] at hi
    rw [hq]
    exact h.pending_async i hi
  phase := hp

theorem Inv.of_store_prev (s s' : ModbusState) (h : Inv s) (e : queue_entry_t)
    (hhead : s'.head = s.head) (htail : s'.tail = s.tail)
    (hq : s'.queue = set_entry s.queue (prev_slot s.tail) e)
    (hnext : e.next = (s.queue (prev_slot s.tail)).next)
    (hl : s'.spin_lock = false)
    (hp : (s'.state = .ModBus_Idle ∨ s'.state = .ModBus_Silent) ∧ s'.packet = none) :
    Inv s' where
  head_lt := hhead ▸ h.head_lt
  tail_lt := htail ▸ h.tail_lt
  linked := by
    intro i hi
    rw [hq]
    unfold set_entry
    split
    · next heq => rw [hnext, ← heq]; exact h.linked i hi
    · exact h.linked i hi
  unlocked := hl
  pending_async := by
    intro i hi
    rw [pending_slots_congr s s' hhead htail] at hi
    have hne : i ≠ prev_slot s.tail := fun heq => prev_slot_not_pending s (heq ▸ hi)
    rw [hq]
    simp only [set_entry, if_neg hne]
    exact h.pending_async i hi
  phase := Or.inl hp

theorem pending_frames_store_prev (s s' : ModbusState) (e : queue_entry_t)
    (hhead : s'.head = s.head) (htail : s'.tail = s.tail)
    (hq : s'.queue = set_entry s.queue (prev_slot s.tail) e) :
    pending_frames s' = pending_frames s := by
  apply pending_frames_congr s s' hhead htail
  intro i hi
  have hne : i ≠ prev_slot s.tail := fun heq => prev_slot_not_pending s (heq ▸ hi)
  rw [hq]
  simp only [set_entry, if_neg hne]

theorem poll_await_reply_inv (env : PollEnv) (s : ModbusState) (h : Inv s)
    (hpk : s.packet = some (.slot (prev_slot s.tail)))
    (hasync : (s.queue (prev_slot s.tail)).async = true)
    (hsent : (s.queue (prev_slot s.tail)).sent = true)
    (hst : s.state = .ModBus_AwaitReply) :
    Inv (poll_await_reply env s (.slot (prev_slot s.tail))).1 ∧
      written (poll_await_reply env s (.slot (prev_slot s.tail))).2 = [] ∧
      pending_frames (poll_await_reply env s (.slot (prev_slot s.tail))).1 = pending_frames s := by
  unfold poll_await_reply
  simp only [entry_of, hasync, if_true, store_entry]
  split_ifs
  · refine ⟨Inv.of_same_ring s _ h rfl rfl rfl rfl (Or.inl ⟨Or.inr rfl, rfl⟩), rfl, ?_⟩
    exact pending_frames_congr s _ rfl rfl (fun _ _ => rfl)
  · refine ⟨Inv.of_store_prev s _ h _ rfl rfl rfl rfl rfl ⟨Or.inr rfl, rfl⟩, ?_, ?_⟩
    · simp [written_append, written, written_replicate_read, written_exception_events]
    · exact pending_frames_store_prev s _ _ rfl rfl rfl
  · refine ⟨Inv.of_store_prev s _ h _ rfl rfl rfl rfl rfl ⟨Or.inr rfl, rfl⟩, ?_, ?_⟩
    · simp [written_append, written, written_replicate_read, written_packet_events]
    · exact pending_frames_store_prev s _ _ rfl rfl rfl
  · refine ⟨Inv.of_same_ring s _ h rfl rfl rfl rfl (Or.inr ⟨Or.inr hst, hpk, hasync, hsent⟩),
      rfl, ?_⟩
    exact pending_frames_congr s _ rfl rfl (fun _ _ => rfl)

theorem poll_inv (env : PollEnv) (s : ModbusState) (h : Inv s) :
    Inv (modbus_poll env s).1 ∧
      written (modbus_poll env s).2 ++ pending_frames (modbus_poll env s).1 = pending_frames s := by
  by_cases hgate : env.ms = s.last_ms ∨ s.spin_lock = true
  · simp only [modbus_poll, if_pos hgate]
    exact ⟨h, rfl⟩
  · simp only [modbus_poll, if_neg hgate]
    rcases h.phase with ⟨hst | hst, hpk⟩ | ⟨hst | hst, hpk, hasync, hsent⟩
    · -- Idle
      simp only [hst, hpk]
      by_cases hdq : s.tail ≠ s.head ∧ True
      · rw [if_pos hdq]
        have hnext := h.linked s.tail h.tail_lt
        have hmem := pending_slots_dequeue s h.head_lt h.tail_lt hdq.1 _ hnext
            { s with packet := some (.slot s.tail), tail := (s.queue s.tail).next,
                     state := .ModBus_TX, rx_timeout := s.modbus.rx_timeout,
                     queue := set_entry s.queue s.tail { s.queue s.tail with sent := true },
                     last_ms := env.ms, spin_lock := false } rfl rfl
        have hprev : prev_slot (s.queue s.tail).next = s.tail := by
          have := h.tail_lt
          rw [hnext]
          simp only [prev_slot, MODBUS_QUEUE_LENGTH] at *
          split <;> omega
        have hnotin : ∀ i ∈ pending_slots
            { s with packet := some (.slot s.tail), tail := (s.queue s.tail).next,
                     state := .ModBus_TX, rx_timeout := s.modbus.rx_timeout,
                     queue := set_entry s.queue s.tail { s.queue s.tail with sent := true },
                     last_ms := env.ms, spin_lock := false }, i ≠ s.tail := by
          intro i hi heq
          have := prev_slot_not_pending
            { s with packet := some (.slot s.tail), tail := (s.queue s.tail).next,
                     state := .ModBus_TX, rx_timeout := s.modbus.rx_timeout,
                     queue := set_entry s.queue s.tail { s.queue s.tail with sent := true },
                     last_ms := env.ms, spin_lock := false }
          simp only [hprev] at this
          exact this (heq ▸ hi)
        have htl : (s.queue s.tail).next < MODBUS_QUEUE_LENGTH := by
          have := h.tail_lt
          rw [hnext]
          simp only [ MODBUS_QUEUE_LENGTH] at *
          split <;> omega
        refine ⟨⟨h.head_lt, htl, ?_, rfl, ?_, Or.inr ⟨Or.inl rfl, ?_, ?_, ?_⟩⟩, ?_⟩
        · intro i hi
          simp only [set_entry]
          split
          · next heq => rw [← heq]; exact h.linked i hi
          · exact h.linked i hi
        · intro i hi
          have hne := hnotin i hi
          simp only [set_entry, if_neg hne]
          exact h.pending_async i (by rw [hmem]; exact List.mem_cons_of_mem _ hi)
        · simp only [hprev]
        · simp only [hprev, set_entry, if_true]
          exact h.pending_async s.tail (by rw [hmem]; exact List.mem_cons_self _ _)
        · simp only [hprev, set_entry, if_true]
        · have hw : written (direction_events s true ++ [Event.flush_rx_buffer,
              Event.write (.slot s.tail)
                (List.take (s.queue s.tail).msg.tx_length (s.queue s.tail).msg.adu)]) =
              [slot_frame s s.tail] := by
            simp [written_append, written, written_direction_events, slot_frame]
          rw [hw]
          show _ = pending_frames s
          conv_rhs => rw [pending_frames, hmem, List.map_cons]
          simp only [List.singleton_append, pending_frames]
          congr 1
          apply List.map_congr_left
          intro i hi
          have hne := hnotin i hi
          simp only [slot_frame, set_entry, if_neg hne]
      · rw [if_neg hdq]
        refine ⟨Inv.of_same_ring s _ h rfl rfl rfl rfl (Or.inl ⟨Or.inl rfl, rfl⟩), ?_⟩
        exact pending_frames_congr s _ rfl rfl (fun _ _ => rfl)
    · -- Silent
      simp only [hst]
      split_ifs
      · refine ⟨Inv.of_same_ring s _ h rfl rfl rfl rfl (Or.inl ⟨Or.inl rfl, hpk⟩), ?_⟩
        exact pending_frames_congr s _ rfl rfl (fun _ _ => rfl)
      · refine ⟨Inv.of_same_ring s _ h rfl rfl rfl rfl (Or.inl ⟨Or.inr rfl, hpk⟩), ?_⟩
        exact pending_frames_congr s _ rfl rfl (fun _ _ => rfl)
    · -- TX
      simp only [hst]
      split_ifs
      · refine ⟨Inv.of_same_ring s _ h rfl rfl rfl rfl
          (Or.inr ⟨Or.inr rfl, hpk, hasync, hsent⟩), ?_⟩
        have hw : written ([Event.get_tx_buffer_count, Event.flush_rx_buffer] ++
            direction_events s false) = [] := by
          simp [written_append, written, written_direction_events]
        rw [hw]
        exact pending_frames_congr s _ rfl rfl (fun _ _ => rfl)
      · refine ⟨Inv.of_same_ring s _ h rfl rfl rfl rfl
          (Or.inr ⟨Or.inl rfl, hpk, hasync, hsent⟩), ?_⟩
        exact pending_frames_congr s _ rfl rfl (fun _ _ => rfl)
    · -- AwaitReply
      simp only [hst, hpk]
      obtain ⟨h1, h2, h3⟩ := poll_await_reply_inv env s h hpk hasync hsent hst
      exact ⟨h1, by rw [h2, h3]; rfl⟩

theorem add_message_next (p : queue_entry_t) (m : modbus_message_t)
    (c : Option modbus_callbacks_t) : (add_message p m c).next = p.next := by
  cases c <;> rfl

theorem add_message_msg (p : queue_entry_t) (m : modbus_message_t)
    (c : Option modbus_callbacks_t) : (add_message p m c).msg = m := by
  cases c <;> rfl

theorem Inv.packet_ne_sync (s : ModbusState) (h : Inv s) : s.packet ≠ some .sync_msg := by
  rcases h.phase with ⟨_, hpk⟩ | ⟨_, hpk, _⟩ <;> rw [hpk] <;> simp

theorem send_async_eq (s : ModbusState) (h : Inv s) (m : modbus_message_t)
    (c : Option modbus_callbacks_t) (sched : List PollEnv) :
    modbus_send s m c false sched =
      if (s.queue s.head).next ≠ s.tail then
        { st := { s with queue := set_entry s.queue s.head
                            { add_message (s.queue s.head) (insert_crc m) c with async := true },
                         head := (s.queue s.head).next },
          msg := insert_crc m, events := [], ret := some true }
      else { st := s, msg := insert_crc m, events := [], ret := some true } := by
  unfold modbus_send
  simp [h.unlocked, h.packet_ne_sync]

theorem accepts_eq (s : ModbusState) (h : Inv s) :
    accepts s = decide ((s.queue s.head).next ≠ s.tail) := by
  unfold accepts
  simp [h.packet_ne_sync]

theorem enqueue_inv (s s' : ModbusState) (h : Inv s) (e : queue_entry_t)
    (hroom : (s.queue s.head).next ≠ s.tail)
    (hq : s'.queue = set_entry s.queue s.head e) (hhead : s'.head = (s.queue s.head).next)
    (htail : s'.tail = s.tail) (hst : s'.state = s.state) (hpk : s'.packet = s.packet)
    (hl : s'.spin_lock = s.spin_lock) (hen : e.next = (s.queue s.head).next)
    (hea : e.async = true) :
    Inv s' ∧ pending_frames s' = pending_frames s ++ [e.msg.adu.take e.msg.tx_length] := by
  have hnext := h.linked s.head h.head_lt
  have hslots := pending_slots_enqueue s h.head_lt h.tail_lt _ hnext hroom s' hhead htail
  have hhd : (s.queue s.head).next < MODBUS_QUEUE_LENGTH := by
    have := h.head_lt
    rw [hnext]
    simp only [ MODBUS_QUEUE_LENGTH] at *
    split <;> omega
  have hprev : prev_slot s.tail ≠ s.head := by
    have := h.head_lt
    have := h.tail_lt
    rw [hnext] at hroom
    simp only [prev_slot, MODBUS_QUEUE_LENGTH] at *
    split at hroom <;> omega
  refine ⟨⟨hhead ▸ hhd, htail ▸ h.tail_lt, ?_, hl ▸ h.unlocked, ?_, ?_⟩, ?_⟩
  · intro i hi
    rw [hq]
    simp only [set_entry]
    split
    · next heq => rw [hen, ← heq]; exact h.linked i hi
    · exact h.linked i hi
  · intro i hi
    rw [hslots, List.mem_append, List.mem_singleton] at hi
    rw [hq]
    simp only [set_entry]
    split
    · exact hea
    · next hne =>
      rcases hi with hi | hi
      · exact h.pending_async i hi
      · exact absurd hi hne
  · rw [hst, hpk, htail, hq]
    simp only [set_entry, if_neg hprev]
    exact h.phase
  · rw [pending_frames, hslots, List.map_append, List.map_singleton]
    congr 1
    · apply List.map_congr_left
      intro i hi
      have hne : i ≠ s.head := fun heq => head_not_pending s (heq ▸ hi)
      simp only [slot_frame, hq, set_entry, if_neg hne]
    · simp only [slot_frame, hq, set_entry, if_true]

theorem send_inv (s : ModbusState) (h : Inv s) (m : modbus_message_t)
    (c : Option modbus_callbacks_t) :
    Inv (modbus_send s m c false []).st ∧ (modbus_send s m c false []).events = [] ∧
      pending_frames (modbus_send s m c false []).st =
        pending_frames s ++ accepted_by s (.send m c) := by
  rw [send_async_eq s h]
  simp only [accepted_by, accepts_eq s h]
  by_cases hroom : (s.queue s.head).next ≠ s.tail
  · rw [if_pos hroom, if_pos (by simpa using hroom)]
    obtain ⟨h1, h2⟩ := enqueue_inv s
      { s with queue := set_entry s.queue s.head
                  { add_message (s.queue s.head) (insert_crc m) c with async := true },
               head := (s.queue s.head).next } h
      { add_message (s.queue s.head) (insert_crc m) c with async := true }
      hroom rfl rfl rfl rfl rfl rfl (add_message_next _ _ _) rfl
    refine ⟨h1, rfl, ?_⟩
    rw [h2]
    simp only [add_message_msg]
    rfl
  · rw [if_neg hroom, if_neg (by simpa using hroom), List.append_nil]
    exact ⟨h, rfl, rfl⟩

theorem step_inv (s : ModbusState) (h : Inv s) (a : Action) (ha : a.nonblocking) :
    Inv (step s a).1 ∧ (step s a).2.2 = true ∧
      written (step s a).2.1 ++ pending_frames (step s a).1 =
        pending_frames s ++ accepted_by s a := by
  cases a with
  | poll env =>
    obtain ⟨h1, h2⟩ := poll_inv env s h
    exact ⟨h1, rfl, by simpa [step, accepted_by] using h2⟩
  | send m c =>
    obtain ⟨h1, h2, h3⟩ := send_inv s h m c
    refine ⟨h1, ?_, ?_⟩
    · show (modbus_send s m c false []).ret.isSome = true
      rw [send_async_eq s h]
      split <;> rfl
    · show written (modbus_send s m c false []).events ++
        pending_frames (modbus_send s m c false []).st = _
      rw [h2, h3]
      rfl
  | send_block m c sched => exact absurd ha (by simp [Action.nonblocking])

theorem run_inv (actions : List Action) (hnb : ∀ a ∈ actions, a.nonblocking)
    (s : ModbusState) (h : Inv s) :
    Inv (run actions s).1 ∧
      written (run actions s).2 ++ pending_frames (run actions s).1 =
        pending_frames s ++ accepted_frames actions s := by
  induction actions generalizing s with
  | nil => exact ⟨h, by simp [run, accepted_frames, written]⟩
  | cons a rest ih =>
    obtain ⟨h1, hret, h2⟩ := step_inv s h a (hnb a (List.mem_cons_self _ _))
    obtain ⟨h3, h4⟩ := ih (fun b hb => hnb b (List.mem_cons_of_mem _ hb)) (step s a).1 h1
    simp only [run, hret, if_true]
    refine ⟨h3, ?_⟩
    simp only [accepted_frames, written_append, List.append_assoc]
    rw [h4, ← List.append_assoc, h2, List.append_assoc]

theorem idle_empty_inv (s : ModbusState) (h : idle_empty s) : Inv s := by
  obtain ⟨hst, hpk, hht, hlt, hlink, hlock⟩ := h
  refine ⟨hlt, hht ▸ hlt, hlink, hlock, ?_, Or.inl ⟨Or.inl hst, hpk⟩⟩
  intro i hi
  rw [mem_pending_slots, hht] at hi
  obtain ⟨k, hk, _⟩ := hi
  have := hht ▸ hlt
  simp only [ MODBUS_QUEUE_LENGTH] at *
  omega

theorem idle_empty_pending (s : ModbusState) (h : idle_empty s) : pending_frames s = [] := by
  obtain ⟨_, _, hht, hlt, _, _⟩ := h
  have := hht ▸ hlt
  have hc : (s.head + MODBUS_QUEUE_LENGTH - s.tail) % MODBUS_QUEUE_LENGTH = 0 := by
    simp only [ MODBUS_QUEUE_LENGTH] at *
    omega
  simp [pending_frames, pending_slots, hc]

/-! ## Frames -/

theorem to_uint_fast16_sub_two (n : Nat) (h2 : 2 ≤ n) (hn : n < 4294967296) :
    to_uint_fast16 ((n : Int) - 2) = n - 2 := by
  unfold to_uint_fast16
  omega

theorem modbus_CRC16x_lt (buf : List Nat) (hbuf : ∀ b ∈ buf, b < 256) (n : Nat)
    (hn : n ≤ buf.length) : modbus_CRC16x buf n < 65536 := by
  rw [modbus_CRC16x_eq_foldl buf hbuf n hn]
  have hall : ∀ b ∈ buf.take n, b < 256 := fun b hb => hbuf b (List.mem_of_mem_take hb)
  generalize buf.take n = l at hall
  have : ∀ (l : List Nat) (c : Nat), c < 65536 → (∀ b ∈ l, b < 256) →
      l.foldl spec_crc_byte c < 65536 := by
    intro l
    induction l with
    | nil => intro c hc _; simpa using hc
    | cons b l ih =>
      intro c hc hl
      rw [List.foldl_cons]
      exact ih _ (spec_crc_byte_lt c b hc (hl b (List.mem_cons_self _ _)))
        (fun x hx => hl x (List.mem_cons_of_mem _ hx))
  exact this l _ (by norm_num) hall

theorem take_set_set (adu : List Nat) (n lo hi : Nat) (h2 : 2 ≤ n) (hn : n ≤ adu.length) :
    ((adu.set (n - 1) hi).set (n - 2) lo).take n = adu.take (n - 2) ++ [lo, hi] := by
  apply List.ext_getElem?
  intro i
  simp only [List.getElem?_take, List.getElem?_set, List.getElem?_append, List.length_take,
    List.length_set]
  by_cases h1 : i < n - 2
  · have e1 : ¬ (n - 2 = i) := by omega
    have e2 : ¬ (n - 1 = i) := by omega
    have e3 : i < n := by omega
    have e4 : i < min (n - 2) adu.length := by omega
    simp [e1, e2, e3, e4, h1]
  · by_cases h3 : i = n - 2
    · subst h3
      have e3 : n - 2 < n := by omega
      have e4 : ¬ (n - 2 < min (n - 2) adu.length) := by omega
      have e5 : n - 2 < adu.length := by omega
      have e6 : n - 2 - min (n - 2) adu.length = 0 := by omega
      simp [e3, e4, e5, e6]
    · by_cases h4 : i = n - 1
      · subst h4
        have e1 : ¬ (n - 2 = n - 1) := by omega
        have e3 : n - 1 < n := by omega
        have e4 : ¬ (n - 1 < min (n - 2) adu.length) := by omega
        have e5 : n - 1 < adu.length := by omega
        have e6 : n - 1 - min (n - 2) adu.length = 1 := by omega
        simp [e1, e3, e4, e5, e6]
      · have e3 : ¬ (i < n) := by omega
        have e4 : ¬ (i < min (n - 2) adu.length) := by omega
        have e6 : ∃ k, i - min (n - 2) adu.length = k + 2 :=
          ⟨i - min (n - 2) adu.length - 2, by omega⟩
        obtain ⟨k, hk⟩ := e6
        simp [e3, e4, hk]

theorem frame_of_eq_spec_frame_tx (m : modbus_message_t) (h : frame_wf m) :
    frame_of m = spec_frame m := by
  obtain ⟨hlen, hbytes, h2, hmax⟩ := h
  simp only [ MODBUS_MAX_ADU_SIZE] at *
  have hcrc := modbus_CRC16x_lt m.adu hbytes (m.tx_length - 2) (by omega)
  unfold frame_of spec_frame insert_crc
  simp only
  rw [to_uint_fast16_sub_two _ h2 (by omega), take_set_set _ _ _ _ h2 (by omega)]
  have e1 : modbus_CRC16x m.adu (m.tx_length - 2) &&& 0xFF =
      modbus_CRC16x m.adu (m.tx_length - 2) % 256 :=
    Nat.and_pow_two_sub_one_eq_mod _ 8
  have e2 : (modbus_CRC16x m.adu (m.tx_length - 2) >>> 8) % 256 =
      modbus_CRC16x m.adu (m.tx_length - 2) / 256 := by
    rw [Nat.shiftRight_eq_div_pow]
    omega
  rw [e1, e2]

theorem packet_calls_append (src : PacketRef) (a b : List Event) :
    packet_calls src (a ++ b) = packet_calls src a + packet_calls src b := by
  simp [packet_calls, List.countP_append]

theorem exception_calls_append (src : PacketRef) (a b : List Event) :
    exception_calls src (a ++ b) = exception_calls src a + exception_calls src b := by
  simp [exception_calls, List.countP_append]

theorem all_written_append (a b : List Event) :
    all_written (a ++ b) = all_written a ++ all_written b := by
  induction a with
  | nil => rfl
  | cons e a ih => cases e <;> simp [all_written, ih]

theorem packet_calls_cons (src : PacketRef) (e : Event) (l : List Event) :
    packet_calls src (e :: l) =
      (match e with
        | .on_rx_packet r _ _ => if r = src then 1 else 0
        | _ => 0) + packet_calls src l := by
  cases e <;> simp [packet_calls, List.countP_cons, Nat.add_comm]

theorem exception_calls_cons (src : PacketRef) (e : Event) (l : List Event) :
    exception_calls src (e :: l) =
      (match e with
        | .on_rx_exception r _ _ _ => if r = src then 1 else 0
        | _ => 0) + exception_calls src l := by
  cases e <;> simp [exception_calls, List.countP_cons, Nat.add_comm]

theorem packet_calls_nil (src : PacketRef) : packet_calls src [] = 0 := rfl

theorem exception_calls_nil (src : PacketRef) : exception_calls src [] = 0 := rfl

theorem calls_replicate_read (src : PacketRef) (n : Nat) :
    packet_calls src (List.replicate n Event.read) = 0 ∧
      exception_calls src (List.replicate n Event.read) = 0 ∧
      all_written (List.replicate n Event.read) = [] := by
  induction n with
  | zero => exact ⟨rfl, rfl, rfl⟩
  | succ n ih =>
    obtain ⟨h1, h2, h3⟩ := ih
    refine ⟨?_, ?_, ?_⟩
    · simp [List.replicate_succ, packet_calls_cons, h1]
    · simp [List.replicate_succ, exception_calls_cons, h2]
    · simp [List.replicate_succ, all_written, h3]

theorem calls_direction_events (src : PacketRef) (s : ModbusState) (tx : Bool) :
    packet_calls src (direction_events s tx) = 0 ∧
      exception_calls src (direction_events s tx) = 0 ∧
      all_written (direction_events s tx) = [] := by
  unfold direction_events
  split <;> exact ⟨rfl, rfl, rfl⟩

/-- One poll while the blocking dispatcher holds the slot: the ring and the
callbacks of `sync_msg` are untouched, nothing is written, no callback is
made, and the transaction either stays in flight or reaches one of the three
terminal states the dispatcher looks for. -/
theorem poll_sync (env : PollEnv) (s : ModbusState) (h : SyncPhase s) :
    (modbus_poll env s).1.packet = some .sync_msg ∧
    (modbus_poll env s).1.sync_msg.async = false ∧
    (modbus_poll env s).1.spin_lock = false ∧
    (modbus_poll env s).1.sync_msg.callbacks = s.sync_msg.callbacks ∧
    (modbus_poll env s).1.sync_msg.msg.context = s.sync_msg.msg.context ∧
    (modbus_poll env s).1.queue = s.queue ∧
    (modbus_poll env s).1.head = s.head ∧
    (modbus_poll env s).1.tail = s.tail ∧
    packet_calls .sync_msg (modbus_poll env s).2 = 0 ∧
    exception_calls .sync_msg (modbus_poll env s).2 = 0 ∧
    all_written (modbus_poll env s).2 = [] ∧
    ((modbus_poll env s).1.state = .ModBus_TX ∨ (modbus_poll env s).1.state = .ModBus_AwaitReply ∨
      (modbus_poll env s).1.state = .ModBus_Timeout ∨
      (modbus_poll env s).1.state = .ModBus_Exception ∨
      ((modbus_poll env s).1.state = .ModBus_GotReply ∧
        env.rx_buffer_count ≥ s.sync_msg.msg.rx_length)) ∧
    ((modbus_poll env s).1.state = .ModBus_TX ∨ (modbus_poll env s).1.state = .ModBus_AwaitReply →
      (modbus_poll env s).1.sync_msg = s.sync_msg) := by
  obtain ⟨hpk, hasync, hst, hlock⟩ := h
  by_cases hgate : env.ms = s.last_ms ∨ s.spin_lock = true
  · simp only [modbus_poll, if_pos hgate]
    rcases hst with hst | hst <;>
      simp [hpk, hasync, hlock, hst, packet_calls_nil, exception_calls_nil, all_written]
  · simp only [modbus_poll, if_neg hgate]
    rcases hst with hst | hst
    · simp only [hst]
      have hd := calls_direction_events .sync_msg s false
      split_ifs <;>
        simp [hpk, hasync, packet_calls_cons, exception_calls_cons, packet_calls_nil,
          exception_calls_nil, packet_calls_append, exception_calls_append, all_written,
          all_written_append, hd]
    · simp only [hst, hpk, poll_await_reply, entry_of, hasync, store_entry, Bool.false_eq_true,
        if_false]
      have hr := calls_replicate_read .sync_msg (capture_count s.sync_msg.msg.rx_length)
      split_ifs <;>
        simp [hpk, hasync, packet_calls_cons, exception_calls_cons, packet_calls_nil,
          exception_calls_nil, packet_calls_append, exception_calls_append, all_written,
          all_written_append, hr]
      omega

theorem written_for_append (src : PacketRef) (a b : List Event) :
    written_for src (a ++ b) = written_for src a ++ written_for src b := by
  induction a with
  | nil => rfl
  | cons e a ih =>
    cases e with
    | write r bytes =>
      by_cases hr : r = src <;> simp [written_for, hr, ih]
    | _ => simp [written_for, ih]

theorem written_for_of_all_written (src : PacketRef) (evs : List Event)
    (h : all_written evs = []) : written_for src evs = [] := by
  induction evs with
  | nil => rfl
  | cons e evs ih =>
    cases e with
    | write r bytes => simp [all_written] at h
    | _ => simpa [written_for, all_written] using ih (by simpa [all_written] using h)

theorem written_for_replicate_read (src : PacketRef) (n : Nat) :
    written_for src (List.replicate n Event.read) = [] :=
  written_for_of_all_written src _ (calls_replicate_read src n).2.2

theorem written_for_direction_events (src : PacketRef) (s : ModbusState) (tx : Bool) :
    written_for src (direction_events s tx) = [] :=
  written_for_of_all_written src _ (calls_direction_events src s tx).2.2

theorem calls_exception_events (src r : PacketRef) (hne : r ≠ src) (e : queue_entry_t)
    (c : Nat) :
    packet_calls src (exception_events r e c) = 0 ∧
      exception_calls src (exception_events r e c) = 0 ∧
      written_for src (exception_events r e c) = [] := by
  unfold exception_events
  split <;> simp [packet_calls_cons, exception_calls_cons, packet_calls_nil,
    exception_calls_nil, written_for, hne]

theorem calls_packet_events (src r : PacketRef) (hne : r ≠ src) (e : queue_entry_t) :
    packet_calls src (packet_events r e) = 0 ∧
      exception_calls src (packet_events r e) = 0 ∧
      written_for src (packet_events r e) = [] := by
  unfold packet_events
  split <;> simp [packet_calls_cons, exception_calls_cons, packet_calls_nil,
    exception_calls_nil, written_for, hne]

/-- One poll while `packet` is not the static `sync_msg`: it still is not
afterwards, and nothing is written or called back on behalf of `sync_msg`. -/
theorem poll_not_sync (env : PollEnv) (s : ModbusState) (h : s.packet ≠ some .sync_msg) :
    (modbus_poll env s).1.packet ≠ some .sync_msg ∧
    packet_calls .sync_msg (modbus_poll env s).2 = 0 ∧
    exception_calls .sync_msg (modbus_poll env s).2 = 0 ∧
    written_for .sync_msg (modbus_poll env s).2 = [] := by
  by_cases hgate : env.ms = s.last_ms ∨ s.spin_lock = true
  · simp only [modbus_poll, if_pos hgate]
    exact ⟨h, rfl, rfl, rfl⟩
  · simp only [modbus_poll, if_neg hgate]
    have hd := fun tx => calls_direction_events .sync_msg s tx
    have hw := fun tx => written_for_direction_events .sync_msg s tx
    by_cases hA : s.state = .ModBus_AwaitReply
    · simp only [hA]
      cases hpk : s.packet with
      | none => simp [hpk, packet_calls_nil, exception_calls_nil, written_for]
      | some r =>
        have hne : r ≠ .sync_msg := fun heq => h (by rw [hpk, heq])
        have hr := calls_replicate_read .sync_msg (capture_count (entry_of s r).msg.rx_length)
        have hwr := written_for_replicate_read .sync_msg
          (capture_count (entry_of s r).msg.rx_length)
        have he := fun e c => calls_exception_events .sync_msg r hne e c
        have hp := fun e => calls_packet_events .sync_msg r hne e
        cases r with
        | sync_msg => exact absurd rfl hne
        | slot i =>
          simp only [poll_await_reply, store_entry]
          split_ifs <;>
            simp [hpk, packet_calls_cons, exception_calls_cons, packet_calls_nil,
              exception_calls_nil, packet_calls_append, exception_calls_append, written_for,
              written_for_append, hr, hwr, he, hp]
    · cases hst : s.state <;> first
        | exact absurd hst hA
        | exact ⟨h, rfl, rfl, rfl⟩
        | (simp only []
           split_ifs <;>
             simp [h, packet_calls_cons, exception_calls_cons, packet_calls_nil,
               exception_calls_nil, packet_calls_append, exception_calls_append, written_for,
               written_for_append, hd, hw])

theorem poll_unlocked (env : PollEnv) (s : ModbusState) (h : s.spin_lock = false) :
    (modbus_poll env s).1.spin_lock = false := by
  by_cases hgate : env.ms = s.last_ms ∨ s.spin_lock = true
  · simp only [modbus_poll, if_pos hgate]
    exact h
  · simp only [modbus_poll, if_neg hgate]
    by_cases hA : s.state = .ModBus_AwaitReply
    · simp only [hA]
      cases hpk : s.packet with
      | none => exact h
      | some r =>
        cases r <;> simp only [poll_await_reply, store_entry] <;> split_ifs <;> rfl
    · cases hst : s.state <;> simp only [] <;> first
        | exact absurd hst hA
        | rfl
        | (split_ifs <;> rfl)

/-- The wait loop of the blocking branch entered while `packet` is not the
static `sync_msg`: when it is done the engine is Idle, and nothing was
written or called back on behalf of `sync_msg`. -/
theorem wait_idle_not_sync (sched : List PollEnv) (s : ModbusState)
    (h : s.packet ≠ some .sync_msg) :
    (wait_idle sched s).1.packet ≠ some .sync_msg ∧
    packet_calls .sync_msg (wait_idle sched s).2.1 = 0 ∧
    exception_calls .sync_msg (wait_idle sched s).2.1 = 0 ∧
    written_for .sync_msg (wait_idle sched s).2.1 = [] ∧
    ((wait_idle sched s).2.2 ≠ none → (wait_idle sched s).1.state = .ModBus_Idle) := by
  induction sched generalizing s with
  | nil => exact ⟨h, rfl, rfl, rfl, fun hc => absurd rfl hc⟩
  | cons env rest ih =>
    obtain ⟨p1, p2, p3, p4⟩ := poll_not_sync env s h
    by_cases hidle : (modbus_poll env s).1.state = .ModBus_Idle
    · simp only [wait_idle, if_pos hidle]
      exact ⟨p1, p2, p3, p4, fun _ => hidle⟩
    · obtain ⟨q1, q2, q3, q4, q5⟩ := ih (modbus_poll env s).1 p1
      simp only [wait_idle, if_neg hidle, packet_calls_append, exception_calls_append,
        written_for_append, p2, p3, p4, q2, q3, q4]
      exact ⟨q1, by simp, by simp, by simp, q5⟩

theorem wait_idle_unlocked (sched : List PollEnv) (s : ModbusState)
    (h : s.spin_lock = false) : (wait_idle sched s).1.spin_lock = false := by
  induction sched generalizing s with
  | nil => exact h
  | cons env rest ih =>
    have p := poll_unlocked env s h
    by_cases hidle : (modbus_poll env s).1.state = .ModBus_Idle
    · simp only [wait_idle, if_pos hidle]; exact p
    · simp only [wait_idle, if_neg hidle]; exact ih _ p

theorem dispatch_quiet (sched : List PollEnv) (s : ModbusState) (h : SyncPhase s) :
    (dispatch sched s).1.queue = s.queue ∧ (dispatch sched s).1.head = s.head ∧
    (dispatch sched s).1.tail = s.tail ∧ (dispatch sched s).1.spin_lock = false ∧
    (dispatch sched s).1.packet = some .sync_msg ∧
    all_written (dispatch sched s).2.1 = [] := by
  induction sched generalizing s with
  | nil => simp [dispatch, all_written, h.2.2.2, h.1]
  | cons env rest ih =>
    obtain ⟨p1, p2, p3, p4, p5, p6, p7, p8, p9, p10, p11, p12, p13⟩ := poll_sync env s h
    have hx : ∀ c, all_written (packet_exception_events (modbus_poll env s).1 c) = [] := by
      intro c
      simp only [packet_exception_events, p1, exception_events]
      split <;> rfl
    have hy : all_written (packet_reply_events (modbus_poll env s).1) = [] := by
      simp only [packet_reply_events, p1, packet_events]
      split <;> rfl
    rcases p12 with hst | hst | hst | hst | ⟨hst, _⟩
    · obtain ⟨q1, q2, q3, q4, q5, q6⟩ := ih (modbus_poll env s).1 ⟨p1, p2, Or.inl hst, p3⟩
      simp only [dispatch, hst, all_written_append, p11, List.nil_append]
      exact ⟨by rw [q1, p6], by rw [q2, p7], by rw [q3, p8], q4, q5, q6⟩
    · obtain ⟨q1, q2, q3, q4, q5, q6⟩ := ih (modbus_poll env s).1 ⟨p1, p2, Or.inr hst, p3⟩
      simp only [dispatch, hst, all_written_append, p11, List.nil_append]
      exact ⟨by rw [q1, p6], by rw [q2, p7], by rw [q3, p8], q4, q5, q6⟩
    · simp only [dispatch, hst, all_written_append, p11, List.nil_append, hx]
      exact ⟨p6, p7, p8, p3, p1, by simp⟩
    · simp only [dispatch, hst, all_written_append, p11, List.nil_append, hx]
      exact ⟨p6, p7, p8, p3, p1, by simp⟩
    · simp only [dispatch, hst, all_written_append, p11, List.nil_append, hy]
      exact ⟨p6, p7, p8, p3, p1, by simp⟩


theorem begin_sync_phase (s : ModbusState) (m : modbus_message_t)
    (c : Option modbus_callbacks_t) (hl : s.spin_lock = false) :
    SyncPhase (begin_sync s m c) :=
  ⟨rfl, rfl, Or.inl rfl, hl⟩

theorem send_block_waiting (s : ModbusState) (m : modbus_message_t)
    (c : Option modbus_callbacks_t) (sched : List PollEnv) (hl : s.spin_lock = false)
    (hw : (wait_idle sched s).2.2 = none) :
    modbus_send s m c true sched =
      { st := (wait_idle sched s).1, msg := insert_crc m,
        events := (wait_idle sched s).2.1, ret := none } := by
  unfold modbus_send
  simp only [hl, Bool.false_eq_true, if_false, if_true, hw]

theorem send_block_running (s : ModbusState) (m : modbus_message_t)
    (c : Option modbus_callbacks_t) (sched rest : List PollEnv) (hl : s.spin_lock = false)
    (hw : (wait_idle sched s).2.2 = some rest)
    (hd : (dispatch rest (begin_sync (wait_idle sched s).1 (insert_crc m) c)).2.2 = none) :
    modbus_send s m c true sched =
      { st := (dispatch rest (begin_sync (wait_idle sched s).1 (insert_crc m) c)).1,
        msg := insert_crc m,
        events := (wait_idle sched s).2.1 ++
          begin_sync_events (wait_idle sched s).1 (insert_crc m) c ++
          (dispatch rest (begin_sync (wait_idle sched s).1 (insert_crc m) c)).2.1,
        ret := none } := by
  unfold modbus_send
  simp only [hl, Bool.false_eq_true, if_false, if_true, hw, hd]

theorem send_block_done (s : ModbusState) (m : modbus_message_t)
    (c : Option modbus_callbacks_t) (sched rest : List PollEnv) (b : Bool)
    (hl : s.spin_lock = false) (hw : (wait_idle sched s).2.2 = some rest)
    (hd : (dispatch rest (begin_sync (wait_idle sched s).1 (insert_crc m) c)).2.2 = some b) :
    modbus_send s m c true sched =
      { st := release (dispatch rest (begin_sync (wait_idle sched s).1 (insert_crc m) c)).1,
        msg := insert_crc m,
        events := (wait_idle sched s).2.1 ++
          begin_sync_events (wait_idle sched s).1 (insert_crc m) c ++
          (dispatch rest (begin_sync (wait_idle sched s).1 (insert_crc m) c)).2.1,
        ret := some (!b) } := by
  unfold modbus_send
  simp only [hl, Bool.false_eq_true, if_false, if_true, hw, hd]

theorem send_locked (s : ModbusState) (m : modbus_message_t)
    (c : Option modbus_callbacks_t) (block : Bool) (sched : List PollEnv)
    (hl : s.spin_lock = true) :
    modbus_send s m c block sched = { st := s, msg := insert_crc m, events := [], ret := none } := by
  unfold modbus_send
  simp only [hl, if_true]

theorem all_written_eq_written_of (evs : List Event)
    (h : written_for .sync_msg evs = []) : all_written evs = written evs := by
  induction evs with
  | nil => rfl
  | cons e evs ih =>
    cases e with
    | write r bytes =>
      cases r with
      | slot i =>
        simp only [written_for, all_written, written] at *
        rw [ih (by simpa using h)]
      | sync_msg => simp [written_for] at h
    | _ => simpa [written_for, all_written, written] using ih (by simpa [written_for] using h)

theorem step_written_for_sync (s : ModbusState) (h : Inv s) (a : Action) (ha : a.nonblocking) :
    written_for .sync_msg (step s a).2.1 = [] := by
  cases a with
  | poll env => exact (poll_not_sync env s h.packet_ne_sync).2.2.2
  | send m c =>
    show written_for .sync_msg (modbus_send s m c false []).events = []
    rw [(send_inv s h m c).2.1]
    rfl
  | send_block m c sched => exact absurd ha (by simp [Action.nonblocking])

theorem run_written_for_sync (actions : List Action) (hnb : ∀ a ∈ actions, a.nonblocking)
    (s : ModbusState) (h : Inv s) : written_for .sync_msg (run actions s).2 = [] := by
  induction actions generalizing s with
  | nil => rfl
  | cons a rest ih =>
    have ha := hnb a (List.mem_cons_self _ _)
    obtain ⟨h1, hret, _⟩ := step_inv s h a ha
    simp only [run, hret, if_true, written_for_append, step_written_for_sync s h a ha,
      List.nil_append]
    exact ih (fun b hb => hnb b (List.mem_cons_of_mem _ hb)) _ h1

/-- A poll takes a request from the ring, or writes a frame, only from Idle
with an empty `packet`, and then it takes the slot at `tail`. -/
theorem poll_starts_only_idle (env : PollEnv) (s : ModbusState)
    (h : all_written (modbus_poll env s).2 ≠ [] ∨ (modbus_poll env s).1.tail ≠ s.tail) :
    s.state = .ModBus_Idle ∧ s.packet = none ∧ s.tail ≠ s.head ∧
      (modbus_poll env s).1.state = .ModBus_TX ∧
      (modbus_poll env s).1.packet = some (.slot s.tail) := by
  by_cases hgate : env.ms = s.last_ms ∨ s.spin_lock = true
  · simp [modbus_poll, if_pos hgate, all_written] at h
  · simp only [modbus_poll, if_neg hgate] at h ⊢
    have hd := fun tx => (calls_direction_events .sync_msg s tx).2.2
    by_cases hA : s.state = .ModBus_AwaitReply
    · exfalso
      simp only [hA] at h
      cases hpk : s.packet with
      | none => simp [hpk, all_written] at h
      | some r =>
        have hr := (calls_replicate_read r (capture_count (entry_of s r).msg.rx_length)).2.2
        have he : ∀ e c, all_written (exception_events r e c) = [] := by
          intro e c; unfold exception_events; split <;> rfl
        have hp : ∀ e, all_written (packet_events r e) = [] := by
          intro e; unfold packet_events; split <;> rfl
        simp only [hpk, poll_await_reply] at h
        cases r <;> simp only [store_entry] at h <;> split_ifs at h <;>
          simp [all_written, all_written_append, hr, he, hp] at h
    · cases hst : s.state
      case neg.ModBus_Idle =>
        simp only [hst] at h ⊢
        split_ifs at h ⊢ with hc
        · refine ⟨?_, ?_, ?_, ?_, ?_⟩ <;> simp [hc.1, hc.2]
        · simp [all_written] at h
      all_goals first
        | exact absurd hst hA
        | (exfalso
           simp only [hst] at h
           first
             | (split_ifs at h <;> simp [all_written, all_written_append, hd] at h)
             | simp [all_written, all_written_append, hd] at h)

/-! ## Claims -/

set_option maxRecDepth 100000 in
/-- C1: for every sequence of bytes (unsigned values 0..255), `modbus_CRC16x`
over the whole sequence is the Modbus RTU CRC-16 of the specification (start
from 0xFFFF, XOR each byte into the low byte, eight right shifts with 0xA001
folded in whenever a 1 is shifted out); on the reference frame
01 03 00 00 00 01 it gives 0x0A84. -/
theorem modbus_CRC16x_is_modbus_rtu_crc (buf : List Nat) (hbuf : ∀ b ∈ buf, b < 256) :
    modbus_CRC16x buf buf.length = spec_crc16 buf ∧
      modbus_CRC16x [0x01, 0x03, 0x00, 0x00, 0x00, 0x01] 6 = 0x0A84 := by
  refine ⟨?_, by decide⟩
  rw [modbus_CRC16x_eq_foldl buf hbuf _ (le_refl _), List.take_length]
  rfl

set_option maxRecDepth 100000 in
/-- Witness for C1 on the frame 11 03 00 6B 00 03, whose CRC is 0x8776. -/
theorem modbus_CRC16x_is_modbus_rtu_crc_witness :
    modbus_CRC16x [0x11, 0x03, 0x00, 0x6B, 0x00, 0x03] 6 = 0x8776 ∧
      spec_crc16 [0x11, 0x03, 0x00, 0x6B, 0x00, 0x03] = 0x8776 := by
  have h := modbus_CRC16x_is_modbus_rtu_crc [0x11, 0x03, 0x00, 0x6B, 0x00, 0x03] (by decide)
  have e : modbus_CRC16x [0x11, 0x03, 0x00, 0x6B, 0x00, 0x03] 6 = 0x8776 := by decide
  exact ⟨e, by rw [← h.1]; exact e⟩

theorem demo_engine_idle_empty : idle_empty demo_engine := by
  decide

theorem run_all_written (actions : List Action) (hnb : ∀ a ∈ actions, a.nonblocking)
    (s : ModbusState) (h : Inv s) :
    all_written (run actions s).2 ++ pending_frames (run actions s).1 =
      pending_frames s ++ accepted_frames actions s := by
  rw [all_written_eq_written_of _ (run_written_for_sync actions hnb s h)]
  exact (run_inv actions hnb s h).2

/-- Amended C5: `modbus_send` with `block = false` returns true whether or
not the message was stored.  It is stored at `head`, which advances, when no
blocking transaction holds the slot and the successor of `head` is not
`tail`; otherwise the engine is left as it was and the message is dropped. -/
theorem send_async_returns_true (s : ModbusState) (m : modbus_message_t)
    (c : Option modbus_callbacks_t) (sched : List PollEnv) (hl : s.spin_lock = false) :
    (modbus_send s m c false sched).ret = some true ∧
    (accepts s = true →
      (modbus_send s m c false sched).st.head = (s.queue s.head).next ∧
      ((modbus_send s m c false sched).st.queue s.head).msg = insert_crc m ∧
      ((modbus_send s m c false sched).st.queue s.head).async = true) ∧
    (accepts s = false → (modbus_send s m c false sched).st = s) := by
  unfold modbus_send accepts
  simp only [hl, Bool.false_eq_true, if_false]
  by_cases hpk : s.packet = some .sync_msg
  · simp [hpk]
  · by_cases hroom : (s.queue s.head).next = s.tail
    · simp [hpk, hroom]
    · simp [hpk, hroom, set_entry, add_message_msg]

set_option maxRecDepth 100000 in
/-- Witness for the amended C5 on the freshly initialised engine. -/
theorem send_async_returns_true_witness :
    (modbus_send demo_engine (demo_request 1) none false []).ret = some true ∧
    (modbus_send demo_engine (demo_request 1) none false []).st.head = 1 := by
  have h := send_async_returns_true demo_engine (demo_request 1) none [] (by decide)
  exact ⟨h.1, by rw [(h.2.1 (by decide)).1]; decide⟩

set_option maxRecDepth 100000 in
/-- Counterexample to C5 as stated: with seven requests waiting the ring is
full, the eighth non-blocking send is dropped (`head` does not move) and the
call returns true, not false. -/
theorem send_async_full_ring_returns_true :
    (demo_full_ring.queue demo_full_ring.head).next = demo_full_ring.tail ∧
    (modbus_send demo_full_ring (demo_request 8) none false []).st.head = demo_full_ring.head ∧
    (modbus_send demo_full_ring (demo_request 8) none false []).ret = some true ∧
    (modbus_send demo_full_ring (demo_request 8) none false []).ret ≠ some false := by
  decide

/-- C6: a non-blocking `modbus_send` made while the ring is full (the
successor of `head` is `tail`) leaves the whole engine as it was, `head`,
`tail` and every queue entry included, and makes no transport call; whatever
the firmware does next therefore has the same effect, and writes the same
frames in the same order, as if the call had not been made. -/
theorem send_async_full_ring_unchanged (s : ModbusState) (m : modbus_message_t)
    (c : Option modbus_callbacks_t) (sched : List PollEnv) (hl : s.spin_lock = false)
    (hfull : (s.queue s.head).next = s.tail) :
    (modbus_send s m c false sched).st = s ∧
    (modbus_send s m c false sched).events = [] ∧
    ∀ actions, run actions (modbus_send s m c false sched).st = run actions s := by
  have hst : (modbus_send s m c false sched).st = s := by
    unfold modbus_send
    simp only [hl, Bool.false_eq_true, if_false, hfull, ne_eq, not_true_eq_false]
    split <;> rfl
  refine ⟨hst, ?_, fun actions => by rw [hst]⟩
  unfold modbus_send
  simp only [hl, Bool.false_eq_true, if_false, hfull, ne_eq, not_true_eq_false]
  split <;> rfl

set_option maxRecDepth 100000 in
/-- Witness for C6: an eighth request offered to the full ring holding the
requests 1 to 7; the requests 1 and 2 are then transmitted in that order. -/
theorem send_async_full_ring_unchanged_witness :
    (modbus_send demo_full_ring (demo_request 8) none false []).st = demo_full_ring ∧
    all_written (run (demo_cycle 0 ++ demo_cycle 5)
      (modbus_send demo_full_ring (demo_request 8) none false []).st).2 =
        [frame_of (demo_request 1), frame_of (demo_request 2)] := by
  have h := send_async_full_ring_unchanged demo_full_ring (demo_request 8) none []
    (by decide) (by decide)
  refine ⟨h.1, ?_⟩
  rw [h.2.2]
  decide

/-- C7: starting from an idle engine with an empty ring, in every run of
polls and non-blocking sends the frames written so far followed by the
frames still waiting in the ring are the frames of the accepted sends, in
the order the sends were made: the written frames are an initial segment of
the accepted ones, each written once, and all of them once the ring is empty
again. -/
theorem async_sends_transmitted_fifo (s0 : ModbusState) (h0 : idle_empty s0)
    (actions : List Action) (hnb : ∀ a ∈ actions, a.nonblocking)
    (_hwf : ∀ a ∈ actions, a.wf) :
    all_written (run actions s0).2 ++ pending_frames (run actions s0).1 =
      accepted_frames actions s0 ∧
    all_written (run actions s0).2 <+: accepted_frames actions s0 ∧
    ((run actions s0).1.head = (run actions s0).1.tail →
      all_written (run actions s0).2 = accepted_frames actions s0) := by
  have hrun := run_all_written actions hnb s0 (idle_empty_inv s0 h0)
  rw [idle_empty_pending s0 h0, List.nil_append] at hrun
  have hinv := (run_inv actions hnb s0 (idle_empty_inv s0 h0)).1
  refine ⟨hrun, ⟨_, hrun⟩, ?_⟩
  intro hempty
  have hlt := hinv.tail_lt
  have hc : ((run actions s0).1.head + MODBUS_QUEUE_LENGTH - (run actions s0).1.tail) %
      MODBUS_QUEUE_LENGTH = 0 := by
    rw [hempty]
    simp only [ MODBUS_QUEUE_LENGTH] at *
    omega
  have hp : pending_frames (run actions s0).1 = [] := by
    simp [pending_frames, pending_slots, hc]
  rw [hp, List.append_nil] at hrun
  exact hrun

set_option maxRecDepth 100000 in
/-- Witness for C7: the requests 1, 2, 3 are sent in that order and three
transactions are polled through; the frames written are those of 1, 2, 3. -/
theorem async_sends_transmitted_fifo_witness :
    accepted_frames ([Action.send (demo_request 1) none, .send (demo_request 2) none,
        .send (demo_request 3) none] ++ demo_cycle 0 ++ demo_cycle 5 ++ demo_cycle 10)
      demo_engine =
      [frame_of (demo_request 1), frame_of (demo_request 2), frame_of (demo_request 3)] ∧
    all_written (run ([Action.send (demo_request 1) none, .send (demo_request 2) none,
        .send (demo_request 3) none] ++ demo_cycle 0 ++ demo_cycle 5 ++ demo_cycle 10)
      demo_engine).2 =
      [frame_of (demo_request 1), frame_of (demo_request 2), frame_of (demo_request 3)] := by
  have h := async_sends_transmitted_fifo demo_engine demo_engine_idle_empty
    ([Action.send (demo_request 1) none, .send (demo_request 2) none,
        .send (demo_request 3) none] ++ demo_cycle 0 ++ demo_cycle 5 ++ demo_cycle 10)
    (by decide) (by decide)
  have hacc : accepted_frames ([Action.send (demo_request 1) none, .send (demo_request 2) none,
        .send (demo_request 3) none] ++ demo_cycle 0 ++ demo_cycle 5 ++ demo_cycle 10)
      demo_engine =
      [frame_of (demo_request 1), frame_of (demo_request 2), frame_of (demo_request 3)] := by
    decide
  exact ⟨hacc, by rw [h.2.2 (by decide), hacc]⟩

/-- C8: in every state reached from an idle engine by polls and non-blocking
sends, `packet` is empty when the state is Idle or Silent, and in every other
state it designates one ring slot, the one just before `tail`, whose request
has been sent; and from such a state a poll takes a request from the ring or
writes a frame only if the state is Idle and `packet` is empty, the request
then being the one at `tail`. -/
theorem single_transaction_in_flight (s0 : ModbusState) (h0 : idle_empty s0)
    (actions : List Action) (hnb : ∀ a ∈ actions, a.nonblocking)
    (_hwf : ∀ a ∈ actions, a.wf) :
    ((run actions s0).1.state = .ModBus_Idle ∨ (run actions s0).1.state = .ModBus_Silent →
      (run actions s0).1.packet = none) ∧
    ((run actions s0).1.state ≠ .ModBus_Idle → (run actions s0).1.state ≠ .ModBus_Silent →
      (run actions s0).1.packet = some (.slot (prev_slot (run actions s0).1.tail)) ∧
      ((run actions s0).1.queue (prev_slot (run actions s0).1.tail)).sent = true) ∧
    (∀ env, all_written (modbus_poll env (run actions s0).1).2 ≠ [] ∨
        (modbus_poll env (run actions s0).1).1.tail ≠ (run actions s0).1.tail →
      (run actions s0).1.state = .ModBus_Idle ∧ (run actions s0).1.packet = none ∧
      (modbus_poll env (run actions s0).1).1.state = .ModBus_TX ∧
      (modbus_poll env (run actions s0).1).1.packet = some (.slot (run actions s0).1.tail)) := by
  have hinv := (run_inv actions hnb s0 (idle_empty_inv s0 h0)).1
  refine ⟨?_, ?_, ?_⟩
  · intro hst
    rcases hinv.phase with ⟨_, hpk⟩ | ⟨hs, _⟩
    · exact hpk
    · rcases hst with h1 | h1 <;> rcases hs with h2 | h2 <;> rw [h1] at h2 <;> cases h2
  · intro hne1 hne2
    rcases hinv.phase with ⟨hs, _⟩ | ⟨_, hpk, _, hsent⟩
    · rcases hs with h1 | h1
      · exact absurd h1 hne1
      · exact absurd h1 hne2
    · exact ⟨hpk, hsent⟩
  · intro env h
    obtain ⟨h1, h2, _, h4, h5⟩ := poll_starts_only_idle env _ h
    exact ⟨h1, h2, h4, h5⟩

set_option maxRecDepth 100000 in
/-- Witness for C8: two requests are queued and two polls are made; the
first request is in flight in slot 0 and the second waits. -/
theorem single_transaction_in_flight_witness :
    (run [Action.send (demo_request 1) none, .send (demo_request 2) none,
      .poll (demo_poll 1 []), .poll (demo_poll 2 [])] demo_engine).1.state =
        .ModBus_AwaitReply ∧
    (run [Action.send (demo_request 1) none, .send (demo_request 2) none,
      .poll (demo_poll 1 []), .poll (demo_poll 2 [])] demo_engine).1.packet =
        some (.slot 0) := by
  have h := single_transaction_in_flight demo_engine demo_engine_idle_empty
    [Action.send (demo_request 1) none, .send (demo_request 2) none,
      .poll (demo_poll 1 []), .poll (demo_poll 2 [])] (by decide) (by decide)
  have hst : (run [Action.send (demo_request 1) none, .send (demo_request 2) none,
      .poll (demo_poll 1 []), .poll (demo_poll 2 [])] demo_engine).1.state =
        .ModBus_AwaitReply := by decide
  refine ⟨hst, ?_⟩
  rw [(h.2.1 (by rw [hst]; decide) (by rw [hst]; decide)).1]
  decide

theorem crc_from_congr (buf buf' : List Nat) :
    ∀ (n pos crc : Nat), (∀ i, pos ≤ i → i < pos + n → buf.getD i 0 = buf'.getD i 0) →
      crc_from buf n pos crc = crc_from buf' n pos crc := by
  intro n
  induction n with
  | zero => intro pos crc _; rfl
  | succ n ih =>
    intro pos crc h
    rw [crc_from, crc_from, h pos (le_refl _) (by omega)]
    exact ih (pos + 1) _ (fun i h1 h2 => h i (by omega) (by omega))

theorem spec_shift_testBit (c : Nat) (hc : c < 65536) :
    (spec_shift c).testBit 15 = decide (c % 2 = 1) := by
  have h1 : (c / 2).testBit 15 = false := Nat.testBit_lt_two_pow (by omega)
  have h2 : Nat.testBit 0xA001 15 = true := by decide
  unfold spec_shift
  split
  · next h => rw [Nat.testBit_xor, h1, h2]; simp [h]
  · next h => rw [h1]; simp [h]

theorem spec_shift_injective (a b : Nat) (ha : a < 65536) (hb : b < 65536)
    (h : spec_shift a = spec_shift b) : a = b := by
  have hp : decide (a % 2 = 1) = decide (b % 2 = 1) := by
    rw [← spec_shift_testBit a ha, ← spec_shift_testBit b hb, h]
  have hp' : (a % 2 = 1) ↔ (b % 2 = 1) := by simpa using hp
  unfold spec_shift at h
  by_cases hodd : a % 2 = 1
  · rw [if_pos hodd, if_pos (hp'.mp hodd)] at h
    have := Nat.xor_left_inj.mp h
    have := hp'.mp hodd
    omega
  · rw [if_neg hodd, if_neg (fun hb' => hodd (hp'.mpr hb'))] at h
    have : ¬ b % 2 = 1 := fun hb' => hodd (hp'.mpr hb')
    omega

theorem spec_shift_iterate_injective (n a b : Nat) (ha : a < 65536) (hb : b < 65536)
    (h : spec_shift^[n] a = spec_shift^[n] b) : a = b := by
  induction n generalizing a b with
  | zero => simpa using h
  | succ n ih =>
    rw [Function.iterate_succ_apply, Function.iterate_succ_apply] at h
    exact spec_shift_injective a b ha hb (ih _ _ (spec_shift_lt a ha) (spec_shift_lt b hb) h)

theorem spec_crc_byte_eq_iff (c c' b b' : Nat) (hc : c < 65536) (hc' : c' < 65536)
    (hb : b < 256) (hb' : b' < 256) (h : spec_crc_byte c b = spec_crc_byte c' b') :
    c ^^^ b = c' ^^^ b' := by
  unfold spec_crc_byte at h
  rw [← xor_low_byte c b hb, ← xor_low_byte c' b' hb'] at h
  have h1 : c ^^^ b < 2 ^ 16 := Nat.xor_lt_two_pow hc (by omega)
  have h2 : c' ^^^ b' < 2 ^ 16 := Nat.xor_lt_two_pow hc' (by omega)
  exact spec_shift_iterate_injective 8 _ _ h1 h2 h

/-- Different running values stay different over equal bytes. -/
theorem crc_from_ne_of_crc_ne (buf buf' : List Nat) :
    ∀ (n pos c c' : Nat), c < 65536 → c' < 65536 → c ≠ c' →
      (∀ i, pos ≤ i → i < pos + n → buf.getD i 0 = buf'.getD i 0) →
      (∀ i, pos ≤ i → i < pos + n → buf.getD i 0 < 256) →
      crc_from buf n pos c ≠ crc_from buf' n pos c' := by
  intro n
  induction n with
  | zero => intro pos c c' _ _ hne _ _; simpa [crc_from] using hne
  | succ n ih =>
    intro pos c c' hc hc' hne hag hby
    have hb := hby pos (le_refl _) (by omega)
    have hb' : buf'.getD pos 0 < 256 := by rw [← hag pos (le_refl _) (by omega)]; exact hb
    rw [crc_from, crc_from, crc_step_eq_spec c _ hc hb, crc_step_eq_spec c' _ hc' hb']
    apply ih (pos + 1) _ _ (spec_crc_byte_lt c _ hc hb) (spec_crc_byte_lt c' _ hc' hb')
    · intro heq
      have := spec_crc_byte_eq_iff c c' _ _ hc hc' hb hb' heq
      rw [hag pos (le_refl _) (by omega)] at this
      exact hne (Nat.xor_left_inj.mp this)
    · exact fun i h1 h2 => hag i (by omega) (by omega)
    · exact fun i h1 h2 => hby i (by omega) (by omega)

/-- Two buffers that differ in exactly one of the bytes visited have
different CRCs. -/
theorem crc_from_ne_of_byte_ne (buf buf' : List Nat) (j : Nat) :
    ∀ (n pos c : Nat), c < 65536 → pos ≤ j → j < pos + n →
      buf.getD j 0 ≠ buf'.getD j 0 →
      (∀ i, i ≠ j → buf.getD i 0 = buf'.getD i 0) →
      (∀ i, buf.getD i 0 < 256) → (∀ i, buf'.getD i 0 < 256) →
      crc_from buf n pos c ≠ crc_from buf' n pos c := by
  intro n
  induction n with
  | zero => intro pos c _ h1 h2; omega
  | succ n ih =>
    intro pos c hc h1 h2 hdiff hag hby hby'
    rw [crc_from, crc_from, crc_step_eq_spec c _ hc (hby pos),
      crc_step_eq_spec c _ hc (hby' pos)]
    by_cases hpj : pos = j
    · subst hpj
      apply crc_from_ne_of_crc_ne buf buf' n (pos + 1) _ _
        (spec_crc_byte_lt c _ hc (hby pos)) (spec_crc_byte_lt c _ hc (hby' pos))
      · intro heq
        have := spec_crc_byte_eq_iff c c _ _ hc hc (hby pos) (hby' pos) heq
        exact hdiff (Nat.xor_right_inj.mp this)
      · exact fun i h3 _ => hag i (by omega)
      · exact fun i _ _ => hby i
    · rw [← hag pos hpj]
      exact ih (pos + 1) _ (spec_crc_byte_lt c _ hc (hby pos)) (by omega) (by omega)
        hdiff hag hby hby'

theorem getD_set_eq (l : List Nat) (i j x : Nat) :
    (l.set i x).getD j 0 = if j = i ∧ i < l.length then x else l.getD j 0 := by
  simp only [List.getD_eq_getElem?_getD, List.getElem?_set]
  by_cases hji : j = i
  · subst hji
    by_cases hlt : j < l.length
    · simp [hlt]
    · simp [hlt, List.getElem?_eq_none (Nat.le_of_not_lt hlt)]
  · have : ¬ i = j := fun h => hji h.symm
    simp [hji, this]

theorem getD_lt_of_all (l : List Nat) (h : ∀ b ∈ l, b < 256) (i : Nat) : l.getD i 0 < 256 := by
  rw [List.getD_eq_getElem?_getD]
  by_cases hlt : i < l.length
  · rw [List.getElem?_eq_getElem hlt]
    exact h _ (List.getElem_mem hlt)
  · rw [List.getElem?_eq_none (Nat.le_of_not_lt hlt)]
    simp

theorem flip_ne (b k : Nat) : b ^^^ 2 ^ k ≠ b := by
  intro h
  have h0 : b ^^^ 2 ^ k = b ^^^ 0 := by rw [h, Nat.xor_zero]
  have := Nat.xor_right_inj.mp h0
  have : 0 < 2 ^ k := Nat.pos_pow_of_pos k (by norm_num)
  omega

theorem flip_lt (b k : Nat) (hb : b < 256) (hk : k < 8) : b ^^^ 2 ^ k < 256 := by
  have h1 : b < 2 ^ 8 := hb
  have h2 : 2 ^ k < 2 ^ 8 := Nat.pow_lt_pow_right (by norm_num) hk
  exact Nat.xor_lt_two_pow h1 h2

theorem crc_bytes_determine (a b : Nat) (h1 : a &&& 0xFF = b &&& 0xFF)
    (h2 : a >>> 8 = b >>> 8) : a = b := by
  have e1 : a &&& 0xFF = a % 256 := Nat.and_pow_two_sub_one_eq_mod a 8
  have e2 : b &&& 0xFF = b % 256 := Nat.and_pow_two_sub_one_eq_mod b 8
  rw [Nat.shiftRight_eq_div_pow, Nat.shiftRight_eq_div_pow] at h2
  rw [e1, e2] at h1
  omega

/-- C4: for every frame of `n` bytes (`2 <= n <= MODBUS_MAX_ADU_SIZE`) held
in an `adu` buffer that passes the receive-side CRC check of `modbus_poll`,
and for every bit `k` of every byte `i` of the frame, payload or CRC, the
frame with that one bit flipped fails the check. -/
theorem single_bit_flip_fails_crc_check (adu : List Nat) (n i k : Nat)
    (hlen : adu.length = MODBUS_MAX_ADU_SIZE) (hbytes : ∀ b ∈ adu, b < 256)
    (h2 : 2 ≤ n) (hn : n ≤ MODBUS_MAX_ADU_SIZE) (hi : i < n) (hk : k < 8)
    (hok : rx_crc_error adu n = false) :
    rx_crc_error (flip_bit adu i k) n = true := by
  simp only [ MODBUS_MAX_ADU_SIZE] at hlen hn
  have hconv := to_uint_fast16_sub_two n h2 (by omega)
  unfold rx_crc_error at hok ⊢
  simp only [hconv, Bool.or_eq_false_iff, bne_eq_false_iff_eq] at hok
  simp only [hconv, Bool.or_eq_true, bne_iff_ne, ne_eq]
  obtain ⟨hlo, hhi⟩ := hok
  have hil : i < adu.length := by omega
  have hget : ∀ j, (flip_bit adu i k).getD j 0 =
      if j = i then adu.getD i 0 ^^^ 2 ^ k else adu.getD j 0 := by
    intro j
    unfold flip_bit
    rw [getD_set_eq]
    by_cases hji : j = i <;> simp [hji, hil]
  by_cases hpay : i < n - 2
  · -- a payload bit: the CRC changes, the stored CRC bytes do not
    have hne : modbus_CRC16x (flip_bit adu i k) (n - 2) ≠ modbus_CRC16x adu (n - 2) := by
      unfold modbus_CRC16x
      apply crc_from_ne_of_byte_ne (flip_bit adu i k) adu i (n - 2) 0 _ (by norm_num)
        (Nat.zero_le _) (by omega)
      · rw [hget i, if_pos rfl]
        exact flip_ne _ _
      · intro j hj
        rw [hget j, if_neg hj]
      · intro j
        rw [hget j]
        split
        · exact flip_lt _ _ (getD_lt_of_all adu hbytes i) hk
        · exact getD_lt_of_all adu hbytes j
      · exact getD_lt_of_all adu hbytes
    rw [hget (n - 2), if_neg (by omega), hget (n - 1), if_neg (by omega), hlo, hhi]
    by_contra hcon
    simp only [not_or, not_not] at hcon
    exact hne (crc_bytes_determine _ _ hcon.1 hcon.2).symm
  · -- a bit of the stored CRC: the CRC of the payload is unchanged
    have heq : modbus_CRC16x (flip_bit adu i k) (n - 2) = modbus_CRC16x adu (n - 2) := by
      unfold modbus_CRC16x
      apply crc_from_congr
      intro j _ hj
      rw [hget j, if_neg (by omega)]
    rw [heq]
    by_cases hi2 : i = n - 2
    · left
      rw [hget (n - 2), if_pos hi2.symm, ← hlo, hi2]
      exact flip_ne _ _
    · right
      have hi1 : i = n - 1 := by omega
      rw [hget (n - 1), if_pos hi1.symm, ← hhi, hi1]
      exact flip_ne _ _

set_option maxRecDepth 100000 in
/-- Witness for C4: the frame 01 03 00 00 00 01 84 0A passes the check and
fails it once bit 5 of its fourth byte is flipped. -/
theorem single_bit_flip_fails_crc_check_witness :
    rx_crc_error [0x01, 0x03, 0x00, 0x00, 0x00, 0x01, 0x84, 0x0A, 0, 0] 8 = false ∧
    flip_bit [0x01, 0x03, 0x00, 0x00, 0x00, 0x01, 0x84, 0x0A, 0, 0] 3 5 =
      [0x01, 0x03, 0x00, 0x20, 0x00, 0x01, 0x84, 0x0A, 0, 0] ∧
    rx_crc_error (flip_bit [0x01, 0x03, 0x00, 0x00, 0x00, 0x01, 0x84, 0x0A, 0, 0] 3 5) 8 =
      true :=
  ⟨by decide, by decide,
    single_bit_flip_fails_crc_check [0x01, 0x03, 0x00, 0x00, 0x00, 0x01, 0x84, 0x0A, 0, 0]
      8 3 5 (by decide) (by decide) (by decide) (by decide) (by decide) (by decide)
      (by decide)⟩

theorem read_reply_length (rx : List Int) :
    ∀ (n k : Nat) (adu : List Nat), (read_reply rx n k adu).length = adu.length := by
  intro n
  induction n with
  | zero => intro k adu; rfl
  | succ n ih => intro k adu; rw [read_reply, ih, List.length_set]

theorem read_reply_getD (rx : List Int) :
    ∀ (n k : Nat) (adu : List Nat), k + n ≤ adu.length → ∀ i,
      (read_reply rx n k adu).getD i 0 =
        if k ≤ i ∧ i < k + n then to_char (rx.getD i (-1)) else adu.getD i 0 := by
  intro n
  induction n with
  | zero =>
    intro k adu _ i
    have : ¬ (k ≤ i ∧ i < k + 0) := by omega
    rw [if_neg this]; rfl
  | succ n ih =>
    intro k adu hk i
    rw [read_reply, ih (k + 1) _ (by rw [List.length_set]; omega) i, getD_set_eq]
    by_cases h1 : k + 1 ≤ i ∧ i < k + 1 + n
    · have h2 : k ≤ i ∧ i < k + (n + 1) := by omega
      rw [if_pos h1, if_pos h2]
    · rw [if_neg h1]
      by_cases h3 : i = k
      · subst h3
        have h4 : i = i ∧ i < adu.length := ⟨rfl, by omega⟩
        have h5 : i ≤ i ∧ i < i + (n + 1) := by omega
        rw [if_pos h4, if_pos h5]
      · have h4 : ¬ (i = k ∧ k < adu.length) := fun h => h3 h.1
        have h5 : ¬ (k ≤ i ∧ i < k + (n + 1)) := by omega
        rw [if_neg h4, if_neg h5]

theorem to_char_ofNat (b : Nat) (hb : b < 256) : to_char (Int.ofNat b) = b := by
  unfold to_char
  simp only [Int.ofNat_eq_coe]
  omega

/-- A buffer that starts with the frame of a message passes the
receive-side check over the length of the frame. -/
theorem rx_crc_ok_of_frame (adu : List Nat) (m : modbus_message_t) (hm : frame_wf m)
    (hag : ∀ i, i < m.tx_length → adu.getD i 0 = (frame_of m).getD i 0) :
    rx_crc_error adu m.tx_length = false := by
  have hm' := hm
  obtain ⟨hlen, hbytes, h2, hmax⟩ := hm'
  simp only [ MODBUS_MAX_ADU_SIZE] at hlen hmax
  have hcrc := modbus_CRC16x_lt m.adu hbytes (m.tx_length - 2) (by omega)
  have hframe := frame_of_eq_spec_frame_tx m hm
  have hpl : (m.adu.take (m.tx_length - 2)).length = m.tx_length - 2 := by
    rw [List.length_take]; omega
  have hf0 : ∀ i, i < m.tx_length - 2 → (frame_of m).getD i 0 = m.adu.getD i 0 := by
    intro i hi
    rw [hframe, spec_frame, List.getD_eq_getElem?_getD, List.getD_eq_getElem?_getD,
      List.getElem?_append_left (by omega), List.getElem?_take_of_lt hi]
  have hf1 : (frame_of m).getD (m.tx_length - 2) 0 =
      modbus_CRC16x m.adu (m.tx_length - 2) % 256 := by
    rw [hframe, spec_frame, List.getD_eq_getElem?_getD,
      List.getElem?_append_right (by omega), hpl]
    simp
  have hf2 : (frame_of m).getD (m.tx_length - 1) 0 =
      modbus_CRC16x m.adu (m.tx_length - 2) / 256 := by
    rw [hframe, spec_frame, List.getD_eq_getElem?_getD,
      List.getElem?_append_right (by omega), hpl]
    have : m.tx_length - 1 - (m.tx_length - 2) = 1 := by omega
    simp [this]
  have hsame : modbus_CRC16x adu (m.tx_length - 2) = modbus_CRC16x m.adu (m.tx_length - 2) := by
    unfold modbus_CRC16x
    apply crc_from_congr
    intro i _ hi
    rw [hag i (by omega), hf0 i (by omega)]
  unfold rx_crc_error
  simp only [to_uint_fast16_sub_two _ h2 (by omega), Bool.or_eq_false_iff,
    bne_eq_false_iff_eq]
  rw [hsame, hag _ (by omega), hag _ (by omega), hf1, hf2]
  constructor
  · exact (Nat.and_pow_two_sub_one_eq_mod _ 8).symm
  · rw [Nat.shiftRight_eq_div_pow]

theorem frame_of_length (m : modbus_message_t) (hm : frame_wf m) :
    (frame_of m).length = m.tx_length := by
  obtain ⟨hlen, _, h2, hmax⟩ := hm
  simp only [ MODBUS_MAX_ADU_SIZE] at hlen hmax
  rw [frame_of, List.length_take]
  simp only [insert_crc, List.length_set]
  omega

theorem frame_of_bytes (m : modbus_message_t) (hm : frame_wf m) :
    ∀ b ∈ frame_of m, b < 256 := by
  have hm' := hm
  obtain ⟨hlen, hbytes, h2, hmax⟩ := hm'
  simp only [ MODBUS_MAX_ADU_SIZE] at hlen hmax
  have hcrc := modbus_CRC16x_lt m.adu hbytes (m.tx_length - 2) (by omega)
  rw [frame_of_eq_spec_frame_tx m hm, spec_frame]
  intro b hb
  rw [List.mem_append] at hb
  rcases hb with hb | hb
  · exact hbytes b (List.mem_of_mem_take hb)
  · simp only [List.mem_cons, List.mem_singleton, List.not_mem_nil, or_false] at hb
    rcases hb with hb | hb <;> omega

/-- Capturing a reply made of the frame of `m` leaves that frame at the start
of the buffer. -/
theorem read_reply_frame (m : modbus_message_t) (hm : frame_wf m) (adu : List Nat)
    (hadu : adu.length = MODBUS_MAX_ADU_SIZE) (i : Nat) (hi : i < m.tx_length) :
    (read_reply ((frame_of m).map Int.ofNat) m.tx_length 0 adu).getD i 0 =
      (frame_of m).getD i 0 := by
  have hmax := hm.2.2.2
  simp only [ MODBUS_MAX_ADU_SIZE] at hadu hmax
  have hfl := frame_of_length m hm
  rw [read_reply_getD _ _ _ _ (by omega) i, if_pos ⟨Nat.zero_le _, by omega⟩]
  have hlt : i < (frame_of m).length := by omega
  have h1 : ((frame_of m).map Int.ofNat).getD i (-1) = Int.ofNat ((frame_of m)[i]) := by
    simp [List.getD_eq_getElem?_getD, List.getElem?_map, List.getElem?_eq_getElem hlt]
  have h2 : (frame_of m).getD i 0 = (frame_of m)[i] := by
    simp [List.getD_eq_getElem?_getD, List.getElem?_eq_getElem hlt]
  rw [h1, h2]
  exact to_char_ofNat _ (frame_of_bytes m hm _ (List.getElem_mem hlt))

theorem exception_calls_packet_events (src r : PacketRef) (e : queue_entry_t) :
    exception_calls src (packet_events r e) = 0 := by
  unfold packet_events
  split <;> simp [exception_calls_cons, exception_calls_nil]

theorem take_eq_of_getD (l f : List Nat) (n : Nat) (hf : f.length = n) (hl : n ≤ l.length)
    (h : ∀ i, i < n → l.getD i 0 = f.getD i 0) : l.take n = f := by
  apply List.ext_getElem
  · rw [List.length_take, hf]; omega
  · intro i h1 h2
    have hi : i < n := by rw [← hf]; exact h2
    have := h i hi
    rw [List.getD_eq_getElem?_getD, List.getD_eq_getElem?_getD,
      List.getElem?_eq_getElem (by omega), List.getElem?_eq_getElem h2] at this
    rw [List.getElem_take]
    simpa using this

/-- C3: a frame of `n` bytes made the way `modbus_send` makes it (the frame
of a message with `tx_length = n`), received whole as the reply of a
transaction with `rx_length = n` and `crc_check` set, passes the receive-side
CRC check: the poll that captures it reports no CRC error, makes no
`on_rx_exception` call, and moves to GotReply (blocking transaction) or to
Silent (asynchronous one), never to Exception. -/
theorem crc_round_trip (s : ModbusState) (env : PollEnv) (r : PacketRef)
    (m : modbus_message_t) (hm : frame_wf m)
    (hst : s.state = .ModBus_AwaitReply) (hpk : s.packet = some r)
    (hgate : env.ms ≠ s.last_ms) (hl : s.spin_lock = false) (hto : s.rx_timeout ≠ 1)
    (hrxl : (entry_of s r).msg.rx_length = m.tx_length)
    (hcrc : (entry_of s r).msg.crc_check = true)
    (hadu : (entry_of s r).msg.adu.length = MODBUS_MAX_ADU_SIZE)
    (hcount : env.rx_buffer_count ≥ m.tx_length)
    (hrx : env.rx = (frame_of m).map Int.ofNat) :
    rx_crc_error (read_reply env.rx m.tx_length 0 (entry_of s r).msg.adu) m.tx_length = false ∧
    (modbus_poll env s).1.state =
      (if (entry_of s r).async then .ModBus_Silent else .ModBus_GotReply) ∧
    exception_calls r (modbus_poll env s).2 = 0 ∧
    (entry_of (modbus_poll env s).1 r).msg.adu.take m.tx_length = frame_of m := by
  have h2 := hm.2.2.1
  have hok : rx_crc_error (read_reply env.rx m.tx_length 0 (entry_of s r).msg.adu)
      m.tx_length = false := by
    apply rx_crc_ok_of_frame _ m hm
    intro i hi
    rw [hrx]
    exact read_reply_frame m hm _ hadu i hi
  have hgate' : ¬ (env.ms = s.last_ms ∨ s.spin_lock = true) := by
    rw [hl]; simp [hgate]
  have hto' : ¬ (s.rx_timeout ≠ 0 ∧ s.rx_timeout - 1 = 0) := by omega
  have hcap : capture_count m.tx_length = m.tx_length := by
    unfold capture_count
    rw [if_neg (by omega)]
  have hr := calls_replicate_read r m.tx_length
  refine ⟨hok, ?_, ?_, ?_⟩
  · simp only [modbus_poll, if_neg hgate', hst, hpk, poll_await_reply, if_neg hto', hrxl,
      hcap, hok, hcount, ge_iff_le, if_true, Bool.false_eq_true, and_false, if_false]
    cases r <;> simp only [store_entry] <;> split <;> simp_all
  · simp only [modbus_poll, if_neg hgate', hst, hpk, poll_await_reply, if_neg hto', hrxl,
      hcap, hok, hcount, ge_iff_le, if_true, Bool.false_eq_true, and_false, if_false]
    cases r <;> simp only [store_entry] <;> split <;>
      simp [exception_calls_cons, exception_calls_append, hr, exception_calls_packet_events]
  · have htake : (read_reply env.rx m.tx_length 0 (entry_of s r).msg.adu).take m.tx_length =
        frame_of m := by
      apply take_eq_of_getD _ _ _ (frame_of_length m hm)
      · rw [read_reply_length, hadu]; exact hm.2.2.2
      · intro i hi
        rw [hrx]
        exact read_reply_frame m hm _ hadu i hi
    simp only [modbus_poll, if_neg hgate', hst, hpk, poll_await_reply, if_neg hto', hrxl,
      hcap, hok, hcount, ge_iff_le, if_true, Bool.false_eq_true, and_false, if_false]
    cases r <;> simp only [store_entry] <;> split <;>
      simp [entry_of, set_entry, htake] <;> simpa [entry_of] using htake

set_option maxRecDepth 100000 in
/-- Witness for C3: the engine awaits the 8-byte reply of a blocking
transaction with `crc_check` set and receives the frame 01 03 00 00 00 01 84 0A. -/
theorem crc_round_trip_witness :
    (modbus_poll (demo_poll 3 [0x01, 0x03, 0x00, 0x00, 0x00, 0x01, 0x84, 0x0A])
      { begin_sync demo_engine { demo_request 1 with crc_check := true } none with
        state := .ModBus_AwaitReply }).1.state = .ModBus_GotReply := by
  have h := crc_round_trip
    { begin_sync demo_engine { demo_request 1 with crc_check := true } none with
        state := .ModBus_AwaitReply }
    (demo_poll 3 [0x01, 0x03, 0x00, 0x00, 0x00, 0x01, 0x84, 0x0A]) .sync_msg (demo_request 1)
    (by decide) rfl rfl (by decide) rfl (by decide) rfl rfl rfl (by decide) (by decide)
  exact h.2.1

/-! ## Silence after a transaction -/

/-- A poll that ends the transaction awaited sets the silence deadline to the
tick of the poll plus the silence duration. -/
theorem poll_terminal (env : PollEnv) (s : ModbusState) (r : PacketRef)
    (hst : s.state = .ModBus_AwaitReply) (hpk : s.packet = some r)
    (hterm : (modbus_poll env s).1.state ≠ .ModBus_AwaitReply) :
    (modbus_poll env s).1.silence_until = add_u32 env.ms s.silence_timeout ∧
    ((modbus_poll env s).1.state = .ModBus_Silent ∨
      (modbus_poll env s).1.state = .ModBus_Timeout ∨
      (modbus_poll env s).1.state = .ModBus_Exception ∨
      (modbus_poll env s).1.state = .ModBus_GotReply) := by
  by_cases hgate : env.ms = s.last_ms ∨ s.spin_lock = true
  · simp only [modbus_poll, if_pos hgate] at hterm
    exact absurd hst hterm
  · simp only [modbus_poll, if_neg hgate, hst, hpk, poll_await_reply] at hterm ⊢
    cases r <;> simp only [store_entry] at hterm ⊢ <;> split_ifs at hterm ⊢ <;>
      first
        | exact absurd rfl hterm
        | simp

theorem wait_idle_silent (sched : List PollEnv) (s : ModbusState)
    (hst : s.state = .ModBus_Silent) (hticks : ∀ env ∈ sched, env.ms < s.silence_until) :
    (wait_idle sched s).2.2 = none ∧ (wait_idle sched s).2.1 = [] ∧
    (wait_idle sched s).1.state = .ModBus_Silent ∧
    (wait_idle sched s).1.silence_until = s.silence_until := by
  induction sched generalizing s with
  | nil => exact ⟨rfl, rfl, hst, rfl⟩
  | cons env rest ih =>
    have hlt := hticks env (List.mem_cons_self _ _)
    have hp : (modbus_poll env s).1.state = .ModBus_Silent ∧
        (modbus_poll env s).1.silence_until = s.silence_until ∧ (modbus_poll env s).2 = [] := by
      by_cases hgate : env.ms = s.last_ms ∨ s.spin_lock = true
      · simp only [modbus_poll, if_pos hgate]
        exact ⟨hst, trivial, trivial⟩
      · simp only [modbus_poll, if_neg hgate, hst, if_neg (Nat.not_le.mpr hlt)]
        exact ⟨trivial, trivial, trivial⟩
    obtain ⟨p1, p2, p3⟩ := hp
    have hne : ¬ (modbus_poll env s).1.state = .ModBus_Idle := by rw [p1]; decide
    obtain ⟨q1, q2, q3, q4⟩ := ih (modbus_poll env s).1 p1
      (fun e he => by rw [p2]; exact hticks e (List.mem_cons_of_mem _ he))
    simp only [wait_idle, if_neg hne, p3, q2, List.append_nil]
    exact ⟨q1, trivial, q3, by rw [q4, p2]⟩

/-- One action whose polls all come before the deadline `d`, made in Silent
with that deadline (or with `d = 0`, when there can be no poll): nothing is
written, and the engine stays in Silent with the same deadline. -/
theorem step_quiet (s : ModbusState) (a : Action) (d : Nat)
    (hP : (s.state = .ModBus_Silent ∧ s.silence_until = d) ∨ d = 0)
    (hticks : ∀ t ∈ a.ticks, t < d) :
    all_written (step s a).2.1 = [] ∧
    (s.state = .ModBus_Silent ∧ s.silence_until = d →
      (step s a).1.state = .ModBus_Silent ∧ (step s a).1.silence_until = d) := by
  cases a with
  | poll env =>
    have hlt : env.ms < d := hticks env.ms (by simp [Action.ticks])
    rcases hP with ⟨hst, hsu⟩ | hd
    · by_cases hgate : env.ms = s.last_ms ∨ s.spin_lock = true
      · simp only [step, modbus_poll, if_pos hgate]
        exact ⟨rfl, fun h => h⟩
      · have hlt' : ¬ env.ms ≥ s.silence_until := by rw [hsu]; omega
        simp only [step, modbus_poll, if_neg hgate, hst, if_neg hlt']
        exact ⟨rfl, fun _ => ⟨trivial, hsu⟩⟩
    · omega
  | send m c =>
    simp only [step]
    unfold modbus_send
    split_ifs <;> exact ⟨rfl, fun h => h⟩
  | send_block m c sched =>
    simp only [step]
    by_cases hl : s.spin_lock = true
    · rw [send_locked s m c true sched hl]
      exact ⟨rfl, fun h => h⟩
    · have hl' : s.spin_lock = false := by simpa using hl
      rcases hP with ⟨hst, hsu⟩ | hd
      · obtain ⟨w1, w2, w3, w4⟩ := wait_idle_silent sched s hst (by
          intro env he
          rw [hsu]
          exact hticks env.ms (by simp only [Action.ticks, List.mem_map]; exact ⟨env, he, rfl⟩))
        rw [send_block_waiting s m c sched hl' w1]
        simp only [w2]
        exact ⟨rfl, fun _ => ⟨w3, by rw [w4, hsu]⟩⟩
      · have hnil : sched = [] := by
          cases sched with
          | nil => rfl
          | cons env rest =>
            have := hticks env.ms (by simp [Action.ticks])
            omega
        subst hnil
        rw [send_block_waiting s m c [] hl' rfl]
        exact ⟨rfl, fun h => h⟩

theorem run_quiet (actions : List Action) (s : ModbusState) (d : Nat)
    (hP : (s.state = .ModBus_Silent ∧ s.silence_until = d) ∨ d = 0)
    (hticks : ∀ a ∈ actions, ∀ t ∈ a.ticks, t < d) :
    all_written (run actions s).2 = [] ∧
    (s.state = .ModBus_Silent ∧ s.silence_until = d →
      (run actions s).1.state = .ModBus_Silent ∧ (run actions s).1.silence_until = d) := by
  induction actions generalizing s with
  | nil => exact ⟨rfl, fun h => h⟩
  | cons a rest ih =>
    obtain ⟨h1, h2⟩ := step_quiet s a d hP (hticks a (List.mem_cons_self _ _))
    have hP' : ((step s a).1.state = .ModBus_Silent ∧ (step s a).1.silence_until = d) ∨
        d = 0 := by
      rcases hP with h | h
      · exact Or.inl (h2 h)
      · exact Or.inr h
    obtain ⟨h3, h4⟩ := ih (step s a).1 hP' (fun b hb => hticks b (List.mem_cons_of_mem _ hb))
    simp only [run]
    split
    · simp only [all_written_append, h1, h3, List.append_nil]
      exact ⟨trivial, fun h => h4 (h2 h)⟩
    · exact ⟨h1, h2⟩

/-- Silence enforcement away from the wrap of the tick: a poll at tick `t` ends
the transaction awaited (reply captured, CRC failure or timeout), and
`t + silence_timeout` does not exceed the range of the 32-bit tick.  Then,
whatever the firmware does next (polls, non-blocking sends, blocking sends
with their scheduler calls), as long as every poll comes at a tick earlier
than `t + silence_timeout` no frame is written to the transport, and the
engine, in Silent once the transaction is handed back, stays in Silent. -/
theorem silence_enforced (s : ModbusState) (env : PollEnv) (r : PacketRef)
    (hst : s.state = .ModBus_AwaitReply) (hpk : s.packet = some r)
    (hterm : (modbus_poll env s).1.state ≠ .ModBus_AwaitReply)
    (hnowrap : env.ms + s.silence_timeout < 4294967296)
    (actions : List Action)
    (hticks : ∀ a ∈ actions, ∀ t ∈ a.ticks, t < env.ms + s.silence_timeout) :
    all_written (run actions (after_terminal (modbus_poll env s).1)).2 = [] ∧
    (0 < env.ms + s.silence_timeout →
      (after_terminal (modbus_poll env s).1).state = .ModBus_Silent ∧
      (run actions (after_terminal (modbus_poll env s).1)).1.state = .ModBus_Silent) := by
  obtain ⟨hsu, hstate⟩ := poll_terminal env s r hst hpk hterm
  have hadd : add_u32 env.ms s.silence_timeout = env.ms + s.silence_timeout := by
    unfold add_u32; omega
  rw [hadd] at hsu
  have hsu' : (after_terminal (modbus_poll env s).1).silence_until =
      env.ms + s.silence_timeout := by
    unfold after_terminal release
    split <;> exact hsu
  have hstate' : 0 < env.ms + s.silence_timeout →
      (after_terminal (modbus_poll env s).1).state = .ModBus_Silent := by
    intro hpos
    unfold after_terminal release
    split
    · assumption
    · simp only [hsu, gt_iff_lt, hpos, if_true]
  have hP : ((after_terminal (modbus_poll env s).1).state = .ModBus_Silent ∧
      (after_terminal (modbus_poll env s).1).silence_until = env.ms + s.silence_timeout) ∨
      env.ms + s.silence_timeout = 0 := by
    by_cases hpos : 0 < env.ms + s.silence_timeout
    · exact Or.inl ⟨hstate' hpos, hsu'⟩
    · exact Or.inr (by omega)
  obtain ⟨h1, h2⟩ := run_quiet actions _ _ hP hticks
  exact ⟨h1, fun hpos => ⟨hstate' hpos, (h2 ⟨hstate' hpos, hsu'⟩).1⟩⟩

set_option maxRecDepth 100000 in
/-- Silence enforcement on a sample run: a reply is captured at tick 3 with a
silence duration of 2 ms; a poll at tick 4 and a blocking send polled at tick 4 write
nothing and the engine is still in Silent. -/
theorem silence_enforced_witness :
    (run ([Action.send (demo_request 1) none, .send (demo_request 2) none,
      .poll (demo_poll 1 []), .poll (demo_poll 2 [])]) demo_engine).1.state =
        .ModBus_AwaitReply ∧
    all_written (run [.poll (demo_poll 4 []), .send_block (demo_request 3) none [demo_poll 4 []]]
      (after_terminal (modbus_poll (demo_poll 3 demo_reply)
        (run ([Action.send (demo_request 1) none, .send (demo_request 2) none,
          .poll (demo_poll 1 []), .poll (demo_poll 2 [])]) demo_engine).1).1)).2 = [] := by
  have h := silence_enforced
    (run ([Action.send (demo_request 1) none, .send (demo_request 2) none,
      .poll (demo_poll 1 []), .poll (demo_poll 2 [])]) demo_engine).1
    (demo_poll 3 demo_reply) (.slot 0) (by decide) (by decide) (by decide) (by decide)
    [.poll (demo_poll 4 []), .send_block (demo_request 3) none [demo_poll 4 []]] (by decide)
  exact ⟨by decide, h.1⟩

set_option maxRecDepth 100000 in
/-- C9 at the wrap of the 32-bit tick: at 2400 baud (silence 16 ms) a reply is
captured at tick `2 ^ 32 - 16`; the deadline `ms + silence_timeout` wraps to
0, the poll one tick later leaves Silent for Idle and the poll two ticks
later writes the next frame, 14 ms before the silence duration has elapsed. -/
theorem silence_broken_at_tick_wrap :
    (run demo_wrap_prefix demo_slow_engine).1.state = .ModBus_Silent ∧
    (run demo_wrap_prefix demo_slow_engine).1.silence_timeout = 16 ∧
    (run demo_wrap_prefix demo_slow_engine).1.silence_until = 0 ∧
    (modbus_poll (demo_poll 4294967281 []) (run demo_wrap_prefix demo_slow_engine).1).1.state =
      .ModBus_Idle ∧
    all_written (run [.poll (demo_poll 4294967281 []), .poll (demo_poll 4294967282 [])]
      (run demo_wrap_prefix demo_slow_engine).1).2 = [frame_of (demo_request 2)] ∧
    4294967282 < 4294967280 + 16 := by
  decide

/-! ## Claims C12, C13, C16, C17: the code at concrete inputs -/

set_option maxRecDepth 1000000 in
/-- C12 at a device address other than 1: the device at address 2 answers a
blocking request with the exception reply 02 86 02 (function code with bit
0x80 set, exception code 2).  When the countdown expires `modbus_poll`
compares the first byte read with 1, so the engine goes to Timeout and
`on_rx_exception` gets the code 0; the same reply from the device at
address 1 takes the engine to Exception and forwards the code 2. -/
theorem exception_reply_lost_at_other_address :
    demo_exception_reply 2 = [0x02, 0x86, 0x02, 0x33, 0xA1] ∧
    (run ((demo_sched 1 51 (demo_exception_reply 2)).map Action.poll)
      (begin_sync demo_engine (insert_crc (demo_write_request 2)) demo_callbacks)).1.state =
        .ModBus_Timeout ∧
    (modbus_send demo_engine (demo_write_request 2) demo_callbacks true
      (demo_timeout_sched 0 (demo_exception_reply 2))).ret = some false ∧
    Event.on_rx_exception .sync_msg 2 0 5 ∈
      (modbus_send demo_engine (demo_write_request 2) demo_callbacks true
        (demo_timeout_sched 0 (demo_exception_reply 2))).events ∧
    exception_calls .sync_msg
      (modbus_send demo_engine (demo_write_request 2) demo_callbacks true
        (demo_timeout_sched 0 (demo_exception_reply 2))).events = 1 ∧
    (run ((demo_sched 1 51 (demo_exception_reply 1)).map Action.poll)
      (begin_sync demo_engine (insert_crc (demo_write_request 1)) demo_callbacks)).1.state =
        .ModBus_Exception ∧
    Event.on_rx_exception .sync_msg 2 2 5 ∈
      (modbus_send demo_engine (demo_write_request 1) demo_callbacks true
        (demo_timeout_sched 0 (demo_exception_reply 1))).events := by
  decide

set_option maxRecDepth 1000000 in
/-- C13 after a device exception: a first blocking transaction ends with the
exception code 2 of the device; a second blocking transaction with
`crc_check` set then receives its 8 bytes with a wrong CRC.  The engine goes
to Exception, and `on_rx_exception` is called once with the code 2 left in
`exception_code` by the first transaction, not with 0. -/
theorem crc_failure_reports_stale_code :
    rx_crc_error (demo_bad_reply.map to_char) 8 = true ∧
    (modbus_send demo_engine (demo_write_request 1) demo_callbacks true
      (demo_timeout_sched 0 (demo_exception_reply 1))).st.exception_code = 2 ∧
    (run ((demo_sched 54 1 [] ++ demo_sched 55 1 demo_bad_reply).map Action.poll)
      (begin_sync
        (run [.poll (demo_poll 53 []), .poll (demo_poll 54 [])]
          (modbus_send demo_engine (demo_write_request 1) demo_callbacks true
            (demo_timeout_sched 0 (demo_exception_reply 1))).st).1
        (insert_crc (demo_write_request 1)) demo_callbacks)).1.state = .ModBus_Exception ∧
    (modbus_send
      (modbus_send demo_engine (demo_write_request 1) demo_callbacks true
        (demo_timeout_sched 0 (demo_exception_reply 1))).st
      (demo_write_request 1) demo_callbacks true
      (demo_sched 52 3 [] ++ demo_sched 55 1 demo_bad_reply)).ret = some false ∧
    Event.on_rx_exception .sync_msg 2 2 5 ∈
      (modbus_send
        (modbus_send demo_engine (demo_write_request 1) demo_callbacks true
          (demo_timeout_sched 0 (demo_exception_reply 1))).st
        (demo_write_request 1) demo_callbacks true
        (demo_sched 52 3 [] ++ demo_sched 55 1 demo_bad_reply)).events ∧
    exception_calls .sync_msg
      (modbus_send
        (modbus_send demo_engine (demo_write_request 1) demo_callbacks true
          (demo_timeout_sched 0 (demo_exception_reply 1))).st
        (demo_write_request 1) demo_callbacks true
        (demo_sched 52 3 [] ++ demo_sched 55 1 demo_bad_reply)).events = 1 ∧
    Event.on_rx_exception .sync_msg 2 0 5 ∈
      (modbus_send demo_engine (demo_write_request 1) demo_callbacks true
        (demo_sched 0 2 [] ++ demo_sched 2 1 demo_bad_reply)).events := by
  decide

set_option maxRecDepth 1000000 in
/-- C16: the engine at 19200 baud (silence 2 ms), response timeout 50 ms, in
Idle; the scheduler advances the tick by 1 ms per call and polls once; the
valid 6-byte reply is there 10 ms after the request was written.  The
blocking `modbus_send` of the 6-byte request with `crc_check` set returns
true having called `on_rx_packet` once, with the reply, and
`on_rx_exception` never; it leaves the engine in Silent, and after the polls
of the next 2 ms the engine is in Idle. -/
theorem blocking_scenario_19200 :
    demo_engine.modbus.baud_rate = 19200 ∧ demo_engine.silence_timeout = 2 ∧
    demo_engine.modbus.rx_timeout = 50 ∧ demo_engine.state = .ModBus_Idle ∧
    frame_wf demo_short_request ∧
    rx_crc_error (frame_of demo_short_request) 6 = false ∧
    (modbus_send demo_engine demo_short_request demo_callbacks true demo_scenario_sched).ret =
      some true ∧
    packet_calls .sync_msg
      (modbus_send demo_engine demo_short_request demo_callbacks true
        demo_scenario_sched).events = 1 ∧
    exception_calls .sync_msg
      (modbus_send demo_engine demo_short_request demo_callbacks true
        demo_scenario_sched).events = 0 ∧
    Event.on_rx_packet .sync_msg 1
        { context := 16, crc_check := true, tx_length := 6, rx_length := 0,
          adu := frame_of demo_short_request ++ [0, 0, 0, 0] } ∈
      (modbus_send demo_engine demo_short_request demo_callbacks true
        demo_scenario_sched).events ∧
    (modbus_send demo_engine demo_short_request demo_callbacks true
      demo_scenario_sched).st.state = .ModBus_Silent ∧
    (run [.poll (demo_poll 12 [])]
      (modbus_send demo_engine demo_short_request demo_callbacks true
        demo_scenario_sched).st).1.state = .ModBus_Silent ∧
    (run [.poll (demo_poll 12 []), .poll (demo_poll 13 [])]
      (modbus_send demo_engine demo_short_request demo_callbacks true
        demo_scenario_sched).st).1.state = .ModBus_Idle := by
  decide

set_option maxRecDepth 1000000 in
/-- C17 after the timeout return: the countdown of a blocking transaction
expires in the poll at tick 52, which leaves by `return` without storing the
tick in `last_ms` (still 51).  A second poll at tick 52 is therefore not
stopped by the gate `ms == last_ms`: it moves the engine from Timeout to
Silent.  A poll whose tick is the stored `last_ms` changes nothing. -/
theorem second_poll_in_same_tick_runs :
    (run ((demo_sched 1 50 []).map Action.poll)
      (begin_sync demo_engine (insert_crc (demo_write_request 1)) demo_callbacks)).1.state =
        .ModBus_AwaitReply ∧
    (run ((demo_sched 1 50 []).map Action.poll)
      (begin_sync demo_engine (insert_crc (demo_write_request 1)) demo_callbacks)).1.last_ms =
        51 ∧
    (modbus_poll (demo_poll 52 [])
      (run ((demo_sched 1 50 []).map Action.poll)
        (begin_sync demo_engine (insert_crc (demo_write_request 1))
          demo_callbacks)).1).1.state = .ModBus_Timeout ∧
    (modbus_poll (demo_poll 52 [])
      (run ((demo_sched 1 50 []).map Action.poll)
        (begin_sync demo_engine (insert_crc (demo_write_request 1))
          demo_callbacks)).1).1.last_ms = 51 ∧
    (modbus_poll (demo_poll 52 [])
      (modbus_poll (demo_poll 52 [])
        (run ((demo_sched 1 50 []).map Action.poll)
          (begin_sync demo_engine (insert_crc (demo_write_request 1))
            demo_callbacks)).1).1).1.state = .ModBus_Silent := by
  decide

/-! ## Claim C11: timeout of an asynchronous transaction -/

/-- A poll in Silent before the deadline makes no call at all and keeps the
state, the deadline, `packet` and the guard. -/
theorem poll_silent_before (env : PollEnv) (s : ModbusState)
    (hst : s.state = .ModBus_Silent) (hlt : env.ms < s.silence_until) :
    (modbus_poll env s).2 = [] ∧ (modbus_poll env s).1.state = .ModBus_Silent ∧
    (modbus_poll env s).1.silence_until = s.silence_until ∧
    (modbus_poll env s).1.packet = s.packet ∧
    ((modbus_poll env s).1.spin_lock = false ∨ (modbus_poll env s).1.spin_lock = s.spin_lock) := by
  by_cases hgate : env.ms = s.last_ms ∨ s.spin_lock = true
  · simp only [modbus_poll, if_pos hgate]
    simp [hst]
  · simp only [modbus_poll, if_neg hgate, hst, ge_iff_le, if_neg (Nat.not_le.mpr hlt)]
    simp

/-- Polls in Silent, all before the deadline: no call is made and the engine
stays in Silent with the same deadline and `packet`. -/
theorem polls_silent_before (quiet : List PollEnv) (s : ModbusState)
    (hst : s.state = .ModBus_Silent) (hlt : ∀ e ∈ quiet, e.ms < s.silence_until) :
    (run (quiet.map Action.poll) s).2 = [] ∧
    (run (quiet.map Action.poll) s).1.state = .ModBus_Silent ∧
    (run (quiet.map Action.poll) s).1.silence_until = s.silence_until ∧
    (run (quiet.map Action.poll) s).1.packet = s.packet ∧
    (s.spin_lock = false → (run (quiet.map Action.poll) s).1.spin_lock = false) := by
  induction quiet generalizing s with
  | nil => exact ⟨rfl, hst, rfl, rfl, fun h => h⟩
  | cons e rest ih =>
    obtain ⟨h1, h2, h3, h4, h5⟩ := poll_silent_before e s hst (hlt e (List.mem_cons_self _ _))
    have hrest : ∀ e2 ∈ rest, e2.ms < (modbus_poll e s).1.silence_until := by
      intro e2 he2
      rw [h3]
      exact hlt e2 (List.mem_cons_of_mem _ he2)
    obtain ⟨i1, i2, i3, i4, i5⟩ := ih (modbus_poll e s).1 h2 hrest
    simp only [List.map_cons, run, step, if_true]
    refine ⟨by rw [h1, i1]; rfl, i2, by rw [i3, h3], by rw [i4, h4], ?_⟩
    intro hl
    apply i5
    rcases h5 with h | h
    · exact h
    · rw [h, hl]

/-- C11: an asynchronous transaction in AwaitReply at the poll on which the
countdown reaches zero (it stands at 1 and the tick has advanced).  That poll
makes no call at all, so neither callback is invoked, clears `packet` and
moves the engine to Silent.  The polls before the silence deadline make no
call and leave the engine in Silent; the first poll at or after the deadline
moves it to Idle, again without any call. -/
theorem async_timeout_is_silent (env : PollEnv) (s : ModbusState) (r : PacketRef)
    (quiet : List PollEnv) (late : PollEnv)
    (hst : s.state = .ModBus_AwaitReply) (hpk : s.packet = some r)
    (hasync : (entry_of s r).async = true)
    (hgate : env.ms ≠ s.last_ms) (hlock : s.spin_lock = false)
    (hcount : s.rx_timeout = 1)
    (hquiet : ∀ e ∈ quiet, e.ms < add_u32 env.ms s.silence_timeout)
    (hlate : add_u32 env.ms s.silence_timeout ≤ late.ms)
    (hnew : late.ms ≠ (run (quiet.map Action.poll) (modbus_poll env s).1).1.last_ms) :
    (modbus_poll env s).2 = [] ∧
    (modbus_poll env s).1.packet = none ∧
    (modbus_poll env s).1.state = .ModBus_Silent ∧
    (run (quiet.map Action.poll) (modbus_poll env s).1).2 = [] ∧
    (run (quiet.map Action.poll) (modbus_poll env s).1).1.state = .ModBus_Silent ∧
    (modbus_poll late (run (quiet.map Action.poll) (modbus_poll env s).1).1).2 = [] ∧
    (modbus_poll late (run (quiet.map Action.poll) (modbus_poll env s).1).1).1.state =
      .ModBus_Idle ∧
    (modbus_poll late (run (quiet.map Action.poll) (modbus_poll env s).1).1).1.packet = none := by
  have hgate' : ¬ (env.ms = s.last_ms ∨ s.spin_lock = true) := by
    rw [hlock]; simp [hgate]
  have hfire : s.rx_timeout ≠ 0 ∧ s.rx_timeout - 1 = 0 := by omega
  have hp : modbus_poll env s =
      ({ s with rx_timeout := 0, state := .ModBus_Silent, packet := none,
                spin_lock := false, silence_until := add_u32 env.ms s.silence_timeout }, []) := by
    simp only [modbus_poll, if_neg hgate', hst, hpk, poll_await_reply, if_pos hfire, hasync,
      if_true]
  have hs1 : (modbus_poll env s).1.state = .ModBus_Silent := by rw [hp]
  have hd1 : (modbus_poll env s).1.silence_until = add_u32 env.ms s.silence_timeout := by rw [hp]
  have hl1 : (modbus_poll env s).1.spin_lock = false := by rw [hp]
  have hk1 : (modbus_poll env s).1.packet = none := by rw [hp]
  obtain ⟨q1, q2, q3, q4, q5⟩ := polls_silent_before quiet (modbus_poll env s).1 hs1
    (by rw [hd1]; exact hquiet)
  have q5' := q5 hl1
  have hgate2 : ¬ (late.ms = (run (quiet.map Action.poll) (modbus_poll env s).1).1.last_ms ∨
      (run (quiet.map Action.poll) (modbus_poll env s).1).1.spin_lock = true) := by
    rw [q5']; simp [hnew]
  have hge : late.ms ≥ (run (quiet.map Action.poll) (modbus_poll env s).1).1.silence_until := by
    rw [q3, hd1]; exact hlate
  have hp2 : modbus_poll late (run (quiet.map Action.poll) (modbus_poll env s).1).1 =
      ({ (run (quiet.map Action.poll) (modbus_poll env s).1).1 with
          silence_until := 0, state := .ModBus_Idle, last_ms := late.ms, spin_lock := false },
       []) := by
    rw [modbus_poll, if_neg hgate2]
    simp only [q2, if_pos hge]
  refine ⟨by rw [hp], hk1, hs1, q1, q2, by rw [hp2], by rw [hp2], ?_⟩
  rw [hp2]
  exact q4.trans hk1

set_option maxRecDepth 1000000 in
/-- C11 on a concrete run: a request queued on the idle engine is written at
tick 1, its countdown of 50 stands at 1 after the poll at tick 51 and nothing
is ever received; the poll at tick 52 ends the transaction, the poll at tick
53 stays in Silent and the poll at tick 54 reaches Idle. -/
theorem async_timeout_is_silent_witness :
    (modbus_poll (demo_poll 52 [])
      (run (Action.send (demo_request 1) demo_callbacks ::
        (demo_sched 0 51 []).map Action.poll) demo_engine).1).2 = [] ∧
    (modbus_poll (demo_poll 52 [])
      (run (Action.send (demo_request 1) demo_callbacks ::
        (demo_sched 0 51 []).map Action.poll) demo_engine).1).1.packet = none ∧
    (modbus_poll (demo_poll 52 [])
      (run (Action.send (demo_request 1) demo_callbacks ::
        (demo_sched 0 51 []).map Action.poll) demo_engine).1).1.state = .ModBus_Silent ∧
    (modbus_poll (demo_poll 54 [])
      (run ([demo_poll 53 []].map Action.poll)
        (modbus_poll (demo_poll 52 [])
          (run (Action.send (demo_request 1) demo_callbacks ::
            (demo_sched 0 51 []).map Action.poll) demo_engine).1).1).1).1.state =
      .ModBus_Idle :=
  have h := async_timeout_is_silent (demo_poll 52 [])
    (run (Action.send (demo_request 1) demo_callbacks ::
      (demo_sched 0 51 []).map Action.poll) demo_engine).1 (.slot 0)
    [demo_poll 53 []] (demo_poll 54 [])
    (by decide) (by decide) (by decide) (by decide) (by decide) (by decide) (by decide)
    (by decide) (by decide)
  ⟨h.1, h.2.1, h.2.2.1, h.2.2.2.2.2.2.1⟩
/-! ## Claim C14: reply capture of an asynchronous transaction -/

/-- The capture loop with a counter of at least 1 makes that many passes. -/
theorem capture_count_pos (n : Nat) (h : 1 ≤ n) : capture_count n = n := by
  unfold capture_count
  rw [if_neg (by omega)]

set_option maxRecDepth 1000000 in
/-- C14 as stated fails when the callback pointer is NULL: a request queued
with `callbacks = NULL` is transmitted, its 8-byte reply is captured by the
poll at tick 3, which ends the transaction in Silent with `packet` cleared
and invokes no callback at all. -/
theorem async_capture_without_callback :
    (run [.send (demo_request 1) none, .poll (demo_poll 1 []), .poll (demo_poll 2 [])]
      demo_engine).1.state = .ModBus_AwaitReply ∧
    (modbus_poll (demo_poll 3 demo_reply)
      (run [.send (demo_request 1) none, .poll (demo_poll 1 []), .poll (demo_poll 2 [])]
        demo_engine).1).1.state = .ModBus_Silent ∧
    (modbus_poll (demo_poll 3 demo_reply)
      (run [.send (demo_request 1) none, .poll (demo_poll 1 []), .poll (demo_poll 2 [])]
        demo_engine).1).2 = Event.get_rx_buffer_count :: List.replicate 8 Event.read ∧
    packet_calls (.slot 0) (modbus_poll (demo_poll 3 demo_reply)
      (run [.send (demo_request 1) none, .poll (demo_poll 1 []), .poll (demo_poll 2 [])]
        demo_engine).1).2 +
    exception_calls (.slot 0) (modbus_poll (demo_poll 3 demo_reply)
      (run [.send (demo_request 1) none, .poll (demo_poll 1 []), .poll (demo_poll 2 [])]
        demo_engine).1).2 = 0 := by
  decide

/-- C14, amended: an asynchronous transaction in AwaitReply whose `rx_length`
is at least 1, at a poll that does not end the countdown and finds at least
`rx_length` bytes received.  The poll reads exactly `rx_length` bytes into
the first `rx_length` places of `adu` (the rest of `adu` is kept), then makes
the one call `if(fn) fn(...)` that applies: `on_rx_exception` with code 0 and
the message's context when `crc_check` is set and the CRC does not match,
`on_rx_packet` with the message otherwise; a NULL callback is not called, so
exactly one callback is made when both were supplied and at most one in any
case.  It clears `packet` and moves to Silent. -/
theorem async_capture_calls_supplied_callback (env : PollEnv) (s : ModbusState) (r : PacketRef)
    (hst : s.state = .ModBus_AwaitReply) (hpk : s.packet = some r)
    (hasync : (entry_of s r).async = true)
    (hgate : env.ms ≠ s.last_ms) (hlock : s.spin_lock = false)
    (hcount : s.rx_timeout ≠ 1)
    (hlen : 1 ≤ (entry_of s r).msg.rx_length)
    (hfit : (entry_of s r).msg.rx_length ≤ (entry_of s r).msg.adu.length)
    (hrx : (entry_of s r).msg.rx_length ≤ env.rx_buffer_count) :
    (modbus_poll env s).1.state = .ModBus_Silent ∧
    (modbus_poll env s).1.packet = none ∧
    (entry_of (modbus_poll env s).1 r).msg.adu.length = (entry_of s r).msg.adu.length ∧
    (∀ i, (entry_of (modbus_poll env s).1 r).msg.adu.getD i 0 =
      if i < (entry_of s r).msg.rx_length then to_char (env.rx.getD i (-1))
      else (entry_of s r).msg.adu.getD i 0) ∧
    (modbus_poll env s).2 =
      Event.get_rx_buffer_count :: List.replicate (entry_of s r).msg.rx_length Event.read ++
        (if (entry_of s r).msg.crc_check = true ∧
            rx_crc_error (entry_of (modbus_poll env s).1 r).msg.adu
              (entry_of s r).msg.rx_length = true then
          exception_events r (entry_of (modbus_poll env s).1 r) 0
        else packet_events r (entry_of (modbus_poll env s).1 r)) ∧
    (∀ fn code context, Event.on_rx_exception r fn code context ∈ (modbus_poll env s).2 →
      code = 0 ∧ context = (entry_of s r).msg.context) ∧
    packet_calls r (modbus_poll env s).2 + exception_calls r (modbus_poll env s).2 ≤ 1 ∧
    ((entry_of s r).callbacks.on_rx_packet ≠ none →
      (entry_of s r).callbacks.on_rx_exception ≠ none →
      packet_calls r (modbus_poll env s).2 + exception_calls r (modbus_poll env s).2 = 1) := by
  have hgate' : ¬ (env.ms = s.last_ms ∨ s.spin_lock = true) := by
    rw [hlock]; simp [hgate]
  have hto : ¬ (s.rx_timeout ≠ 0 ∧ s.rx_timeout - 1 = 0) := by omega
  have hcap := capture_count_pos _ hlen
  have hp : modbus_poll env s = poll_await_reply env s r := by
    rw [modbus_poll, if_neg hgate']
    simp only [hst, hpk]
  have hentry : entry_of (modbus_poll env s).1 r =
      { entry_of s r with msg := { (entry_of s r).msg with
          adu := read_reply env.rx (entry_of s r).msg.rx_length 0 (entry_of s r).msg.adu,
          rx_length := 0 } } := by
    rw [hp]
    simp only [poll_await_reply, if_neg hto, ge_iff_le, if_pos hrx, hcap, hasync, if_true]
    cases r <;> split_ifs <;> simp [entry_of, store_entry, set_entry]
  have hev : (modbus_poll env s).2 =
      Event.get_rx_buffer_count :: List.replicate (entry_of s r).msg.rx_length Event.read ++
        (if (entry_of s r).msg.crc_check = true ∧
            rx_crc_error (entry_of (modbus_poll env s).1 r).msg.adu
              (entry_of s r).msg.rx_length = true then
          exception_events r (entry_of (modbus_poll env s).1 r) 0
        else packet_events r (entry_of (modbus_poll env s).1 r)) := by
    rw [hentry, hp]
    simp only [poll_await_reply, if_neg hto, ge_iff_le, if_pos hrx, hcap, hasync, if_true]
    split_ifs <;> simp
  have hr := calls_replicate_read r (entry_of s r).msg.rx_length
  refine ⟨?_, ?_, ?_, ?_, hev, ?_, ?_, ?_⟩
  · rw [hp]
    simp only [poll_await_reply, if_neg hto, ge_iff_le, if_pos hrx, hasync, if_true]
    split_ifs <;> rfl
  · rw [hp]
    simp only [poll_await_reply, if_neg hto, ge_iff_le, if_pos hrx, hasync, if_true]
    split_ifs <;> rfl
  · rw [hentry]
    exact read_reply_length _ _ _ _
  · intro i
    rw [hentry]
    simp only []
    rw [read_reply_getD _ _ _ _ (by omega) i]
    simp
  · intro fn code context hmem
    rw [hev] at hmem
    have hctx : (entry_of (modbus_poll env s).1 r).msg.context = (entry_of s r).msg.context := by
      rw [hentry]
    simp only [List.mem_cons, List.mem_append, List.mem_replicate, false_or, reduceCtorEq,
      and_false] at hmem
    split_ifs at hmem
    · unfold exception_events at hmem
      split at hmem
      · simp only [List.mem_singleton, Event.on_rx_exception.injEq] at hmem
        exact ⟨hmem.2.2.1, hmem.2.2.2.trans hctx⟩
      · simp at hmem
    · unfold packet_events at hmem
      split at hmem <;> simp at hmem
  · rw [hev, packet_calls_append, exception_calls_append, packet_calls_cons,
      exception_calls_cons, hr.1, hr.2.1]
    simp only [Nat.zero_add]
    split_ifs
    · unfold exception_events
      split <;> simp [packet_calls_cons, exception_calls_cons, packet_calls_nil,
        exception_calls_nil]
    · unfold packet_events
      split <;> simp [packet_calls_cons, exception_calls_cons, packet_calls_nil,
        exception_calls_nil]
  · intro hpkt hexc
    have hcb : (entry_of (modbus_poll env s).1 r).callbacks = (entry_of s r).callbacks := by
      rw [hentry]
    rw [hev, packet_calls_append, exception_calls_append, packet_calls_cons,
      exception_calls_cons, hr.1, hr.2.1]
    simp only [Nat.zero_add]
    split_ifs
    · unfold exception_events
      rw [hcb]
      cases hx : (entry_of s r).callbacks.on_rx_exception with
      | none => exact absurd hx hexc
      | some fn =>
        simp [packet_calls_cons, exception_calls_cons, packet_calls_nil, exception_calls_nil]
    · unfold packet_events
      rw [hcb]
      cases hx : (entry_of s r).callbacks.on_rx_packet with
      | none => exact absurd hx hpkt
      | some fn =>
        simp [packet_calls_cons, exception_calls_cons, packet_calls_nil, exception_calls_nil]

set_option maxRecDepth 1000000 in
/-- C14, amended, on a concrete run: the request queued with both callbacks
is in AwaitReply after the polls at ticks 1 and 2; the poll at tick 3 finds
the 8-byte reply, calls `on_rx_packet` and ends in Silent. -/
theorem async_capture_calls_supplied_callback_witness :
    (modbus_poll (demo_poll 3 demo_reply)
      (run [.send (demo_request 1) demo_callbacks, .poll (demo_poll 1 []),
        .poll (demo_poll 2 [])] demo_engine).1).1.state = .ModBus_Silent ∧
    packet_calls (.slot 0) (modbus_poll (demo_poll 3 demo_reply)
      (run [.send (demo_request 1) demo_callbacks, .poll (demo_poll 1 []),
        .poll (demo_poll 2 [])] demo_engine).1).2 = 1 :=
  ⟨(async_capture_calls_supplied_callback (demo_poll 3 demo_reply)
    (run [.send (demo_request 1) demo_callbacks, .poll (demo_poll 1 []),
      .poll (demo_poll 2 [])] demo_engine).1 (.slot 0)
    (by decide) (by decide) (by decide) (by decide) (by decide) (by decide) (by decide)
    (by decide) (by decide)).1, by decide⟩
/-! ## Claim C15: a blocking send waits for the transaction in flight -/

/-- The wait loop of the blocking branch, when it is done, has run the polls
of a prefix of the scheduler calls. -/
theorem wait_idle_split (sched : List PollEnv) (s : ModbusState) (rest : List PollEnv)
    (h : (wait_idle sched s).2.2 = some rest) :
    ∃ polls, sched = polls ++ rest ∧ polls ≠ [] ∧
      (wait_idle sched s).1 = (run (polls.map Action.poll) s).1 ∧
      (wait_idle sched s).2.1 = (run (polls.map Action.poll) s).2 := by
  induction sched generalizing s with
  | nil => simp [wait_idle] at h
  | cons e tl ih =>
    by_cases hidle : (modbus_poll e s).1.state = .ModBus_Idle
    · simp only [wait_idle, if_pos hidle, Option.some.injEq] at h
      refine ⟨[e], by simp [h], by simp, ?_, ?_⟩
      · simp only [wait_idle, if_pos hidle, List.map_cons, List.map_nil, run, step, if_true]
      · simp only [wait_idle, if_pos hidle, List.map_cons, List.map_nil, run, step, if_true,
          List.append_nil]
    · simp only [wait_idle, if_neg hidle] at h
      obtain ⟨polls, h1, _, h3, h4⟩ := ih (modbus_poll e s).1 h
      refine ⟨e :: polls, by simp [h1], by simp, ?_, ?_⟩
      · simp only [wait_idle, if_neg hidle, List.map_cons, run, step, if_true]
        exact h3
      · simp only [wait_idle, if_neg hidle, List.map_cons, run, step, if_true]
        rw [h4]

/-- Events `a` without a write for `src`, followed by anything: whatever
comes before a write for `src` in the whole starts with `a`. -/
theorem prefix_of_no_write (src : PacketRef) (a x before after : List Event) (bytes : List Nat)
    (ha : written_for src a = [])
    (h : a ++ x = before ++ Event.write src bytes :: after) : ∃ t, before = a ++ t := by
  induction a generalizing before with
  | nil => exact ⟨before, rfl⟩
  | cons e a ih =>
    cases before with
    | nil =>
      simp only [List.cons_append, List.nil_append, List.cons.injEq] at h
      rw [h.1] at ha
      simp [written_for] at ha
    | cons e2 before =>
      simp only [List.cons_append, List.cons.injEq] at h
      have ha2 : written_for src a = [] := by
        cases e <;> simp only [written_for] at ha ⊢ <;> first
          | exact ha
          | (split_ifs at ha; exact ha)
      obtain ⟨t, ht⟩ := ih before ha2 h.2
      exact ⟨t, by rw [h.1, ht]; rfl⟩

/-- C15: a blocking `modbus_send` called while an asynchronous transaction
is in flight (state TX or AwaitReply, in an engine state reached by polls and
non-blocking sends).  Whenever the call writes bytes for its own request,
the scheduler calls made so far begin with polls that took the engine to
Idle with `packet` cleared, and all the events of those polls come before
the write. -/
theorem blocking_send_waits_for_idle (s : ModbusState) (m : modbus_message_t)
    (c : Option modbus_callbacks_t) (sched : List PollEnv) (hinv : Inv s)
    (hbusy : s.state = .ModBus_TX ∨ s.state = .ModBus_AwaitReply)
    (before after : List Event) (bytes : List Nat)
    (hev : (modbus_send s m c true sched).events =
      before ++ Event.write .sync_msg bytes :: after) :
    s.packet = some (.slot (prev_slot s.tail)) ∧
    ∃ (polls rest : List PollEnv) (evs : List Event),
      sched = polls ++ rest ∧ polls ≠ [] ∧
      (run (polls.map Action.poll) s).1.state = .ModBus_Idle ∧
      (run (polls.map Action.poll) s).1.packet = none ∧
      before = (run (polls.map Action.poll) s).2 ++ evs := by
  have hpk : s.packet = some (.slot (prev_slot s.tail)) := by
    rcases hinv.phase with ⟨h1 | h1, _⟩ | ⟨_, h2, _⟩
    · rcases hbusy with hb | hb <;> rw [h1] at hb <;> cases hb
    · rcases hbusy with hb | hb <;> rw [h1] at hb <;> cases hb
    · exact h2
  refine ⟨hpk, ?_⟩
  have hns : s.packet ≠ some .sync_msg := by rw [hpk]; simp
  have hl := hinv.unlocked
  obtain ⟨w1, w2, w3, w4, w5⟩ := wait_idle_not_sync sched s hns
  cases hw : (wait_idle sched s).2.2 with
  | none =>
    rw [send_block_waiting s m c sched hl hw] at hev
    simp only [] at hev
    rw [hev, written_for_append] at w4
    simp [written_for] at w4
  | some rest =>
    obtain ⟨polls, p1, p2, p3, p4⟩ := wait_idle_split sched s rest hw
    have hidle := w5 (by rw [hw]; simp)
    have hinv2 : Inv (run (polls.map Action.poll) s).1 :=
      (run_inv (polls.map Action.poll)
        (by intro a ha; obtain ⟨e, _, he⟩ := List.mem_map.mp ha; rw [← he]; trivial) s hinv).1
    rw [p3] at hidle
    have hnone : (run (polls.map Action.poll) s).1.packet = none := by
      rcases hinv2.phase with ⟨_, h2⟩ | ⟨h1 | h1, _⟩
      · exact h2
      · rw [hidle] at h1; cases h1
      · rw [hidle] at h1; cases h1
    have hevs : ∃ x, (modbus_send s m c true sched).events = (wait_idle sched s).2.1 ++ x := by
      cases hd : (dispatch rest (begin_sync (wait_idle sched s).1 (insert_crc m) c)).2.2 with
      | none =>
        rw [send_block_running s m c sched rest hl hw hd]
        exact ⟨_, List.append_assoc _ _ _⟩
      | some b =>
        rw [send_block_done s m c sched rest b hl hw hd]
        exact ⟨_, List.append_assoc _ _ _⟩
    obtain ⟨x, hx⟩ := hevs
    rw [hx] at hev
    obtain ⟨t, ht⟩ := prefix_of_no_write .sync_msg _ x before after bytes w4 hev
    exact ⟨polls, rest, t, p1, p2, hidle, hnone, by rw [ht, p4]⟩

set_option maxRecDepth 1000000 in
/-- C15 on a concrete run: the blocking send is called at tick 1, right
after the request queued before it has been written.  The reply of that
request is captured at tick 3 and the engine is Idle at tick 5; only then,
after the 12 events of those polls, is the frame of the blocking request
written. -/
theorem blocking_send_waits_for_idle_witness :
    (run [.send (demo_request 1) demo_callbacks, .poll (demo_poll 1 [])]
      demo_engine).1.state = .ModBus_TX ∧
    ∃ (polls rest : List PollEnv) (evs : List Event),
      demo_sched 1 2 demo_reply ++ demo_sched 3 4 demo_reply = polls ++ rest ∧ polls ≠ [] ∧
      (run (polls.map Action.poll)
        (run [.send (demo_request 1) demo_callbacks, .poll (demo_poll 1 [])]
          demo_engine).1).1.state = .ModBus_Idle ∧
      (run (polls.map Action.poll)
        (run [.send (demo_request 1) demo_callbacks, .poll (demo_poll 1 [])]
          demo_engine).1).1.packet = none ∧
      (modbus_send
        (run [.send (demo_request 1) demo_callbacks, .poll (demo_poll 1 [])] demo_engine).1
        (demo_request 2) demo_callbacks true
        (demo_sched 1 2 demo_reply ++ demo_sched 3 4 demo_reply)).events.take 13 =
        (run (polls.map Action.poll)
          (run [.send (demo_request 1) demo_callbacks, .poll (demo_poll 1 [])]
            demo_engine).1).2 ++ evs :=
  ⟨by decide,
   (blocking_send_waits_for_idle
    (run [.send (demo_request 1) demo_callbacks, .poll (demo_poll 1 [])] demo_engine).1
    (demo_request 2) demo_callbacks (demo_sched 1 2 demo_reply ++ demo_sched 3 4 demo_reply)
    ((run_inv _ (by decide) demo_engine (idle_empty_inv _ demo_engine_idle_empty)).1)
    (by decide)
    ((modbus_send
      (run [.send (demo_request 1) demo_callbacks, .poll (demo_poll 1 [])] demo_engine).1
      (demo_request 2) demo_callbacks true
      (demo_sched 1 2 demo_reply ++ demo_sched 3 4 demo_reply)).events.take 13)
    ((modbus_send
      (run [.send (demo_request 1) demo_callbacks, .poll (demo_poll 1 [])] demo_engine).1
      (demo_request 2) demo_callbacks true
      (demo_sched 1 2 demo_reply ++ demo_sched 3 4 demo_reply)).events.drop 14)
    (frame_of (demo_request 2))
    (by decide)).2⟩

/-! ## Claim C17: the millisecond gate -/

/-- The gate of `modbus_poll`: a call at the tick stored in `last_ms` changes
nothing and makes no call. -/
theorem poll_same_tick (env : PollEnv) (s : ModbusState) (h : env.ms = s.last_ms) :
    modbus_poll env s = (s, []) := by
  rw [modbus_poll, if_pos (Or.inl h)]

/-- Every path through `modbus_poll` past the gate stores the tick in
`last_ms`, except the return taken when the countdown ends. -/
theorem poll_stores_tick (env : PollEnv) (s : ModbusState)
    (hgate : ¬ (env.ms = s.last_ms ∨ s.spin_lock = true))
    (hn : ¬ (s.state = .ModBus_AwaitReply ∧ (s.packet = none ∨ s.rx_timeout = 1))) :
    (modbus_poll env s).1.last_ms = env.ms := by
  rw [modbus_poll, if_neg hgate]
  by_cases hA : s.state = .ModBus_AwaitReply
  · simp only [hA]
    cases hpk : s.packet with
    | none => exact absurd ⟨hA, Or.inl hpk⟩ hn
    | some r =>
      have hto : ¬ (s.rx_timeout ≠ 0 ∧ s.rx_timeout - 1 = 0) := by
        intro hc
        exact hn ⟨hA, Or.inr (by omega)⟩
      simp only [poll_await_reply, if_neg hto]
      cases r <;> simp only [store_entry] <;> split_ifs <;> rfl
  · cases hst : s.state <;> first
      | exact absurd hst hA
      | rfl
      | (simp only []; split_ifs <;> rfl)
/-! ## Replies handed to `on_rx_packet` -/

/-- A poll that calls `on_rx_packet` is the capture of the reply of the
asynchronous transaction `packet` designates: the message handed over is the
entry's with the bytes read stored in `adu` and `rx_length` counted down to
0, and when `crc_check` is set the CRC test on it has passed. -/
theorem poll_packet_event (env : PollEnv) (s : ModbusState) (src : PacketRef) (fn : Nat)
    (m' : modbus_message_t) (h : Event.on_rx_packet src fn m' ∈ (modbus_poll env s).2) :
    s.state = .ModBus_AwaitReply ∧ s.packet = some src ∧ (entry_of s src).async = true ∧
    m' = { (entry_of s src).msg with
            adu := read_reply env.rx (capture_count (entry_of s src).msg.rx_length) 0
              (entry_of s src).msg.adu,
            rx_length := 0 } ∧
    ((entry_of s src).msg.crc_check = true →
      rx_crc_error m'.adu (entry_of s src).msg.rx_length = false) := by
  by_cases hgate : env.ms = s.last_ms ∨ s.spin_lock = true
  · simp [modbus_poll, if_pos hgate] at h
  · simp only [modbus_poll, if_neg hgate] at h
    have hd : ∀ tx, Event.on_rx_packet src fn m' ∉ direction_events s tx := by
      intro tx
      unfold direction_events
      split <;> simp
    by_cases hA : s.state = .ModBus_AwaitReply
    · simp only [hA] at h
      cases hpk : s.packet with
      | none => simp [hpk] at h
      | some r =>
        simp only [hpk, poll_await_reply] at h
        split_ifs at h with h1 h2 h3 h4 h5 h6 h7 h8 <;>
          simp only [List.mem_cons, List.mem_append, List.mem_replicate, List.mem_nil_iff,
            List.mem_singleton, reduceCtorEq, and_false, or_false, false_or] at h
        · -- CRC error, asynchronous: only `on_rx_exception` may be called
          unfold exception_events at h
          split at h <;> simp at h
        · -- reply accepted, asynchronous
          unfold packet_events at h
          split at h
          · simp only [List.mem_singleton, Event.on_rx_packet.injEq] at h
            obtain ⟨hsrc, _, hm⟩ := h
            subst hsrc
            refine ⟨hA, rfl, h8, hm, ?_⟩
            intro hc
            rw [hm]
            simp only [hc, true_and, Bool.not_eq_true] at h6
            exact h6
          · simp at h
    · cases hst : s.state <;> first
        | exact absurd hst hA
        | (simp only [hst] at h
           exact absurd h (List.not_mem_nil _))
        | (simp only [hst] at h
           split_ifs at h <;>
             simp only [List.mem_cons, List.mem_append, List.mem_nil_iff, List.mem_singleton,
               reduceCtorEq, or_false, false_or] at h <;>
             exact absurd h (hd _))

/-- Tracking carries over to a state whose waiting slots were waiting before,
with the same messages, and whose `packet` designates an entry that was
`packet` or waiting before, with the same message. -/
theorem Tracked.carry (sent : List modbus_message_t) (s s' : ModbusState) (h : Tracked sent s)
    (hp : ∀ i ∈ pending_slots s', i ∈ pending_slots s ∧ (s'.queue i).msg = (s.queue i).msg)
    (hk : ∀ r, s'.packet = some r →
      (s.packet = some r ∧ (entry_of s' r).msg = (entry_of s r).msg) ∨
      ∃ i, r = .slot i ∧ i ∈ pending_slots s ∧ (s'.queue i).msg = (s.queue i).msg) :
    Tracked sent s' := by
  refine ⟨?_, ?_⟩
  · intro i hi
    obtain ⟨h1, h2⟩ := hp i hi
    obtain ⟨m, hm, he⟩ := h.1 i h1
    exact ⟨m, hm, h2.trans he⟩
  · intro r hr
    rcases hk r hr with ⟨h1, h2⟩ | ⟨i, h1, h2, h3⟩
    · obtain ⟨m, hm, he⟩ := h.2 r h1
      exact ⟨m, hm, h2.trans he⟩
    · obtain ⟨m, hm, he⟩ := h.1 i h2
      subst h1
      exact ⟨m, hm, h3.trans he⟩

/-- More messages sent: what was tracked stays tracked. -/
theorem tracked_more (sent extra : List modbus_message_t) (s : ModbusState)
    (h : Tracked sent s) : Tracked (sent ++ extra) s :=
  ⟨fun i hi => (h.1 i hi).imp fun _ hm => ⟨List.mem_append_left _ hm.1, hm.2⟩,
   fun r hr => (h.2 r hr).imp fun _ hm => ⟨List.mem_append_left _ hm.1, hm.2⟩⟩

/-- A poll keeps the ring and `packet` tracked. -/
theorem poll_tracked (env : PollEnv) (s : ModbusState) (sent : List modbus_message_t)
    (h : Inv s) (ht : Tracked sent s) : Tracked sent (modbus_poll env s).1 := by
  by_cases hgate : env.ms = s.last_ms ∨ s.spin_lock = true
  · simp only [modbus_poll, if_pos hgate]
    exact ht
  · simp only [modbus_poll, if_neg hgate]
    rcases h.phase with ⟨hst | hst, hpk⟩ | ⟨hst | hst, hpk, hasync, hsent⟩
    · -- Idle
      simp only [hst, hpk]
      by_cases hdq : s.tail ≠ s.head ∧ True
      · rw [if_pos hdq]
        have hnext := h.linked s.tail h.tail_lt
        have hmem := pending_slots_dequeue s h.head_lt h.tail_lt hdq.1 _ hnext
            { s with packet := some (.slot s.tail), tail := (s.queue s.tail).next,
                     state := .ModBus_TX, rx_timeout := s.modbus.rx_timeout,
                     queue := set_entry s.queue s.tail { s.queue s.tail with sent := true },
                     last_ms := env.ms, spin_lock := false } rfl rfl
        apply Tracked.carry sent s _ ht
        · intro i hi
          refine ⟨by rw [hmem]; exact List.mem_cons_of_mem _ hi, ?_⟩
          simp only [set_entry]
          split
          · next heq => rw [heq]
          · rfl
        · intro r hr
          simp only [Option.some.injEq] at hr
          refine Or.inr ⟨s.tail, hr.symm, by rw [hmem]; exact List.mem_cons_self _ _, ?_⟩
          simp only [set_entry, if_true]
      · rw [if_neg hdq]
        exact Tracked.carry sent s _ ht (fun i hi => ⟨hi, rfl⟩)
          (fun r hr => Or.inl ⟨hpk.trans hr, by cases r <;> rfl⟩)
    · -- Silent
      simp only [hst]
      split_ifs <;>
        exact Tracked.carry sent s _ ht (fun i hi => ⟨hi, rfl⟩)
          (fun r hr => Or.inl ⟨hr, by cases r <;> rfl⟩)
    · -- TX
      simp only [hst]
      split_ifs <;>
        exact Tracked.carry sent s _ ht (fun i hi => ⟨hi, rfl⟩)
          (fun r hr => Or.inl ⟨hr, by cases r <;> rfl⟩)
    · -- AwaitReply
      simp only [hst, hpk, poll_await_reply, entry_of, hasync, if_true, store_entry]
      have hstore : ∀ (e : queue_entry_t) (s' : ModbusState), s'.head = s.head →
          s'.tail = s.tail → s'.queue = set_entry s.queue (prev_slot s.tail) e →
          s'.packet = none → Tracked sent s' := by
        intro e s' hh htl hq hn
        apply Tracked.carry sent s s' ht
        · intro i hi
          rw [pending_slots_congr s s' hh htl] at hi
          have hne : i ≠ prev_slot s.tail := fun heq => prev_slot_not_pending s (heq ▸ hi)
          exact ⟨hi, by rw [hq]; simp only [set_entry, if_neg hne]⟩
        · intro r hr
          rw [hn] at hr
          cases hr
      split_ifs
      · exact Tracked.carry sent s _ ht (fun i hi => ⟨hi, rfl⟩) (fun r hr => by cases hr)
      · exact hstore _ _ rfl rfl rfl rfl
      · exact hstore _ _ rfl rfl rfl rfl
      · exact Tracked.carry sent s _ ht (fun i hi => ⟨hi, rfl⟩)
          (fun r hr => Or.inl ⟨hpk.trans hr, by cases r <;> rfl⟩)

/-- A non-blocking `modbus_send` keeps the ring tracked, its message
included. -/
theorem send_tracked (s : ModbusState) (sent : List modbus_message_t) (h : Inv s)
    (ht : Tracked sent s) (m : modbus_message_t) (c : Option modbus_callbacks_t) :
    Tracked (sent ++ [m]) (modbus_send s m c false []).st := by
  rw [send_async_eq s h]
  by_cases hroom : (s.queue s.head).next ≠ s.tail
  · rw [if_pos hroom]
    have hnext := h.linked s.head h.head_lt
    have hslots := pending_slots_enqueue s h.head_lt h.tail_lt _ hnext hroom
      { s with queue := set_entry s.queue s.head
                  { add_message (s.queue s.head) (insert_crc m) c with async := true },
               head := (s.queue s.head).next } rfl rfl
    refine ⟨?_, ?_⟩
    · intro i hi
      rw [hslots, List.mem_append, List.mem_singleton] at hi
      simp only [set_entry]
      split
      · exact ⟨m, by simp, add_message_msg _ _ _⟩
      · next hne =>
        rcases hi with hi | hi
        · obtain ⟨m0, hm0, he⟩ := ht.1 i hi
          exact ⟨m0, List.mem_append_left _ hm0, he⟩
        · exact absurd hi hne
    · intro r hr
      have hr' : s.packet = some r := hr
      obtain ⟨m0, hm0, he⟩ := ht.2 r hr'
      refine ⟨m0, List.mem_append_left _ hm0, ?_⟩
      rcases h.phase with ⟨_, hpk⟩ | ⟨_, hpk, _⟩
      · rw [hpk] at hr'; cases hr'
      · rw [hpk] at hr'
        simp only [Option.some.injEq] at hr'
        subst hr'
        have hprev : prev_slot s.tail ≠ s.head := by
          have := h.head_lt
          have := h.tail_lt
          rw [hnext] at hroom
          simp only [prev_slot, MODBUS_QUEUE_LENGTH] at *
          split at hroom <;> omega
        simp only [entry_of, set_entry, if_neg hprev]
        exact he
  · rw [if_neg hroom]
    exact tracked_more sent [m] s ht

theorem is_reply_more (sent extra : List modbus_message_t) (m' : modbus_message_t)
    (h : IsReply sent m') : IsReply (sent ++ extra) m' := by
  obtain ⟨m, hm, rx, h1, h2⟩ := h
  exact ⟨m, List.mem_append_left _ hm, rx, h1, h2⟩

/-- Every message a poll hands to `on_rx_packet` is a tracked message with
its reply. -/
theorem poll_replies (env : PollEnv) (s : ModbusState) (sent : List modbus_message_t)
    (ht : Tracked sent s) (src : PacketRef) (fn : Nat) (m' : modbus_message_t)
    (h : Event.on_rx_packet src fn m' ∈ (modbus_poll env s).2) : IsReply sent m' := by
  obtain ⟨_, hpk, _, hm, hcrc⟩ := poll_packet_event env s src fn m' h
  obtain ⟨m, hmem, he⟩ := ht.2 src hpk
  rw [he] at hm hcrc
  exact ⟨m, hmem, env.rx, hm, hcrc⟩

/-- The wait loop of the blocking branch keeps the invariants of the ring,
and every message it hands to `on_rx_packet` is a tracked message with its
reply. -/
theorem wait_idle_replies (sched : List PollEnv) (s : ModbusState)
    (sent : List modbus_message_t) (h : Inv s) (ht : Tracked sent s) :
    Inv (wait_idle sched s).1 ∧ Tracked sent (wait_idle sched s).1 ∧
    ∀ src fn m', Event.on_rx_packet src fn m' ∈ (wait_idle sched s).2.1 → IsReply sent m' := by
  induction sched generalizing s with
  | nil => exact ⟨h, ht, fun _ _ _ hm => by simp [wait_idle] at hm⟩
  | cons env rest ih =>
    have h1 := (poll_inv env s h).1
    have h2 := poll_tracked env s sent h ht
    have h3 := poll_replies env s sent ht
    by_cases hidle : (modbus_poll env s).1.state = .ModBus_Idle
    · simp only [wait_idle, if_pos hidle]
      exact ⟨h1, h2, h3⟩
    · simp only [wait_idle, if_neg hidle]
      obtain ⟨i1, i2, i3⟩ := ih (modbus_poll env s).1 h1 h2
      refine ⟨i1, i2, ?_⟩
      intro src fn m' hm
      rcases List.mem_append.mp hm with hm | hm
      · exact h3 src fn m' hm
      · exact i3 src fn m' hm

/-- One poll while the blocking dispatcher holds the slot: it calls no
`on_rx_packet`; `sync_msg` is untouched while the transaction goes on, and
in GotReply it holds the reply, which has passed the CRC test when
`crc_check` is set. -/
theorem poll_sync_reply (env : PollEnv) (s : ModbusState) (h : SyncPhase s) :
    (∀ src fn m', Event.on_rx_packet src fn m' ∉ (modbus_poll env s).2) ∧
    (((modbus_poll env s).1.state = .ModBus_TX ∨
        (modbus_poll env s).1.state = .ModBus_AwaitReply) →
      (modbus_poll env s).1.sync_msg = s.sync_msg) ∧
    ((modbus_poll env s).1.state = .ModBus_GotReply →
      (modbus_poll env s).1.sync_msg.msg =
        { s.sync_msg.msg with
          adu := read_reply env.rx (capture_count s.sync_msg.msg.rx_length) 0 s.sync_msg.msg.adu,
          rx_length := 0 } ∧
      (s.sync_msg.msg.crc_check = true →
        rx_crc_error (modbus_poll env s).1.sync_msg.msg.adu s.sync_msg.msg.rx_length = false)) := by
  obtain ⟨hpk, hasync, hst, hl⟩ := h
  refine ⟨?_, ?_⟩
  · intro src fn m' hm
    obtain ⟨_, hp, ha, _⟩ := poll_packet_event env s src fn m' hm
    rw [hpk] at hp
    simp only [Option.some.injEq] at hp
    subst hp
    simp only [entry_of, hasync] at ha
    cases ha
  · by_cases hgate : env.ms = s.last_ms ∨ s.spin_lock = true
    · rw [modbus_poll, if_pos hgate]
      refine ⟨fun _ => rfl, ?_⟩
      intro hg
      rcases hst with h1 | h1 <;> rw [h1] at hg <;> cases hg
    · simp only [modbus_poll, if_neg hgate]
      rcases hst with h1 | h1
      · simp only [h1]
        split_ifs <;> exact ⟨fun _ => rfl, fun hg => by cases hg⟩
      · simp only [h1, hpk, poll_await_reply, entry_of, hasync, Bool.false_eq_true, if_false,
          store_entry]
        split_ifs with c1 c2 c3 c4 c5 <;> refine ⟨?_, ?_⟩ <;> intro hg <;>
          first
          | rfl
          | (rcases hg with hg | hg <;> cases hg)
          | cases hg
        · refine ⟨rfl, ?_⟩
          intro hc
          simp only [hc, true_and, Bool.not_eq_true] at c5
          exact c5

/-- Every message the dispatcher loop of the blocking branch hands to
`on_rx_packet` is the message in `sync_msg` with the reply captured into it,
which has passed the CRC test when `crc_check` is set. -/
theorem dispatch_replies (sched : List PollEnv) (s : ModbusState) (h : SyncPhase s)
    (src : PacketRef) (fn : Nat) (m' : modbus_message_t)
    (hm : Event.on_rx_packet src fn m' ∈ (dispatch sched s).2.1) :
    ∃ rx, m' = { s.sync_msg.msg with
                  adu := read_reply rx (capture_count s.sync_msg.msg.rx_length) 0
                    s.sync_msg.msg.adu,
                  rx_length := 0 } ∧
      (s.sync_msg.msg.crc_check = true →
        rx_crc_error m'.adu s.sync_msg.msg.rx_length = false) := by
  induction sched generalizing s with
  | nil => simp [dispatch] at hm
  | cons env rest ih =>
    obtain ⟨p1, p2, p3, _, _, _, _, _, _, _, _, p12, _⟩ := poll_sync env s h
    obtain ⟨q1, q2, q3⟩ := poll_sync_reply env s h
    have hx : ∀ c, Event.on_rx_packet src fn m' ∉
        packet_exception_events (modbus_poll env s).1 c := by
      intro c
      simp only [packet_exception_events, p1, exception_events]
      split <;> simp
    rcases p12 with hst | hst | hst | hst | ⟨hst, _⟩
    · have hs' : SyncPhase (modbus_poll env s).1 := ⟨p1, p2, Or.inl hst, p3⟩
      simp only [dispatch, hst] at hm
      rcases List.mem_append.mp hm with hm | hm
      · exact absurd hm (q1 _ _ _)
      · have := ih (modbus_poll env s).1 hs' hm
        rwa [q2 (Or.inl hst)] at this
    · have hs' : SyncPhase (modbus_poll env s).1 := ⟨p1, p2, Or.inr hst, p3⟩
      simp only [dispatch, hst] at hm
      rcases List.mem_append.mp hm with hm | hm
      · exact absurd hm (q1 _ _ _)
      · have := ih (modbus_poll env s).1 hs' hm
        rwa [q2 (Or.inr hst)] at this
    · simp only [dispatch, hst] at hm
      rcases List.mem_append.mp hm with hm | hm
      · exact absurd hm (q1 _ _ _)
      · exact absurd hm (hx _)
    · simp only [dispatch, hst] at hm
      rcases List.mem_append.mp hm with hm | hm
      · exact absurd hm (q1 _ _ _)
      · exact absurd hm (hx _)
    · simp only [dispatch, hst] at hm
      rcases List.mem_append.mp hm with hm | hm
      · exact absurd hm (q1 _ _ _)
      · obtain ⟨g1, g2⟩ := q3 hst
        simp only [packet_reply_events, p1, packet_events, entry_of] at hm
        split at hm
        · simp only [List.mem_singleton, Event.on_rx_packet.injEq] at hm
          obtain ⟨_, _, hmm⟩ := hm
          rw [hmm]
          exact ⟨env.rx, g1, g2⟩
        · simp at hm

/-- Every message handed to `on_rx_packet` during one action is a message
given to `modbus_send` so far with its reply captured; when the action has
returned the invariants of the ring hold again. -/
theorem step_replies (a : Action) (s : ModbusState) (sent : List modbus_message_t)
    (h : Inv s) (ht : Tracked sent s) :
    (∀ src fn m', Event.on_rx_packet src fn m' ∈ (step s a).2.1 →
      IsReply (sent ++ a.messages) m') ∧
    ((step s a).2.2 = true →
      Inv (step s a).1 ∧ Tracked (sent ++ a.messages) (step s a).1) := by
  cases a with
  | poll env =>
    refine ⟨?_, fun _ => ⟨(poll_inv env s h).1, ?_⟩⟩
    · intro src fn m' hm
      exact is_reply_more _ _ _ (poll_replies env s sent ht src fn m' hm)
    · exact tracked_more _ _ _ (poll_tracked env s sent h ht)
  | send m c =>
    refine ⟨?_, fun _ => ⟨(send_inv s h m c).1, send_tracked s sent h ht m c⟩⟩
    intro src fn m' hm
    have : (modbus_send s m c false []).events = [] := (send_inv s h m c).2.1
    simp only [step, this] at hm
    cases hm
  | send_block m c sched =>
    have hl := h.unlocked
    obtain ⟨w1, w2, w3⟩ := wait_idle_replies sched s sent h ht
    have hwl := wait_idle_unlocked sched s hl
    have hsp := begin_sync_phase (wait_idle sched s).1 (insert_crc m) c hwl
    have hb : ∀ src fn m', Event.on_rx_packet src fn m' ∉
        begin_sync_events (wait_idle sched s).1 (insert_crc m) c := by
      intro src fn m'
      simp only [begin_sync_events, direction_events]
      split <;> simp
    have hd : ∀ rest src fn m', Event.on_rx_packet src fn m' ∈
        (dispatch rest (begin_sync (wait_idle sched s).1 (insert_crc m) c)).2.1 →
        IsReply (sent ++ [m]) m' := by
      intro rest src fn m' hm
      obtain ⟨rx, g1, g2⟩ := dispatch_replies rest _ hsp src fn m' hm
      simp only [begin_sync, add_message_msg] at g1 g2
      exact ⟨m, by simp, rx, g1, g2⟩
    simp only [step, Action.messages]
    cases hw : (wait_idle sched s).2.2 with
    | none =>
      rw [send_block_waiting s m c sched hl hw]
      refine ⟨?_, fun hr => by simp at hr⟩
      intro src fn m' hm
      exact is_reply_more _ _ _ (w3 src fn m' hm)
    | some rest =>
      have hev : ∀ src fn m', Event.on_rx_packet src fn m' ∈
          (wait_idle sched s).2.1 ++ begin_sync_events (wait_idle sched s).1 (insert_crc m) c ++
            (dispatch rest (begin_sync (wait_idle sched s).1 (insert_crc m) c)).2.1 →
          IsReply (sent ++ [m]) m' := by
        intro src fn m' hm
        rcases List.mem_append.mp hm with hm | hm
        · rcases List.mem_append.mp hm with hm | hm
          · exact is_reply_more _ _ _ (w3 src fn m' hm)
          · exact absurd hm (hb _ _ _)
        · exact hd rest src fn m' hm
      cases hdd : (dispatch rest (begin_sync (wait_idle sched s).1 (insert_crc m) c)).2.2 with
      | none =>
        rw [send_block_running s m c sched rest hl hw hdd]
        exact ⟨hev, fun hr => by simp at hr⟩
      | some b =>
        rw [send_block_done s m c sched rest b hl hw hdd]
        refine ⟨hev, fun _ => ?_⟩
        obtain ⟨d1, d2, d3, d4, _, _⟩ := dispatch_quiet rest _ hsp
        have hq : (release (dispatch rest
            (begin_sync (wait_idle sched s).1 (insert_crc m) c)).1).queue =
            (wait_idle sched s).1.queue := d1
        have hh : (release (dispatch rest
            (begin_sync (wait_idle sched s).1 (insert_crc m) c)).1).head =
            (wait_idle sched s).1.head := d2
        have htl : (release (dispatch rest
            (begin_sync (wait_idle sched s).1 (insert_crc m) c)).1).tail =
            (wait_idle sched s).1.tail := d3
        refine ⟨Inv.of_same_ring _ _ w1 hh htl hq d4 (Or.inl ⟨?_, rfl⟩), ?_⟩
        · simp only [release]
          split <;> simp
        · apply tracked_more
          apply Tracked.carry sent _ _ w2
          · intro i hi
            rw [pending_slots_congr _ _ hh htl] at hi
            exact ⟨hi, by rw [hq]⟩
          · intro r hr
            simp [release] at hr

/-- Every message handed to `on_rx_packet` in a run is a message given to
`modbus_send` in that run, or tracked before it, with its reply captured. -/
theorem run_replies (actions : List Action) (s : ModbusState) (sent : List modbus_message_t)
    (h : Inv s) (ht : Tracked sent s) (src : PacketRef) (fn : Nat) (m' : modbus_message_t)
    (hm : Event.on_rx_packet src fn m' ∈ (run actions s).2) :
    IsReply (sent ++ sent_messages actions) m' := by
  induction actions generalizing s sent with
  | nil => simp [run] at hm
  | cons a rest ih =>
    obtain ⟨h1, h2⟩ := step_replies a s sent h ht
    simp only [sent_messages, ← List.append_assoc]
    by_cases hret : (step s a).2.2 = true
    · simp only [run, hret, if_true] at hm
      rcases List.mem_append.mp hm with hm | hm
      · exact is_reply_more _ _ _ (h1 src fn m' hm)
      · obtain ⟨i1, i2⟩ := h2 hret
        exact ih (step s a).1 (sent ++ a.messages) i1 i2 hm
    · simp only [run, hret] at hm
      exact is_reply_more _ _ _ (h1 src fn m' hm)

/-- Nothing waits in the ring of an idle engine with an empty ring. -/
theorem idle_empty_tracked (s : ModbusState) (h : idle_empty s) : Tracked [] s := by
  refine ⟨?_, ?_⟩
  · intro i hi
    obtain ⟨_, _, hht, hlt, _, _⟩ := h
    rw [mem_pending_slots, hht] at hi
    obtain ⟨k, hk, _⟩ := hi
    have := hht ▸ hlt
    simp only [ MODBUS_QUEUE_LENGTH] at *
    omega
  · intro r hr
    rw [h.2.1] at hr
    cases hr

/-- The receive-side CRC test passes exactly when the two bytes before
position `n` are the low and the high byte of the CRC of the bytes before
them. -/
theorem rx_crc_ok_iff (adu : List Nat) (n : Nat) (h2 : 2 ≤ n) (hn : n < 4294967296) :
    rx_crc_error adu n = false ↔
      adu.getD (n - 2) 0 = modbus_CRC16x adu (n - 2) % 256 ∧
      adu.getD (n - 1) 0 = modbus_CRC16x adu (n - 2) / 256 := by
  unfold rx_crc_error
  rw [to_uint_fast16_sub_two n h2 hn]
  have h1 : modbus_CRC16x adu (n - 2) &&& 0xFF = modbus_CRC16x adu (n - 2) % 256 :=
    Nat.and_pow_two_sub_one_eq_mod _ 8
  have h2 : modbus_CRC16x adu (n - 2) >>> 8 = modbus_CRC16x adu (n - 2) / 256 :=
    Nat.shiftRight_eq_div_pow _ 8
  simp only [h1, h2, Bool.or_eq_false_iff, bne_eq_false_iff_eq]

/-! ## Which poll a reply comes from -/

/-- A poll that calls `on_rx_packet` has found at least `rx_length` bytes
pending. -/
theorem poll_packet_pending (env : PollEnv) (s : ModbusState) (src : PacketRef) (fn : Nat)
    (m' : modbus_message_t) (h : Event.on_rx_packet src fn m' ∈ (modbus_poll env s).2) :
    (entry_of s src).msg.rx_length ≤ env.rx_buffer_count := by
  by_cases hgate : env.ms = s.last_ms ∨ s.spin_lock = true
  · simp [modbus_poll, if_pos hgate] at h
  · simp only [modbus_poll, if_neg hgate] at h
    have hd : ∀ tx, Event.on_rx_packet src fn m' ∉ direction_events s tx := by
      intro tx
      unfold direction_events
      split <;> simp
    by_cases hA : s.state = .ModBus_AwaitReply
    · simp only [hA] at h
      cases hpk : s.packet with
      | none => simp [hpk] at h
      | some r =>
        simp only [hpk, poll_await_reply] at h
        split_ifs at h with h1 h2 h3 h4 h5 h6 h7 h8 <;>
          simp only [List.mem_cons, List.mem_append, List.mem_replicate, List.mem_nil_iff,
            List.mem_singleton, reduceCtorEq, and_false, or_false, false_or] at h
        · unfold exception_events at h
          split at h <;> simp at h
        · unfold packet_events at h
          split at h
          · simp only [List.mem_singleton, Event.on_rx_packet.injEq] at h
            obtain ⟨hsrc, _, _⟩ := h
            subst hsrc
            exact h5
          · simp at h
    · cases hst : s.state <;> first
        | exact absurd hst hA
        | (simp only [hst] at h
           exact absurd h (List.not_mem_nil _))
        | (simp only [hst] at h
           split_ifs at h <;>
             simp only [List.mem_cons, List.mem_append, List.mem_nil_iff, List.mem_singleton,
               reduceCtorEq, or_false, false_or] at h <;>
             exact absurd h (hd _))

theorem is_capture_mono (sent sent2 : List modbus_message_t) (polls polls2 : List PollEnv)
    (m' : modbus_message_t) (hs : ∀ m ∈ sent, m ∈ sent2) (hp : ∀ e ∈ polls, e ∈ polls2)
    (h : IsCapture sent polls m') : IsCapture sent2 polls2 m' := by
  obtain ⟨m, hm, env, he, h1, h2⟩ := h
  exact ⟨m, hs m hm, env, hp env he, h1, h2⟩

/-- Every message a poll hands to `on_rx_packet` is a tracked message into
which that poll has captured what it read. -/
theorem poll_captures (env : PollEnv) (s : ModbusState) (sent : List modbus_message_t)
    (ht : Tracked sent s) (src : PacketRef) (fn : Nat) (m' : modbus_message_t)
    (h : Event.on_rx_packet src fn m' ∈ (modbus_poll env s).2) : IsCapture sent [env] m' := by
  obtain ⟨_, hpk, _, hm, _⟩ := poll_packet_event env s src fn m' h
  have hpend := poll_packet_pending env s src fn m' h
  obtain ⟨m, hmem, he⟩ := ht.2 src hpk
  rw [he] at hm hpend
  exact ⟨m, hmem, env, List.mem_singleton.mpr rfl, hpend, hm⟩

/-- The calls the wait loop makes are the scheduler calls it was given, less
those it leaves over. -/
theorem wait_idle_calls_rest (sched : List PollEnv) (s : ModbusState) (rest : List PollEnv)
    (h : (wait_idle sched s).2.2 = some rest) : sched = wait_idle_calls sched s ++ rest := by
  induction sched generalizing s with
  | nil => simp [wait_idle] at h
  | cons env tl ih =>
    by_cases hidle : (modbus_poll env s).1.state = .ModBus_Idle
    · simp only [wait_idle, if_pos hidle, Option.some.injEq] at h
      simp only [wait_idle_calls, if_pos hidle, h, List.singleton_append]
    · simp only [wait_idle, if_neg hidle] at h
      simp only [wait_idle_calls, if_neg hidle, List.cons_append]
      rw [← ih _ h]

/-- Every message the wait loop of the blocking branch hands to
`on_rx_packet` is a tracked message into which one of the polls the loop has
made has captured what it read. -/
theorem wait_idle_captures (sched : List PollEnv) (s : ModbusState)
    (sent : List modbus_message_t) (h : Inv s) (ht : Tracked sent s)
    (src : PacketRef) (fn : Nat) (m' : modbus_message_t)
    (hm : Event.on_rx_packet src fn m' ∈ (wait_idle sched s).2.1) :
    IsCapture sent (wait_idle_calls sched s) m' := by
  induction sched generalizing s with
  | nil => simp [wait_idle] at hm
  | cons env rest ih =>
    have h1 := (poll_inv env s h).1
    have h2 := poll_tracked env s sent h ht
    have h3 := poll_captures env s sent ht src fn m'
    by_cases hidle : (modbus_poll env s).1.state = .ModBus_Idle
    · simp only [wait_idle, if_pos hidle] at hm
      simp only [wait_idle_calls, if_pos hidle]
      exact h3 hm
    · simp only [wait_idle, if_neg hidle] at hm
      simp only [wait_idle_calls, if_neg hidle]
      rcases List.mem_append.mp hm with hm | hm
      · exact is_capture_mono _ _ _ _ _ (fun _ hx => hx)
          (fun e he => by rw [List.mem_singleton.mp he]; exact List.mem_cons_self _ _) (h3 hm)
      · exact is_capture_mono _ _ _ _ _ (fun _ hx => hx)
          (fun e he => List.mem_cons_of_mem _ he) (ih _ h1 h2 hm)

/-- Every message the dispatcher loop of the blocking branch hands to
`on_rx_packet` is the message in `sync_msg` into which one of the polls the
loop has made, which found at least `rx_length` bytes pending, has captured
what it read. -/
theorem dispatch_captures (sched : List PollEnv) (s : ModbusState) (h : SyncPhase s)
    (src : PacketRef) (fn : Nat) (m' : modbus_message_t)
    (hm : Event.on_rx_packet src fn m' ∈ (dispatch sched s).2.1) :
    ∃ env ∈ dispatch_calls sched s, s.sync_msg.msg.rx_length ≤ env.rx_buffer_count ∧
      m' = { s.sync_msg.msg with
              adu := read_reply env.rx (capture_count s.sync_msg.msg.rx_length) 0
                s.sync_msg.msg.adu,
              rx_length := 0 } := by
  induction sched generalizing s with
  | nil => simp [dispatch] at hm
  | cons env rest ih =>
    obtain ⟨p1, p2, p3, _, _, _, _, _, _, _, _, p12, _⟩ := poll_sync env s h
    obtain ⟨q1, q2, q3⟩ := poll_sync_reply env s h
    have hx : ∀ c, Event.on_rx_packet src fn m' ∉
        packet_exception_events (modbus_poll env s).1 c := by
      intro c
      simp only [packet_exception_events, p1, exception_events]
      split <;> simp
    rcases p12 with hst | hst | hst | hst | ⟨hst, hrx⟩
    · have hs' : SyncPhase (modbus_poll env s).1 := ⟨p1, p2, Or.inl hst, p3⟩
      simp only [dispatch, hst] at hm
      rcases List.mem_append.mp hm with hm | hm
      · exact absurd hm (q1 _ _ _)
      · obtain ⟨e, he, g1, g2⟩ := ih (modbus_poll env s).1 hs' hm
        rw [q2 (Or.inl hst)] at g1 g2
        refine ⟨e, ?_, g1, g2⟩
        simp only [dispatch_calls, hst]
        exact List.mem_cons_of_mem _ he
    · have hs' : SyncPhase (modbus_poll env s).1 := ⟨p1, p2, Or.inr hst, p3⟩
      simp only [dispatch, hst] at hm
      rcases List.mem_append.mp hm with hm | hm
      · exact absurd hm (q1 _ _ _)
      · obtain ⟨e, he, g1, g2⟩ := ih (modbus_poll env s).1 hs' hm
        rw [q2 (Or.inr hst)] at g1 g2
        refine ⟨e, ?_, g1, g2⟩
        simp only [dispatch_calls, hst]
        exact List.mem_cons_of_mem _ he
    · simp only [dispatch, hst] at hm
      rcases List.mem_append.mp hm with hm | hm
      · exact absurd hm (q1 _ _ _)
      · exact absurd hm (hx _)
    · simp only [dispatch, hst] at hm
      rcases List.mem_append.mp hm with hm | hm
      · exact absurd hm (q1 _ _ _)
      · exact absurd hm (hx _)
    · simp only [dispatch, hst] at hm
      rcases List.mem_append.mp hm with hm | hm
      · exact absurd hm (q1 _ _ _)
      · obtain ⟨g1, _⟩ := q3 hst
        simp only [packet_reply_events, p1, packet_events, entry_of] at hm
        split at hm
        · simp only [List.mem_singleton, Event.on_rx_packet.injEq] at hm
          obtain ⟨_, _, hmm⟩ := hm
          rw [hmm]
          refine ⟨env, ?_, hrx, g1⟩
          simp only [dispatch_calls, hst]
          exact List.mem_singleton.mpr rfl
        · simp at hm

/-- Every message handed to `on_rx_packet` during one action is a message
given to `modbus_send` so far into which one of the polls made during that
action has captured what it read. -/
theorem step_captures (a : Action) (s : ModbusState) (sent : List modbus_message_t)
    (h : Inv s) (ht : Tracked sent s) (src : PacketRef) (fn : Nat) (m' : modbus_message_t)
    (hm : Event.on_rx_packet src fn m' ∈ (step s a).2.1) :
    IsCapture (sent ++ a.messages) (step_calls s a) m' := by
  have hleft : ∀ polls, IsCapture sent polls m' → IsCapture (sent ++ a.messages) polls m' :=
    fun polls => is_capture_mono _ _ _ _ _ (fun _ hx => List.mem_append_left _ hx)
      (fun _ hx => hx)
  cases a with
  | poll env => exact hleft _ (poll_captures env s sent ht src fn m' hm)
  | send m c =>
    have : (modbus_send s m c false []).events = [] := (send_inv s h m c).2.1
    simp only [step, this] at hm
    cases hm
  | send_block m c sched =>
    have hl := h.unlocked
    have w3 := wait_idle_captures sched s sent h ht src fn m'
    have hwl := wait_idle_unlocked sched s hl
    have hsp := begin_sync_phase (wait_idle sched s).1 (insert_crc m) c hwl
    have hb : Event.on_rx_packet src fn m' ∉
        begin_sync_events (wait_idle sched s).1 (insert_crc m) c := by
      simp only [begin_sync_events, direction_events]
      split <;> simp
    simp only [step] at hm
    show IsCapture (sent ++ [m]) (send_calls s m c true sched) m'
    cases hw : (wait_idle sched s).2.2 with
    | none =>
      rw [send_block_waiting s m c sched hl hw] at hm
      simp only [send_calls, hl, Bool.false_eq_true, if_false, if_true, hw]
      exact hleft _ (w3 hm)
    | some rest =>
      simp only [send_calls, hl, Bool.false_eq_true, if_false, if_true, hw]
      have hd : Event.on_rx_packet src fn m' ∈
          (dispatch rest (begin_sync (wait_idle sched s).1 (insert_crc m) c)).2.1 →
          IsCapture (sent ++ [m])
            (wait_idle_calls sched s ++
              dispatch_calls rest (begin_sync (wait_idle sched s).1 (insert_crc m) c)) m' := by
        intro hm
        obtain ⟨env, he, g1, g2⟩ := dispatch_captures rest _ hsp src fn m' hm
        have hmsg : (begin_sync (wait_idle sched s).1 (insert_crc m) c).sync_msg.msg =
            insert_crc m := add_message_msg _ _ _
        rw [hmsg] at g1 g2
        exact ⟨m, by simp, env, List.mem_append_right _ he, g1, g2⟩
      have hev : Event.on_rx_packet src fn m' ∈
          (wait_idle sched s).2.1 ++ begin_sync_events (wait_idle sched s).1 (insert_crc m) c ++
            (dispatch rest (begin_sync (wait_idle sched s).1 (insert_crc m) c)).2.1 →
          IsCapture (sent ++ [m])
            (wait_idle_calls sched s ++
              dispatch_calls rest (begin_sync (wait_idle sched s).1 (insert_crc m) c)) m' := by
        intro hm
        rcases List.mem_append.mp hm with hm | hm
        · rcases List.mem_append.mp hm with hm | hm
          · exact is_capture_mono _ _ _ _ _ (fun _ hx => List.mem_append_left _ hx)
              (fun _ hx => List.mem_append_left _ hx) (w3 hm)
          · exact absurd hm hb
        · exact hd hm
      cases hdd : (dispatch rest (begin_sync (wait_idle sched s).1 (insert_crc m) c)).2.2 with
      | none =>
        rw [send_block_running s m c sched rest hl hw hdd] at hm
        exact hev hm
      | some b =>
        rw [send_block_done s m c sched rest b hl hw hdd] at hm
        exact hev hm

/-- Every message handed to `on_rx_packet` in a run is a message given to
`modbus_send` in that run, or tracked before it, into which one of the polls
made during the run has captured what it read. -/
theorem run_captures (actions : List Action) (s : ModbusState) (sent : List modbus_message_t)
    (h : Inv s) (ht : Tracked sent s) (src : PacketRef) (fn : Nat) (m' : modbus_message_t)
    (hm : Event.on_rx_packet src fn m' ∈ (run actions s).2) :
    IsCapture (sent ++ sent_messages actions) (run_calls actions s) m' := by
  induction actions generalizing s sent with
  | nil => simp [run] at hm
  | cons a rest ih =>
    have h1 := step_captures a s sent h ht src fn m'
    have h2 := (step_replies a s sent h ht).2
    have hsent : ∀ x ∈ sent ++ a.messages, x ∈ sent ++ sent_messages (a :: rest) := by
      intro x hx
      simp only [sent_messages, ← List.append_assoc]
      exact List.mem_append_left _ hx
    by_cases hret : (step s a).2.2 = true
    · simp only [run, hret, if_true] at hm
      simp only [run_calls, hret, if_true]
      rcases List.mem_append.mp hm with hm | hm
      · exact is_capture_mono _ _ _ _ _ hsent (fun _ he => List.mem_append_left _ he) (h1 hm)
      · obtain ⟨i1, i2⟩ := h2 hret
        have := ih (step s a).1 (sent ++ a.messages) i1 i2 hm
        refine is_capture_mono _ _ _ _ _ ?_ (fun _ he => List.mem_append_right _ he) this
        intro x hx
        simpa only [sent_messages, ← List.append_assoc] using hx
    · simp only [run, hret] at hm
      simp only [run_calls, hret]
      exact is_capture_mono _ _ _ _ _ hsent (fun _ he => he) (h1 hm)

set_option maxRecDepth 1000000 in
/-- The polls made during the blocking send of the concrete scenario: the
wait loop takes the call at tick 1, the dispatcher loop the calls at the
ticks 2 to 11, the last of which finds the 6-byte reply; the calls at the
ticks 12 to 15 are not made. -/
theorem demo_scenario_calls :
    run_calls [.send_block demo_short_request demo_callbacks demo_scenario_sched] demo_engine =
      demo_sched 0 10 [] ++ demo_sched 10 1 ((frame_of demo_short_request).map Int.ofNat) := by
  decide

/-! ## Claim C19: what the engine changes in a message -/

set_option maxRecDepth 1000000 in
/-- C19 as stated fails for `rx_length`: the blocking request of the
concrete scenario is handed to `modbus_send` with `rx_length = 6`, and the
message passed to `on_rx_packet` has `rx_length = 0`; the same happens to the
asynchronous request with `rx_length = 8` whose reply is captured at tick 3. -/
theorem reply_message_rx_length_zero :
    demo_short_request.rx_length = 6 ∧
    Event.on_rx_packet .sync_msg 1
        { context := 16, crc_check := true, tx_length := 6, rx_length := 0,
          adu := [0x01, 0x03, 0x00, 0x01, 0x30, 0x18, 0, 0, 0, 0] } ∈
      (modbus_send demo_engine demo_short_request demo_callbacks true
        demo_scenario_sched).events ∧
    (demo_request 1).rx_length = 8 ∧
    Event.on_rx_packet (.slot 0) 1
        { context := 1, crc_check := false, tx_length := 8, rx_length := 0,
          adu := [0x01, 0x03, 0x04, 0x00, 0x00, 0x00, 0x00, 0x00, 0, 0] } ∈
      (run (.send (demo_request 1) demo_callbacks :: demo_cycle 0) demo_engine).2 := by
  decide

/-- C19, amended: in every run from an idle engine with an empty ring
(polls, non-blocking and blocking sends), a message passed to `on_rx_packet`
is one of the messages `m` handed to `modbus_send` in that run with the same
`context`, `crc_check` and `tx_length`; its `rx_length` is 0, and its `adu`,
of the same length, is the one `modbus_send` left (CRC bytes stored) with the
bytes received stored over its first `rx_length` places: among the polls
made during the run there is one, `env`, that found at least `rx_length`
bytes pending, and place `i` holds what the `i`-th call of `stream.read()`
returned during that poll. -/
theorem reply_message_keeps_header (actions : List Action) (s : ModbusState)
    (h : idle_empty s) (src : PacketRef) (fn : Nat) (m' : modbus_message_t)
    (hev : Event.on_rx_packet src fn m' ∈ (run actions s).2) :
    ∃ m ∈ sent_messages actions, ∃ env ∈ run_calls actions s,
      m.rx_length ≤ env.rx_buffer_count ∧
      m'.context = m.context ∧ m'.crc_check = m.crc_check ∧ m'.tx_length = m.tx_length ∧
      m'.rx_length = 0 ∧ m'.adu.length = m.adu.length ∧
      m'.adu = read_reply env.rx (capture_count m.rx_length) 0 (insert_crc m).adu ∧
      (1 ≤ m.rx_length → m.rx_length ≤ m.adu.length → ∀ i, m'.adu.getD i 0 =
        if i < m.rx_length then to_char (env.rx.getD i (-1))
        else (insert_crc m).adu.getD i 0) := by
  obtain ⟨m, hm, env, he, hpend, h1⟩ :=
    run_captures actions s [] (idle_empty_inv s h) (idle_empty_tracked s h) src fn m' hev
  have hlen : (insert_crc m).adu.length = m.adu.length := by
    simp [insert_crc]
  refine ⟨m, by simpa using hm, env, he, hpend, ?_, ?_, ?_, ?_, ?_, ?_, ?_⟩
  · rw [h1]; rfl
  · rw [h1]; rfl
  · rw [h1]; rfl
  · rw [h1]; rfl
  · rw [h1]
    exact (read_reply_length _ _ _ _).trans hlen
  · rw [h1]; rfl
  · intro hpos hfit i
    rw [h1]
    show (read_reply env.rx (capture_count m.rx_length) 0 (insert_crc m).adu).getD i 0 = _
    rw [capture_count_pos _ hpos, read_reply_getD _ _ _ _ (by omega) i]
    simp

set_option maxRecDepth 1000000 in
/-- C19, amended, on the concrete scenario: the message passed to
`on_rx_packet` by the blocking send of the 6-byte request. -/
theorem reply_message_keeps_header_witness :
    ∃ m ∈ sent_messages [.send_block demo_short_request demo_callbacks demo_scenario_sched],
      ∃ env ∈ run_calls [.send_block demo_short_request demo_callbacks demo_scenario_sched]
          demo_engine,
      m.rx_length ≤ env.rx_buffer_count ∧
      (16 : Nat) = m.context ∧ true = m.crc_check ∧ 6 = m.tx_length ∧
      (0 : Nat) = 0 ∧ [0x01, 0x03, 0x00, 0x01, 0x30, 0x18, 0, 0, 0, 0].length = m.adu.length ∧
      [0x01, 0x03, 0x00, 0x01, 0x30, 0x18, 0, 0, 0, 0] =
        read_reply env.rx (capture_count m.rx_length) 0 (insert_crc m).adu ∧
      (1 ≤ m.rx_length → m.rx_length ≤ m.adu.length → ∀ i,
        [0x01, 0x03, 0x00, 0x01, 0x30, 0x18, 0, 0, 0, 0].getD i 0 =
        if i < m.rx_length then to_char (env.rx.getD i (-1))
        else (insert_crc m).adu.getD i 0) :=
  reply_message_keeps_header
    [.send_block demo_short_request demo_callbacks demo_scenario_sched] demo_engine
    demo_engine_idle_empty .sync_msg 1
    { context := 16, crc_check := true, tx_length := 6, rx_length := 0,
      adu := [0x01, 0x03, 0x00, 0x01, 0x30, 0x18, 0, 0, 0, 0] }
    (by decide)

/-! ## Claim C20: which replies reach `on_rx_packet` -/

set_option maxRecDepth 1000000 in
/-- C20 as stated fails for the exception bit: a blocking request expecting a
5-byte reply with CRC check gets the exception reply 01 86 02 C3 A1, whose
CRC is right.  The engine goes to GotReply and passes it to `on_rx_packet`
with bit 0x80 set in `adu[1]`; `on_rx_exception` is not called. -/
theorem exception_reply_reaches_on_rx_packet :
    demo_exception_reply 1 = [0x01, 0x86, 0x02, 0xC3, 0xA1] ∧
    Event.on_rx_packet .sync_msg 1
        { context := 9, crc_check := true, tx_length := 5, rx_length := 0,
          adu := [0x01, 0x86, 0x02, 0xC3, 0xA1, 0, 0, 0, 0, 0] } ∈
      (modbus_send demo_engine demo_tiny_request demo_callbacks true
        (demo_sched 0 2 [] ++ demo_sched 2 1 (demo_exception_reply 1))).events ∧
    0x86 &&& 0x80 ≠ 0 ∧
    exception_calls .sync_msg
      (modbus_send demo_engine demo_tiny_request demo_callbacks true
        (demo_sched 0 2 [] ++ demo_sched 2 1 (demo_exception_reply 1))).events = 0 ∧
    (modbus_send demo_engine demo_tiny_request demo_callbacks true
      (demo_sched 0 2 [] ++ demo_sched 2 1 (demo_exception_reply 1))).ret = some true := by
  decide

/-- C20, amended: in every run from an idle engine with an empty ring
(polls, non-blocking and blocking sends), a message passed to `on_rx_packet`
belongs to one of the messages handed to `modbus_send` in that run, and when
that message has `crc_check` set the captured bytes have passed the CRC test
of `modbus_poll`: the two bytes before position `rx_length` are the low and
the high byte of the CRC of the bytes before them. -/
theorem reply_message_crc_verified (actions : List Action) (s : ModbusState)
    (h : idle_empty s) (src : PacketRef) (fn : Nat) (m' : modbus_message_t)
    (hev : Event.on_rx_packet src fn m' ∈ (run actions s).2) :
    ∃ m ∈ sent_messages actions, m'.crc_check = m.crc_check ∧ m'.context = m.context ∧
      (m.crc_check = true → rx_crc_error m'.adu m.rx_length = false) ∧
      (m.crc_check = true → 2 ≤ m.rx_length → m.rx_length < 256 →
        m'.adu.getD (m.rx_length - 2) 0 = modbus_CRC16x m'.adu (m.rx_length - 2) % 256 ∧
        m'.adu.getD (m.rx_length - 1) 0 = modbus_CRC16x m'.adu (m.rx_length - 2) / 256) := by
  obtain ⟨m, hm, rx, h1, h2⟩ :=
    run_replies actions s [] (idle_empty_inv s h) (idle_empty_tracked s h) src fn m' hev
  refine ⟨m, by simpa using hm, by rw [h1]; rfl, by rw [h1]; rfl, h2, ?_⟩
  intro hc hlo hhi
  exact (rx_crc_ok_iff m'.adu m.rx_length hlo (by omega)).mp (h2 hc)

set_option maxRecDepth 1000000 in
/-- C20, amended, on the concrete scenario: the reply passed to
`on_rx_packet` by the blocking send of the 6-byte request carries the CRC
0x1830 of its first four bytes. -/
theorem reply_message_crc_verified_witness :
    ∃ m ∈ sent_messages [.send_block demo_short_request demo_callbacks demo_scenario_sched],
      true = m.crc_check ∧ (16 : Nat) = m.context ∧
      (m.crc_check = true →
        rx_crc_error [0x01, 0x03, 0x00, 0x01, 0x30, 0x18, 0, 0, 0, 0] m.rx_length = false) ∧
      (m.crc_check = true → 2 ≤ m.rx_length → m.rx_length < 256 →
        [0x01, 0x03, 0x00, 0x01, 0x30, 0x18, 0, 0, 0, 0].getD (m.rx_length - 2) 0 =
          modbus_CRC16x [0x01, 0x03, 0x00, 0x01, 0x30, 0x18, 0, 0, 0, 0] (m.rx_length - 2) % 256 ∧
        [0x01, 0x03, 0x00, 0x01, 0x30, 0x18, 0, 0, 0, 0].getD (m.rx_length - 1) 0 =
          modbus_CRC16x [0x01, 0x03, 0x00, 0x01, 0x30, 0x18, 0, 0, 0, 0] (m.rx_length - 2) / 256) :=
  reply_message_crc_verified
    [.send_block demo_short_request demo_callbacks demo_scenario_sched] demo_engine
    demo_engine_idle_empty .sync_msg 1
    { context := 16, crc_check := true, tx_length := 6, rx_length := 0,
      adu := [0x01, 0x03, 0x00, 0x01, 0x30, 0x18, 0, 0, 0, 0] }
    (by decide)

/-! ## A blocking send made between the calls of a run returns -/

theorem sched_succ (g : Nat → PollEnv) (n : Nat) :
    (List.range (n + 1)).map g = g 0 :: (List.range n).map (fun j => g (j + 1)) := by
  rw [List.range_succ_eq_map, List.map_cons, List.map_map]
  rfl

theorem sched_add (g : Nat → PollEnv) (a b : Nat) :
    (List.range (a + b)).map g =
      (List.range a).map g ++ (List.range b).map (fun j => g (a + j)) := by
  rw [List.range_add, List.map_append, List.map_map]
  rfl

/-- The tick stored after a poll is the one stored before or the tick of the
poll. -/
theorem poll_last_ms (env : PollEnv) (s : ModbusState) :
    (modbus_poll env s).1.last_ms = s.last_ms ∨ (modbus_poll env s).1.last_ms = env.ms := by
  by_cases hgate : env.ms = s.last_ms ∨ s.spin_lock = true
  · rw [modbus_poll, if_pos hgate]
    exact Or.inl rfl
  · rw [modbus_poll, if_neg hgate]
    by_cases hA : s.state = .ModBus_AwaitReply
    · simp only [hA]
      cases hpk : s.packet with
      | none => exact Or.inl rfl
      | some r =>
        simp only [poll_await_reply]
        cases r <;> simp only [store_entry] <;> split_ifs <;>
          first | exact Or.inl rfl | exact Or.inr rfl
    · cases hst : s.state <;> first
        | exact absurd hst hA
        | exact Or.inr rfl
        | (simp only []; split_ifs <;> exact Or.inr rfl)

/-- A poll does not touch the settings. -/
theorem poll_modbus (env : PollEnv) (s : ModbusState) :
    (modbus_poll env s).1.modbus = s.modbus := by
  by_cases hgate : env.ms = s.last_ms ∨ s.spin_lock = true
  · rw [modbus_poll, if_pos hgate]
  · rw [modbus_poll, if_neg hgate]
    by_cases hA : s.state = .ModBus_AwaitReply
    · simp only [hA]
      cases hpk : s.packet with
      | none => rfl
      | some r =>
        simp only [poll_await_reply]
        cases r <;> simp only [store_entry] <;> split_ifs <;> rfl
    · cases hst : s.state <;> first
        | exact absurd hst hA
        | rfl
        | (simp only []; split_ifs <;> rfl)

/-- After a poll the scheduler goes on advancing. -/
theorem Advancing.next {g : Nat → PollEnv} {s : ModbusState} (h : Advancing g s) :
    Advancing (fun j => g (j + 1)) (modbus_poll (g 0) s).1 := by
  obtain ⟨h1, h2, h3⟩ := h
  refine ⟨?_, fun j => h2 (j + 1), ?_⟩
  · show (modbus_poll (g 0) s).1.last_ms < (g (0 + 1)).ms
    have := h2 0
    rcases poll_last_ms (g 0) s with hl | hl <;> rw [hl] <;> omega
  · intro k
    obtain ⟨j, hj, hz⟩ := h3 (k + 1)
    refine ⟨j - 1, by omega, ?_⟩
    show (g (j - 1 + 1)).tx_buffer_count = 0
    rw [Nat.sub_add_cancel (by omega)]
    exact hz

/-- The gate of `modbus_poll` is open for the next call of an advancing
scheduler. -/
theorem Advancing.gate {g : Nat → PollEnv} {s : ModbusState} (h : Advancing g s)
    (hl : s.spin_lock = false) : ¬ ((g 0).ms = s.last_ms ∨ s.spin_lock = true) := by
  have := h.1
  rw [hl]
  simp
  omega

/-- The wait loop is done when the first poll leaves the engine in Idle. -/
theorem wait_done_now (g : Nat → PollEnv) (s : ModbusState) (h : Advancing g s)
    (hidle : (modbus_poll (g 0) s).1.state = .ModBus_Idle) : WaitDone g s := by
  refine ⟨1, fun extra => ?_⟩
  have hs : (List.range 1).map g ++ extra = g 0 :: extra := rfl
  rw [hs]
  simp only [wait_idle, if_pos hidle]
  refine ⟨trivial, ?_, poll_modbus _ _⟩
  have := h.next
  simpa [Nat.add_comm] using this

/-- The wait loop is done when it is done from the state the first poll
leaves, which is not Idle. -/
theorem wait_done_later (g : Nat → PollEnv) (s : ModbusState)
    (hbusy : (modbus_poll (g 0) s).1.state ≠ .ModBus_Idle)
    (h : WaitDone (fun j => g (j + 1)) (modbus_poll (g 0) s).1) : WaitDone g s := by
  obtain ⟨n, hn⟩ := h
  refine ⟨n + 1, fun extra => ?_⟩
  obtain ⟨h1, h2, h3⟩ := hn extra
  rw [sched_succ, List.cons_append]
  simp only [wait_idle, if_neg hbusy]
  refine ⟨h1, ?_, h3.trans (poll_modbus _ _)⟩
  have he : (fun j => g (n + 1 + j)) = (fun j => g (n + j + 1)) := by
    funext j
    congr 1
    omega
  rw [he]
  exact h2

/-- A poll in Silent past the gate: Idle once the deadline is reached,
otherwise still Silent with the same deadline. -/
theorem poll_open_silent (env : PollEnv) (s : ModbusState)
    (hgate : ¬ (env.ms = s.last_ms ∨ s.spin_lock = true)) (hst : s.state = .ModBus_Silent) :
    ((modbus_poll env s).1.state = .ModBus_Idle ∧ s.silence_until ≤ env.ms) ∨
    ((modbus_poll env s).1.state = .ModBus_Silent ∧
      (modbus_poll env s).1.silence_until = s.silence_until ∧ env.ms < s.silence_until) := by
  rw [modbus_poll, if_neg hgate]
  simp only [hst]
  by_cases hd : env.ms ≥ s.silence_until
  · rw [if_pos hd]
    exact Or.inl ⟨rfl, hd⟩
  · rw [if_neg hd]
    exact Or.inr ⟨rfl, rfl, by omega⟩

/-- A poll in TX past the gate: AwaitReply once the transmit buffer is
empty, otherwise still TX; the countdown is not touched. -/
theorem poll_open_tx (env : PollEnv) (s : ModbusState)
    (hgate : ¬ (env.ms = s.last_ms ∨ s.spin_lock = true)) (hst : s.state = .ModBus_TX) :
    (modbus_poll env s).1.rx_timeout = s.rx_timeout ∧
    ((env.tx_buffer_count = 0 ∧ (modbus_poll env s).1.state = .ModBus_AwaitReply) ∨
     (env.tx_buffer_count ≠ 0 ∧ (modbus_poll env s).1.state = .ModBus_TX)) := by
  rw [modbus_poll, if_neg hgate]
  simp only [hst]
  by_cases hd : env.tx_buffer_count = 0
  · rw [if_pos hd]
    exact ⟨rfl, Or.inl ⟨hd, rfl⟩⟩
  · rw [if_neg hd]
    exact ⟨rfl, Or.inr ⟨hd, rfl⟩⟩

/-- A poll in Idle: the engine stays in Idle or starts a transmission with
the configured countdown. -/
theorem poll_open_idle (env : PollEnv) (s : ModbusState) (hst : s.state = .ModBus_Idle) :
    (modbus_poll env s).1.state = .ModBus_Idle ∨
    ((modbus_poll env s).1.state = .ModBus_TX ∧
      (modbus_poll env s).1.rx_timeout = s.modbus.rx_timeout) := by
  by_cases hgate : env.ms = s.last_ms ∨ s.spin_lock = true
  · rw [modbus_poll, if_pos hgate]
    exact Or.inl hst
  · rw [modbus_poll, if_neg hgate]
    simp only [hst]
    split_ifs
    · exact Or.inr ⟨rfl, rfl⟩
    · exact Or.inl rfl

/-- A poll in AwaitReply past the gate with the countdown running: the
transaction ends, or the engine stays in AwaitReply with the countdown one
lower and still running. -/
theorem poll_open_await (env : PollEnv) (s : ModbusState) (r : PacketRef)
    (hgate : ¬ (env.ms = s.last_ms ∨ s.spin_lock = true))
    (hst : s.state = .ModBus_AwaitReply) (hpk : s.packet = some r)
    (hrun : 1 ≤ s.rx_timeout) :
    ((modbus_poll env s).1.state = .ModBus_AwaitReply ∧
      (modbus_poll env s).1.rx_timeout + 1 = s.rx_timeout ∧
      1 ≤ (modbus_poll env s).1.rx_timeout) ∨
    (modbus_poll env s).1.state = .ModBus_Silent ∨
    (modbus_poll env s).1.state = .ModBus_Timeout ∨
    (modbus_poll env s).1.state = .ModBus_Exception ∨
    (modbus_poll env s).1.state = .ModBus_GotReply := by
  by_cases hterm : (modbus_poll env s).1.state = .ModBus_AwaitReply
  · left
    refine ⟨hterm, ?_⟩
    rw [modbus_poll, if_neg hgate] at hterm ⊢
    simp only [hst, hpk, poll_await_reply] at hterm ⊢
    by_cases hto : s.rx_timeout ≠ 0 ∧ s.rx_timeout - 1 = 0
    · rw [if_pos hto] at hterm
      split_ifs at hterm
    · rw [if_neg hto] at hterm ⊢
      have h2 : 2 ≤ s.rx_timeout := by omega
      cases r <;> simp only [store_entry] at hterm ⊢ <;> split_ifs at hterm ⊢ <;>
        exact ⟨by show s.rx_timeout - 1 + 1 = s.rx_timeout; omega,
          by show 1 ≤ s.rx_timeout - 1; omega⟩
  · right
    exact (poll_terminal env s r hst hpk hterm).2

/-- From Silent the wait loop is done once the tick reaches the deadline. -/
theorem wait_done_silent (d : Nat) : ∀ (g : Nat → PollEnv) (s : ModbusState),
    Advancing g s → s.spin_lock = false → s.state = .ModBus_Silent →
    s.silence_until ≤ (g 0).ms + d → WaitDone g s := by
  induction d with
  | zero =>
    intro g s hadv hl hst hd
    rcases poll_open_silent (g 0) s (hadv.gate hl) hst with ⟨h1, _⟩ | ⟨_, _, h3⟩
    · exact wait_done_now g s hadv h1
    · omega
  | succ d ih =>
    intro g s hadv hl hst hd
    rcases poll_open_silent (g 0) s (hadv.gate hl) hst with ⟨h1, _⟩ | ⟨h1, h2, _⟩
    · exact wait_done_now g s hadv h1
    · apply wait_done_later g s (by rw [h1]; simp)
      apply ih _ _ (hadv.next) (poll_unlocked _ _ hl) h1
      rw [h2]
      have := hadv.2.1 0
      show s.silence_until ≤ (g (0 + 1)).ms + d
      omega

/-- From AwaitReply with the countdown running the wait loop is done: the
transaction ends within as many polls as the countdown holds. -/
theorem wait_done_await (t : Nat) : ∀ (g : Nat → PollEnv) (s : ModbusState),
    Advancing g s → Inv s → s.state = .ModBus_AwaitReply → 1 ≤ s.rx_timeout →
    s.rx_timeout ≤ t + 1 → WaitDone g s := by
  induction t with
  | zero =>
    intro g s hadv hinv hst hrun hle
    have hl := hinv.unlocked
    have hinv2 := (poll_inv (g 0) s hinv).1
    obtain ⟨r, hpk⟩ : ∃ r, s.packet = some r := by
      rcases hinv.phase with ⟨h1 | h1, _⟩ | ⟨_, h2, _⟩
      · rw [hst] at h1; cases h1
      · rw [hst] at h1; cases h1
      · exact ⟨_, h2⟩
    rcases poll_open_await (g 0) s r (hadv.gate hl) hst hpk hrun with
      ⟨_, h2, h3⟩ | h1 | h1 | h1 | h1
    · omega
    · apply wait_done_later g s (by rw [h1]; simp)
      exact wait_done_silent (modbus_poll (g 0) s).1.silence_until _ _ hadv.next
        (poll_unlocked _ _ hl) h1 (by omega)
    all_goals
      rcases hinv2.phase with ⟨h | h, _⟩ | ⟨h | h, _⟩ <;> rw [h1] at h <;> cases h
  | succ t ih =>
    intro g s hadv hinv hst hrun hle
    have hl := hinv.unlocked
    have hinv2 := (poll_inv (g 0) s hinv).1
    obtain ⟨r, hpk⟩ : ∃ r, s.packet = some r := by
      rcases hinv.phase with ⟨h1 | h1, _⟩ | ⟨_, h2, _⟩
      · rw [hst] at h1; cases h1
      · rw [hst] at h1; cases h1
      · exact ⟨_, h2⟩
    rcases poll_open_await (g 0) s r (hadv.gate hl) hst hpk hrun with
      ⟨h1, h2, h3⟩ | h1 | h1 | h1 | h1
    · apply wait_done_later g s (by rw [h1]; simp)
      exact ih _ _ hadv.next hinv2 h1 h3 (by omega)
    · apply wait_done_later g s (by rw [h1]; simp)
      exact wait_done_silent (modbus_poll (g 0) s).1.silence_until _ _ hadv.next
        (poll_unlocked _ _ hl) h1 (by omega)
    all_goals
      rcases hinv2.phase with ⟨h | h, _⟩ | ⟨h | h, _⟩ <;> rw [h1] at h <;> cases h

/-- From TX with the countdown armed the wait loop is done: the transmit
buffer is empty at call `j0` at the latest. -/
theorem wait_done_tx (j0 : Nat) : ∀ (g : Nat → PollEnv) (s : ModbusState),
    Advancing g s → Inv s → s.state = .ModBus_TX → 1 ≤ s.rx_timeout →
    (g j0).tx_buffer_count = 0 → WaitDone g s := by
  induction j0 with
  | zero =>
    intro g s hadv hinv hst hrun hz
    have hl := hinv.unlocked
    have hinv2 := (poll_inv (g 0) s hinv).1
    obtain ⟨h0, ⟨_, h1⟩ | ⟨h1, _⟩⟩ := poll_open_tx (g 0) s (hadv.gate hl) hst
    · apply wait_done_later g s (by rw [h1]; simp)
      exact wait_done_await (modbus_poll (g 0) s).1.rx_timeout _ _ hadv.next hinv2 h1
        (by omega) (by omega)
    · exact absurd hz h1
  | succ j0 ih =>
    intro g s hadv hinv hst hrun hz
    have hl := hinv.unlocked
    have hinv2 := (poll_inv (g 0) s hinv).1
    obtain ⟨h0, ⟨_, h1⟩ | ⟨_, h1⟩⟩ := poll_open_tx (g 0) s (hadv.gate hl) hst
    · apply wait_done_later g s (by rw [h1]; simp)
      exact wait_done_await (modbus_poll (g 0) s).1.rx_timeout _ _ hadv.next hinv2 h1
        (by omega) (by omega)
    · apply wait_done_later g s (by rw [h1]; simp)
      exact ih _ _ hadv.next hinv2 h1 (by omega) hz

/-- The wait loop of the blocking branch is done after finitely many calls
of an advancing scheduler, whatever waits in the ring. -/
theorem wait_done (g : Nat → PollEnv) (s : ModbusState) (hadv : Advancing g s) (hinv : Inv s)
    (hcfg : 1 ≤ s.modbus.rx_timeout)
    (hrun : s.state = .ModBus_TX ∨ s.state = .ModBus_AwaitReply → 1 ≤ s.rx_timeout) :
    WaitDone g s := by
  have hl := hinv.unlocked
  rcases hinv.phase with ⟨hst | hst, _⟩ | ⟨hst | hst, _⟩
  · rcases poll_open_idle (g 0) s hst with h1 | ⟨h1, h2⟩
    · exact wait_done_now g s hadv h1
    · apply wait_done_later g s (by rw [h1]; simp)
      obtain ⟨j, _, hj⟩ := hadv.next.2.2 0
      exact wait_done_tx j _ _ hadv.next (poll_inv (g 0) s hinv).1 h1 (by omega) hj
  · exact wait_done_silent s.silence_until g s hadv hl hst (by omega)
  · obtain ⟨j, _, hj⟩ := hadv.2.2 0
    exact wait_done_tx j g s hadv hinv hst (hrun (Or.inl hst)) hj
  · exact wait_done_await s.rx_timeout g s hadv hinv hst (hrun (Or.inr hst)) (by omega)

/-- A poll keeps the countdown of a transaction in flight running when the
configured response timeout is at least 1. -/
theorem poll_ready (env : PollEnv) (s : ModbusState) (hcfg : 1 ≤ s.modbus.rx_timeout)
    (hrun : s.state = .ModBus_TX ∨ s.state = .ModBus_AwaitReply → 1 ≤ s.rx_timeout) :
    (modbus_poll env s).1.state = .ModBus_TX ∨
      (modbus_poll env s).1.state = .ModBus_AwaitReply → 1 ≤ (modbus_poll env s).1.rx_timeout := by
  by_cases hgate : env.ms = s.last_ms ∨ s.spin_lock = true
  · rw [modbus_poll, if_pos hgate]
    exact hrun
  · intro hp
    cases hst : s.state with
    | ModBus_Idle =>
      rcases poll_open_idle env s hst with h | ⟨_, h⟩
      · rcases hp with hp | hp <;> rw [h] at hp <;> cases hp
      · rw [h]; exact hcfg
    | ModBus_Silent =>
      rcases poll_open_silent env s hgate hst with ⟨h, _⟩ | ⟨h, _⟩ <;>
        rcases hp with hp | hp <;> rw [h] at hp <;> cases hp
    | ModBus_TX =>
      rw [(poll_open_tx env s hgate hst).1]
      exact hrun (Or.inl hst)
    | ModBus_AwaitReply =>
      cases hpk : s.packet with
      | none =>
        have : modbus_poll env s = (s, []) := by
          rw [modbus_poll, if_neg hgate]
          simp only [hst, hpk]
        rw [this]
        exact hrun (Or.inr hst)
      | some r =>
        rcases poll_open_await env s r hgate hst hpk (hrun (Or.inr hst)) with
          ⟨_, _, h⟩ | h | h | h | h
        · exact h
        all_goals rcases hp with hp | hp <;> rw [h] at hp <;> cases hp
    | ModBus_Timeout =>
      rw [modbus_poll, if_neg hgate] at hp
      simp only [hst] at hp
      rcases hp with hp | hp <;> cases hp
    | ModBus_GotReply =>
      rw [modbus_poll, if_neg hgate] at hp
      simp only [hst] at hp
      rcases hp with hp | hp <;> cases hp
    | ModBus_Exception =>
      rw [modbus_poll, if_neg hgate] at hp
      simp only [hst] at hp
      rcases hp with hp | hp <;> cases hp

/-- In every state reached from an idle engine by polls and non-blocking
sends, with the configured response timeout at least 1, the countdown of the
transaction in flight is running. -/
theorem run_ready (actions : List Action) (hnb : ∀ a ∈ actions, a.nonblocking)
    (s : ModbusState) (hinv : Inv s) (hcfg : 1 ≤ s.modbus.rx_timeout)
    (hrun : s.state = .ModBus_TX ∨ s.state = .ModBus_AwaitReply → 1 ≤ s.rx_timeout) :
    1 ≤ (run actions s).1.modbus.rx_timeout ∧
    ((run actions s).1.state = .ModBus_TX ∨ (run actions s).1.state = .ModBus_AwaitReply →
      1 ≤ (run actions s).1.rx_timeout) := by
  induction actions generalizing s with
  | nil => exact ⟨hcfg, hrun⟩
  | cons a rest ih =>
    obtain ⟨h1, hret, _⟩ := step_inv s hinv a (hnb a (List.mem_cons_self _ _))
    simp only [run, hret, if_true]
    have hstep : 1 ≤ (step s a).1.modbus.rx_timeout ∧
        ((step s a).1.state = .ModBus_TX ∨ (step s a).1.state = .ModBus_AwaitReply →
          1 ≤ (step s a).1.rx_timeout) := by
      cases a with
      | poll env => exact ⟨(poll_modbus env s).symm ▸ hcfg, poll_ready env s hcfg hrun⟩
      | send m c =>
        have hs : (modbus_send s m c false []).st.modbus = s.modbus ∧
            (modbus_send s m c false []).st.state = s.state ∧
            (modbus_send s m c false []).st.rx_timeout = s.rx_timeout := by
          rw [send_async_eq s hinv]
          split <;> exact ⟨rfl, rfl, rfl⟩
        show 1 ≤ (modbus_send s m c false []).st.modbus.rx_timeout ∧
          ((modbus_send s m c false []).st.state = .ModBus_TX ∨
            (modbus_send s m c false []).st.state = .ModBus_AwaitReply →
            1 ≤ (modbus_send s m c false []).st.rx_timeout)
        rw [hs.1, hs.2.1, hs.2.2]
        exact ⟨hcfg, hrun⟩
      | send_block m c sched =>
        exact absurd (hnb _ (List.mem_cons_self _ _)) (by simp [Action.nonblocking])
    exact ih (fun b hb => hnb b (List.mem_cons_of_mem _ hb)) _ h1 hstep.1 hstep.2

/-- The dispatcher loop is done when the first poll ends the transaction. -/
theorem dispatch_done_now (g : Nat → PollEnv) (s : ModbusState)
    (hend : (modbus_poll (g 0) s).1.state = .ModBus_Timeout ∨
      (modbus_poll (g 0) s).1.state = .ModBus_Exception ∨
      (modbus_poll (g 0) s).1.state = .ModBus_GotReply) : DispatchDone g s := by
  rcases hend with h | h | h
  · refine ⟨1, true, fun extra => ?_⟩
    have hs : (List.range 1).map g ++ extra = g 0 :: extra := rfl
    rw [hs]
    simp only [dispatch, h]
  · refine ⟨1, true, fun extra => ?_⟩
    have hs : (List.range 1).map g ++ extra = g 0 :: extra := rfl
    rw [hs]
    simp only [dispatch, h]
  · refine ⟨1, false, fun extra => ?_⟩
    have hs : (List.range 1).map g ++ extra = g 0 :: extra := rfl
    rw [hs]
    simp only [dispatch, h]

/-- The dispatcher loop is done when it is done from the state the first
poll leaves, in which the transaction goes on. -/
theorem dispatch_done_later (g : Nat → PollEnv) (s : ModbusState)
    (hon : (modbus_poll (g 0) s).1.state = .ModBus_TX ∨
      (modbus_poll (g 0) s).1.state = .ModBus_AwaitReply)
    (h : DispatchDone (fun j => g (j + 1)) (modbus_poll (g 0) s).1) : DispatchDone g s := by
  obtain ⟨n, b, hn⟩ := h
  refine ⟨n + 1, b, fun extra => ?_⟩
  rw [sched_succ, List.cons_append]
  rcases hon with h | h <;> simp only [dispatch, h] <;> exact hn extra

/-- From AwaitReply with the countdown running the dispatcher loop is done
within as many polls as the countdown holds. -/
theorem dispatch_done_await (t : Nat) : ∀ (g : Nat → PollEnv) (s : ModbusState),
    Advancing g s → SyncPhase s → s.state = .ModBus_AwaitReply → 1 ≤ s.rx_timeout →
    s.rx_timeout ≤ t + 1 → DispatchDone g s := by
  induction t with
  | zero =>
    intro g s hadv hs hst hrun hle
    obtain ⟨p1, p2, p3, _⟩ := poll_sync (g 0) s hs
    rcases poll_open_await (g 0) s _ (hadv.gate hs.2.2.2) hst hs.1 hrun with
      ⟨_, h2, h3⟩ | h1 | h1 | h1 | h1
    · omega
    · obtain ⟨_, _, _, _, _, _, _, _, _, _, _, p12, _⟩ := poll_sync (g 0) s hs
      rcases p12 with h | h | h | h | ⟨h, _⟩ <;> rw [h1] at h <;> cases h
    · exact dispatch_done_now g s (Or.inl h1)
    · exact dispatch_done_now g s (Or.inr (Or.inl h1))
    · exact dispatch_done_now g s (Or.inr (Or.inr h1))
  | succ t ih =>
    intro g s hadv hs hst hrun hle
    obtain ⟨p1, p2, p3, _⟩ := poll_sync (g 0) s hs
    rcases poll_open_await (g 0) s _ (hadv.gate hs.2.2.2) hst hs.1 hrun with
      ⟨h1, h2, h3⟩ | h1 | h1 | h1 | h1
    · apply dispatch_done_later g s (Or.inr h1)
      exact ih _ _ hadv.next ⟨p1, p2, Or.inr h1, p3⟩ h1 h3 (by omega)
    · obtain ⟨_, _, _, _, _, _, _, _, _, _, _, p12, _⟩ := poll_sync (g 0) s hs
      rcases p12 with h | h | h | h | ⟨h, _⟩ <;> rw [h1] at h <;> cases h
    · exact dispatch_done_now g s (Or.inl h1)
    · exact dispatch_done_now g s (Or.inr (Or.inl h1))
    · exact dispatch_done_now g s (Or.inr (Or.inr h1))

/-- From TX with the countdown armed the dispatcher loop is done: the
transmit buffer is empty at call `j0` at the latest. -/
theorem dispatch_done_tx (j0 : Nat) : ∀ (g : Nat → PollEnv) (s : ModbusState),
    Advancing g s → SyncPhase s → s.state = .ModBus_TX → 1 ≤ s.rx_timeout →
    (g j0).tx_buffer_count = 0 → DispatchDone g s := by
  induction j0 with
  | zero =>
    intro g s hadv hs hst hrun hz
    obtain ⟨p1, p2, p3, _⟩ := poll_sync (g 0) s hs
    obtain ⟨h0, ⟨_, h1⟩ | ⟨h1, _⟩⟩ := poll_open_tx (g 0) s (hadv.gate hs.2.2.2) hst
    · apply dispatch_done_later g s (Or.inr h1)
      exact dispatch_done_await (modbus_poll (g 0) s).1.rx_timeout _ _ hadv.next
        ⟨p1, p2, Or.inr h1, p3⟩ h1 (by omega) (by omega)
    · exact absurd hz h1
  | succ j0 ih =>
    intro g s hadv hs hst hrun hz
    obtain ⟨p1, p2, p3, _⟩ := poll_sync (g 0) s hs
    obtain ⟨h0, ⟨_, h1⟩ | ⟨_, h1⟩⟩ := poll_open_tx (g 0) s (hadv.gate hs.2.2.2) hst
    · apply dispatch_done_later g s (Or.inr h1)
      exact dispatch_done_await (modbus_poll (g 0) s).1.rx_timeout _ _ hadv.next
        ⟨p1, p2, Or.inr h1, p3⟩ h1 (by omega) (by omega)
    · apply dispatch_done_later g s (Or.inl h1)
      exact ih _ _ hadv.next ⟨p1, p2, Or.inl h1, p3⟩ h1 (by omega) hz

/-- A blocking `modbus_send` made between the calls of a run returns.  The
engine is in a state reached by polls and non-blocking sends, the configured
response timeout is at least 1 and so is the countdown of a transaction in
flight; call `j` of the host
scheduler polls the engine once with the answers `f j`, every call advances
the tick, and the pending-transmit count is zero again after finitely many
calls.  Then there is a number of scheduler calls within which the call
returns, whatever is received and whatever waits in the ring, and it leaves
the engine in Silent or Idle with `packet` cleared. -/
theorem blocking_send_returns (s : ModbusState) (m : modbus_message_t)
    (c : Option modbus_callbacks_t) (f : Nat → PollEnv) (hinv : Inv s)
    (hcfg : 1 ≤ s.modbus.rx_timeout)
    (hrun : s.state = .ModBus_TX ∨ s.state = .ModBus_AwaitReply → 1 ≤ s.rx_timeout)
    (hfirst : s.last_ms < (f 0).ms) (htick : ∀ j, (f j).ms < (f (j + 1)).ms)
    (htx : ∀ k, ∃ j, k ≤ j ∧ (f j).tx_buffer_count = 0) :
    ∃ N, ∀ N', N ≤ N' →
      (modbus_send s m c true ((List.range N').map f)).ret ≠ none ∧
      ((modbus_send s m c true ((List.range N').map f)).st.state = .ModBus_Silent ∨
        (modbus_send s m c true ((List.range N').map f)).st.state = .ModBus_Idle) ∧
      (modbus_send s m c true ((List.range N').map f)).st.packet = none := by
  have hl := hinv.unlocked
  obtain ⟨n1, hw⟩ := wait_done f s ⟨hfirst, htick, htx⟩ hinv hcfg hrun
  -- the state the wait loop leaves does not depend on the calls that follow
  have hsame : ∀ extra, (wait_idle ((List.range n1).map f ++ extra) s).1 =
      (wait_idle ((List.range n1).map f ++ []) s).1 := by
    intro extra
    obtain ⟨p, hp1, _, hp3, _⟩ := wait_idle_split _ s extra (hw extra).1
    obtain ⟨q, hq1, _, hq3, _⟩ := wait_idle_split _ s [] (hw []).1
    have hpq : p = q := by
      simp only [List.append_nil] at hq1
      rw [hq1] at hp1
      exact (List.append_cancel_right hp1).symm
    rw [hp3, hq3, hpq]
  obtain ⟨_, hadv, hmod⟩ := hw []
  have hwl := wait_idle_unlocked ((List.range n1).map f ++ []) s hl
  have hsp := begin_sync_phase (wait_idle ((List.range n1).map f ++ []) s).1 (insert_crc m) c hwl
  have hadv2 : Advancing (fun j => f (n1 + j))
      (begin_sync (wait_idle ((List.range n1).map f ++ []) s).1 (insert_crc m) c) := hadv
  obtain ⟨j, _, hj⟩ := hadv.2.2 0
  obtain ⟨n2, b, hd⟩ := dispatch_done_tx j _ _ hadv2 hsp rfl
    (by show 1 ≤ (wait_idle ((List.range n1).map f ++ []) s).1.modbus.rx_timeout
        rw [hmod]; exact hcfg) hj
  refine ⟨n1 + n2, fun N' hN => ?_⟩
  obtain ⟨k, rfl⟩ : ∃ k, N' = n1 + (n2 + k) := ⟨N' - (n1 + n2), by omega⟩
  rw [sched_add f n1 (n2 + k), sched_add (fun j => f (n1 + j)) n2 k]
  have hw2 := (hw ((List.range n2).map (fun j => f (n1 + j)) ++
    (List.range k).map (fun j => f (n1 + (n2 + j))))).1
  have hd2 := hd ((List.range k).map (fun j => f (n1 + (n2 + j))))
  rw [← hsame ((List.range n2).map (fun j => f (n1 + j)) ++
    (List.range k).map (fun j => f (n1 + (n2 + j))))] at hd2
  rw [send_block_done s m c _ _ b hl hw2 hd2]
  refine ⟨by simp, ?_, rfl⟩
  simp only [release]
  split
  · exact Or.inl rfl
  · exact Or.inr rfl

set_option maxRecDepth 1000000 in
/-- On a concrete engine: two requests have been queued and the first is
being transmitted (state TX, the second waits in the ring); the scheduler
advances the tick by 1 ms per call from tick 2 and nothing is ever received.
The blocking send returns within finitely many scheduler calls. -/
theorem blocking_send_returns_witness :
    (run [.send (demo_request 1) demo_callbacks, .send (demo_request 2) demo_callbacks,
      .poll (demo_poll 1 [])] demo_engine).1.state = .ModBus_TX ∧
    ∃ N, ∀ N', N ≤ N' →
      (modbus_send
        (run [.send (demo_request 1) demo_callbacks, .send (demo_request 2) demo_callbacks,
          .poll (demo_poll 1 [])] demo_engine).1
        (demo_request 3) demo_callbacks true
        ((List.range N').map (fun k => demo_quiet_poll (k + 2)))).ret ≠ none ∧
      ((modbus_send
        (run [.send (demo_request 1) demo_callbacks, .send (demo_request 2) demo_callbacks,
          .poll (demo_poll 1 [])] demo_engine).1
        (demo_request 3) demo_callbacks true
        ((List.range N').map (fun k => demo_quiet_poll (k + 2)))).st.state = .ModBus_Silent ∨
       (modbus_send
        (run [.send (demo_request 1) demo_callbacks, .send (demo_request 2) demo_callbacks,
          .poll (demo_poll 1 [])] demo_engine).1
        (demo_request 3) demo_callbacks true
        ((List.range N').map (fun k => demo_quiet_poll (k + 2)))).st.state = .ModBus_Idle) ∧
      (modbus_send
        (run [.send (demo_request 1) demo_callbacks, .send (demo_request 2) demo_callbacks,
          .poll (demo_poll 1 [])] demo_engine).1
        (demo_request 3) demo_callbacks true
        ((List.range N').map (fun k => demo_quiet_poll (k + 2)))).st.packet = none :=
  ⟨by decide,
   blocking_send_returns
    (run [.send (demo_request 1) demo_callbacks, .send (demo_request 2) demo_callbacks,
      .poll (demo_poll 1 [])] demo_engine).1
    (demo_request 3) demo_callbacks (fun k => demo_quiet_poll (k + 2))
    ((run_inv _ (by decide) demo_engine (idle_empty_inv _ demo_engine_idle_empty)).1)
    (by decide) (by decide) (by decide)
    (fun j => by simp [demo_quiet_poll, demo_poll])
    (fun k => ⟨k, Nat.le_refl k, rfl⟩)⟩

/-! ## Claim C18: a blocking send made from a callback -/

/-- A poll leaves Exception and GotReply alone: both fall to `default: break`. -/
theorem poll_keeps_terminal (env : PollEnv) (s : ModbusState)
    (h : s.state = .ModBus_Exception ∨ s.state = .ModBus_GotReply) :
    (modbus_poll env s).1.state = s.state := by
  by_cases hgate : env.ms = s.last_ms ∨ s.spin_lock = true
  · rw [modbus_poll, if_pos hgate]
  · rw [modbus_poll, if_neg hgate]
    rcases h with h | h <;> simp only [h]

/-- The wait loop of the blocking branch never sees Idle when it is entered
in Exception or GotReply. -/
theorem wait_idle_stuck (sched : List PollEnv) (s : ModbusState)
    (h : s.state = .ModBus_Exception ∨ s.state = .ModBus_GotReply) :
    (wait_idle sched s).2.2 = none := by
  induction sched generalizing s with
  | nil => rfl
  | cons env rest ih =>
    have hk := poll_keeps_terminal env s h
    have hbusy : (modbus_poll env s).1.state ≠ .ModBus_Idle := by
      rw [hk]
      rcases h with h | h <;> rw [h] <;> simp
    simp only [wait_idle, if_neg hbusy]
    exact ih _ (by rw [hk]; exact h)

/-- A blocking `modbus_send` entered in Exception or GotReply has not
returned after any number of scheduler calls. -/
theorem send_block_stuck (s : ModbusState) (m : modbus_message_t)
    (c : Option modbus_callbacks_t) (sched : List PollEnv)
    (h : s.state = .ModBus_Exception ∨ s.state = .ModBus_GotReply) :
    (modbus_send s m c true sched).ret = none := by
  unfold modbus_send
  by_cases hl : s.spin_lock = true
  · simp only [hl, if_true]
  · simp only [hl, Bool.false_eq_true, if_false, if_true, wait_idle_stuck sched s h]

/-- The engine after a blocking `modbus_send` that has returned is the one
its callback found, with `packet` cleared and the state set to Silent or
Idle. -/
theorem send_block_after_callback (s : ModbusState) (m : modbus_message_t)
    (c : Option modbus_callbacks_t) (sched : List PollEnv) (hl : s.spin_lock = false)
    (hret : (modbus_send s m c true sched).ret ≠ none) :
    (modbus_send s m c true sched).st = release (send_at_callback s m c sched) := by
  cases hw : (wait_idle sched s).2.2 with
  | none =>
    rw [send_block_waiting s m c sched hl hw] at hret
    exact absurd rfl hret
  | some rest =>
    cases hd : (dispatch rest (begin_sync (wait_idle sched s).1 (insert_crc m) c)).2.2 with
    | none =>
      rw [send_block_running s m c sched rest hl hw hd] at hret
      exact absurd rfl hret
    | some b =>
      rw [send_block_done s m c sched rest b hl hw hd]
      simp only [send_at_callback, hl, Bool.false_eq_true, if_false, hw]

set_option maxRecDepth 1000000 in
/-- C18 fails for a blocking `modbus_send` made from the exception callback
of a blocking transaction.  The device at address 1 answers a blocking write
request with the exception reply 01 86 02 C3 A1; when the countdown expires
at tick 52 the engine goes to Exception and the dispatcher calls
`on_rx_exception (2, context)` with the engine still in Exception, unlocked,
the configured response timeout being 50; the outer call clears `packet` and
leaves Exception only after the callback.  A blocking `modbus_send` made from
the callback has not returned after any sequence of scheduler calls, whatever
these answer: no poll leaves Exception, so its wait loop never sees Idle. -/
theorem blocking_send_in_exception_callback_hangs :
    (modbus_send demo_engine (demo_write_request 1) demo_callbacks true
      (demo_timeout_sched 0 (demo_exception_reply 1))).ret = some false ∧
    Event.on_rx_exception .sync_msg 2 2 5 ∈
      (modbus_send demo_engine (demo_write_request 1) demo_callbacks true
        (demo_timeout_sched 0 (demo_exception_reply 1))).events ∧
    (modbus_send demo_engine (demo_write_request 1) demo_callbacks true
      (demo_timeout_sched 0 (demo_exception_reply 1))).st =
      release (send_at_callback demo_engine (demo_write_request 1) demo_callbacks
        (demo_timeout_sched 0 (demo_exception_reply 1))) ∧
    (send_at_callback demo_engine (demo_write_request 1) demo_callbacks
      (demo_timeout_sched 0 (demo_exception_reply 1))).state = .ModBus_Exception ∧
    (send_at_callback demo_engine (demo_write_request 1) demo_callbacks
      (demo_timeout_sched 0 (demo_exception_reply 1))).spin_lock = false ∧
    (send_at_callback demo_engine (demo_write_request 1) demo_callbacks
      (demo_timeout_sched 0 (demo_exception_reply 1))).modbus.rx_timeout = 50 ∧
    ∀ (m : modbus_message_t) (c : Option modbus_callbacks_t) (sched : List PollEnv),
      (modbus_send
        (send_at_callback demo_engine (demo_write_request 1) demo_callbacks
          (demo_timeout_sched 0 (demo_exception_reply 1)))
        m c true sched).ret = none :=
  ⟨by decide, by decide,
   send_block_after_callback _ _ _ _ (by decide) (by decide),
   by decide, by decide, by decide,
   fun m c sched => send_block_stuck _ m c sched (Or.inl (by decide))⟩

/-! ## Claims C22 and C26: the silence table -/

/-- The selector of a supported baud rate is its place in the table `baud`. -/
theorem get_baudrate_baud (i : Nat) (h : i < 6) : get_baudrate (baud.getD i 0) = i := by
  have h6 : i = 0 ∨ i = 1 ∨ i = 2 ∨ i = 3 ∨ i = 4 ∨ i = 5 := by omega
  rcases h6 with h | h | h | h | h | h <;> subst h <;> decide

/-- A rate that is not in the table `baud` gets the selector of the default
rate. -/
theorem get_baudrate_other (rate : Nat) (h : rate ∉ baud) : get_baudrate rate = MODBUS_BAUDRATE := by
  simp only [baud, List.mem_cons, List.mem_singleton, List.not_mem_nil, or_false, not_or] at h
  obtain ⟨h0, h1, h2, h3, h4, h5⟩ := h
  have hne : ∀ a : Nat, rate ≠ a → ¬ (a = rate) := fun a ha hc => ha hc.symm
  simp [get_baudrate, get_baudrate_from, baud, hne _ h0, hne _ h1, hne _ h2, hne _ h3,
    hne _ h4, hne _ h5]

/-- The selector `get_baudrate` returns is always one of the six places of
the tables. -/
theorem get_baudrate_lt (rate : Nat) : get_baudrate rate < 6 := by
  by_cases h : rate ∈ baud
  · simp only [baud, List.mem_cons, List.mem_singleton, List.not_mem_nil, or_false] at h
    rcases h with h | h | h | h | h | h <;> subst h <;> decide
  · rw [get_baudrate_other rate h]
    decide

/-- C22: the active silence duration is a lookup in the current silence
table.  `modbus_set_silence` makes the table the one given, or the default
16, 8, 4, 2, 2, 2 when given NULL, and looks the duration up at the selector
of the configured baud rate; `modbus_set_baud` with a selector below 6 and
`modbus_settings_load` keep the table and leave the duration equal to the
table's entry at the selector of the baud rate they configure.  The selector
of a supported baud rate is its place in `baud`, and it is always below 6,
the number of entries of a table. -/
theorem silence_timeout_is_table_lookup (s : ModbusState) :
    (∀ t : List Nat, (modbus_set_silence (some t) s).silence = t ∧
      (modbus_set_silence (some t) s).silence_timeout =
        t.getD (get_baudrate (modbus_set_silence (some t) s).modbus.baud_rate) 0) ∧
    ((modbus_set_silence none s).silence = [16, 8, 4, 2, 2, 2] ∧
      (modbus_set_silence none s).silence_timeout =
        [16, 8, 4, 2, 2, 2].getD (get_baudrate (modbus_set_silence none s).modbus.baud_rate) 0) ∧
    (∀ v, v < 6 →
      (modbus_set_baud v s).silence = s.silence ∧
      (modbus_set_baud v s).modbus.baud_rate = baud.getD v 0 ∧
      modbus_get_baud (modbus_set_baud v s) = v ∧
      (modbus_set_baud v s).silence_timeout =
        (modbus_set_baud v s).silence.getD
          (get_baudrate (modbus_set_baud v s).modbus.baud_rate) 0) ∧
    (∀ nvs, (modbus_settings_load nvs s).silence = s.silence ∧
      (modbus_settings_load nvs s).silence_timeout =
        (modbus_settings_load nvs s).silence.getD
          (get_baudrate (modbus_settings_load nvs s).modbus.baud_rate) 0) ∧
    (∀ i, i < 6 → get_baudrate (baud.getD i 0) = i) ∧
    (∀ rate, get_baudrate rate < 6) ∧ baud.length = 6 ∧ dflt_timeout.length = 6 := by
  refine ⟨?_, ?_, ?_, ?_, get_baudrate_baud, get_baudrate_lt, rfl, rfl⟩
  · intro t
    exact ⟨rfl, rfl⟩
  · exact ⟨rfl, rfl⟩
  · intro v hv
    refine ⟨rfl, rfl, ?_, ?_⟩
    · show get_baudrate (baud.getD v 0) = v
      exact get_baudrate_baud v hv
    · show s.silence.getD v 0 = s.silence.getD (get_baudrate (baud.getD v 0)) 0
      rw [get_baudrate_baud v hv]
  · intro nvs
    cases nvs <;> exact ⟨rfl, rfl⟩

/-- C22 on the engine after initialisation with the Huanyang v1 table: at
9600 baud (selector 2) the silence duration is the table's 6 ms. -/
theorem silence_timeout_is_table_lookup_witness :
    (modbus_set_baud 2 (modbus_set_silence (some v1_silence) demo_engine)).silence = v1_silence ∧
    (modbus_set_baud 2 (modbus_set_silence (some v1_silence) demo_engine)).modbus.baud_rate =
      9600 ∧
    (modbus_set_baud 2 (modbus_set_silence (some v1_silence) demo_engine)).silence_timeout = 6 :=
  have h := (silence_timeout_is_table_lookup
    (modbus_set_silence (some v1_silence) demo_engine)).2.2.1 2 (by decide)
  ⟨h.1, h.2.1, h.2.2.2⟩

/-- C26: for each supported baud rate `b` the default silence duration
`d (b)`, the entry of `dflt_timeout` at the selector of `b`, satisfies
`d (b) * b ≥ 35000`: it is at least 3.5 characters of 10 bits at `b` baud, in
milliseconds.  It is the duration the engine has after initialisation and a
settings load with that rate. -/
theorem default_silence_covers_frame_gap :
    dflt_timeout.getD (get_baudrate 2400) 0 * 2400 ≥ 35000 ∧
    dflt_timeout.getD (get_baudrate 4800) 0 * 4800 ≥ 35000 ∧
    dflt_timeout.getD (get_baudrate 9600) 0 * 9600 ≥ 35000 ∧
    dflt_timeout.getD (get_baudrate 19200) 0 * 19200 ≥ 35000 ∧
    dflt_timeout.getD (get_baudrate 38400) 0 * 38400 ≥ 35000 ∧
    dflt_timeout.getD (get_baudrate 115200) 0 * 115200 ≥ 35000 ∧
    baud = [2400, 4800, 9600, 19200, 38400, 115200] ∧
    List.zipWith (fun d b => d * b) dflt_timeout baud =
      [38400, 38400, 38400, 38400, 76800, 230400] ∧
    (baud.map (fun b => (modbus_settings_load (some { baud_rate := b, rx_timeout := 50 })
      (modbus_init false)).silence_timeout * b)) =
      [38400, 38400, 38400, 38400, 76800, 230400] := by
  decide
/-! ## Claim C28: a non-blocking send while the blocking transaction holds the slot -/

/-- C28: a non-blocking `modbus_send` called while `packet` is the static
`sync_msg` of the blocking branch changes no static of the engine (`head`,
`tail` and every ring slot are as before), makes no call, and returns true;
whatever the firmware does afterwards runs exactly as if the call had not
been made, so no callback is ever made for its message. -/
theorem send_async_during_blocking_dropped (s : ModbusState) (m : modbus_message_t)
    (c : Option modbus_callbacks_t) (sched : List PollEnv)
    (hpk : s.packet = some .sync_msg) (hl : s.spin_lock = false) :
    (modbus_send s m c false sched).st = s ∧
    (modbus_send s m c false sched).events = [] ∧
    (modbus_send s m c false sched).ret = some true ∧
    ∀ actions, run actions (modbus_send s m c false sched).st = run actions s := by
  have h : modbus_send s m c false sched =
      { st := s, msg := insert_crc m, events := [], ret := some true } := by
    unfold modbus_send
    simp [hl, hpk]
  rw [h]
  exact ⟨rfl, rfl, rfl, fun _ => rfl⟩

set_option maxRecDepth 1000000 in
/-- C28 on a concrete engine: a blocking transaction has just been started on
the engine after initialisation, so `packet` is `sync_msg` and all ring slots
are free (`head->next != tail`); the non-blocking send is dropped and returns
true. -/
theorem send_async_during_blocking_dropped_witness :
    ((begin_sync demo_engine (insert_crc (demo_request 1)) demo_callbacks).queue
      (begin_sync demo_engine (insert_crc (demo_request 1)) demo_callbacks).head).next ≠
      (begin_sync demo_engine (insert_crc (demo_request 1)) demo_callbacks).tail ∧
    (modbus_send (begin_sync demo_engine (insert_crc (demo_request 1)) demo_callbacks)
      (demo_request 2) demo_callbacks false []).st =
      begin_sync demo_engine (insert_crc (demo_request 1)) demo_callbacks ∧
    (modbus_send (begin_sync demo_engine (insert_crc (demo_request 1)) demo_callbacks)
      (demo_request 2) demo_callbacks false []).ret = some true :=
  have h := send_async_during_blocking_dropped
    (begin_sync demo_engine (insert_crc (demo_request 1)) demo_callbacks)
    (demo_request 2) demo_callbacks [] rfl (by decide)
  ⟨by decide, h.1, h.2.2.1⟩

/-! ## Claim C27: the value a blocking send returns -/

/-- How the dispatcher loop ends tells the state it stops in: `block` cleared
in GotReply, `block` still set in Timeout or Exception, and not done while
the transaction is in TX or AwaitReply. -/
theorem dispatch_outcome (sched : List PollEnv) (s : ModbusState) (h : SyncPhase s) :
    ((dispatch sched s).2.2 = some false ↔ (dispatch sched s).1.state = .ModBus_GotReply) ∧
    ((dispatch sched s).2.2 = some true ↔
      (dispatch sched s).1.state = .ModBus_Timeout ∨
        (dispatch sched s).1.state = .ModBus_Exception) ∧
    ((dispatch sched s).2.2 = none ↔
      (dispatch sched s).1.state = .ModBus_TX ∨
        (dispatch sched s).1.state = .ModBus_AwaitReply) := by
  induction sched generalizing s with
  | nil =>
    simp only [dispatch]
    rcases h.2.2.1 with hst | hst <;> simp [hst]
  | cons env rest ih =>
    obtain ⟨p1, p2, p3, _, _, _, _, _, _, _, _, p12, _⟩ := poll_sync env s h
    rcases p12 with hst | hst | hst | hst | ⟨hst, _⟩
    · simp only [dispatch, hst]
      exact ih _ ⟨p1, p2, Or.inl hst, p3⟩
    · simp only [dispatch, hst]
      exact ih _ ⟨p1, p2, Or.inr hst, p3⟩
    · simp [dispatch, hst]
    · simp [dispatch, hst]
    · simp [dispatch, hst]

/-- When the dispatcher loop stops in GotReply, one of its polls found at
least `rx_length` bytes received, and `sync_msg` holds the message with the
bytes read captured into it, which have passed the CRC test when `crc_check`
is set. -/
theorem dispatch_got_reply (sched : List PollEnv) (s : ModbusState) (h : SyncPhase s)
    (hg : (dispatch sched s).1.state = .ModBus_GotReply) :
    ∃ env ∈ sched, env.rx_buffer_count ≥ s.sync_msg.msg.rx_length ∧
      (dispatch sched s).1.sync_msg.msg =
        { s.sync_msg.msg with
          adu := read_reply env.rx (capture_count s.sync_msg.msg.rx_length) 0 s.sync_msg.msg.adu,
          rx_length := 0 } ∧
      (s.sync_msg.msg.crc_check = true →
        rx_crc_error (dispatch sched s).1.sync_msg.msg.adu s.sync_msg.msg.rx_length = false) := by
  induction sched generalizing s with
  | nil =>
    simp only [dispatch] at hg
    rcases h.2.2.1 with hst | hst <;> rw [hst] at hg <;> cases hg
  | cons env rest ih =>
    obtain ⟨p1, p2, p3, _, _, _, _, _, _, _, _, p12, _⟩ := poll_sync env s h
    obtain ⟨_, q2, q3⟩ := poll_sync_reply env s h
    rcases p12 with hst | hst | hst | hst | ⟨hst, hrx⟩
    · simp only [dispatch, hst] at hg ⊢
      obtain ⟨e, he, h1, h2, h3⟩ := ih _ ⟨p1, p2, Or.inl hst, p3⟩ hg
      rw [q2 (Or.inl hst)] at h1 h2 h3
      exact ⟨e, List.mem_cons_of_mem _ he, h1, h2, h3⟩
    · simp only [dispatch, hst] at hg ⊢
      obtain ⟨e, he, h1, h2, h3⟩ := ih _ ⟨p1, p2, Or.inr hst, p3⟩ hg
      rw [q2 (Or.inr hst)] at h1 h2 h3
      exact ⟨e, List.mem_cons_of_mem _ he, h1, h2, h3⟩
    · simp only [dispatch, hst] at hg
      cases hg
    · simp only [dispatch, hst] at hg
      cases hg
    · simp only [dispatch, hst]
      obtain ⟨g1, g2⟩ := q3 hst
      exact ⟨env, List.mem_cons_self _ _, hrx, g1, g2⟩

/-- C27: a blocking `modbus_send` (entered with the guard clear) returns true
exactly when its dispatcher loop stopped in GotReply, and false exactly when
it stopped in Timeout or Exception.  When it returns true, one of the polls
of the dispatcher found at least `rx_length` bytes received, the bytes read
are in the message given to `on_rx_packet`, and they have passed the CRC test
when `crc_check` is set. -/
theorem blocking_send_true_iff_got_reply (s : ModbusState) (m : modbus_message_t)
    (c : Option modbus_callbacks_t) (sched : List PollEnv) (hl : s.spin_lock = false) :
    ((modbus_send s m c true sched).ret = some true ↔
      ∃ rest, (wait_idle sched s).2.2 = some rest ∧
        (dispatch rest (begin_sync (wait_idle sched s).1 (insert_crc m) c)).1.state =
          .ModBus_GotReply) ∧
    ((modbus_send s m c true sched).ret = some false ↔
      ∃ rest, (wait_idle sched s).2.2 = some rest ∧
        ((dispatch rest (begin_sync (wait_idle sched s).1 (insert_crc m) c)).1.state =
            .ModBus_Timeout ∨
          (dispatch rest (begin_sync (wait_idle sched s).1 (insert_crc m) c)).1.state =
            .ModBus_Exception)) ∧
    ((modbus_send s m c true sched).ret = some true →
      ∃ rest env, (wait_idle sched s).2.2 = some rest ∧ env ∈ rest ∧
        env.rx_buffer_count ≥ m.rx_length ∧
        (dispatch rest (begin_sync (wait_idle sched s).1 (insert_crc m) c)).1.sync_msg.msg =
          captured m env.rx ∧
        (m.crc_check = true → rx_crc_error (captured m env.rx).adu m.rx_length = false)) := by
  have hwl := wait_idle_unlocked sched s hl
  have hsp := begin_sync_phase (wait_idle sched s).1 (insert_crc m) c hwl
  have key : ∀ b : Bool, (modbus_send s m c true sched).ret = some b ↔
      ∃ rest, (wait_idle sched s).2.2 = some rest ∧
        (dispatch rest (begin_sync (wait_idle sched s).1 (insert_crc m) c)).2.2 = some (!b) := by
    intro b
    cases hw : (wait_idle sched s).2.2 with
    | none =>
      rw [send_block_waiting s m c sched hl hw]
      simp
    | some rest =>
      cases hd : (dispatch rest (begin_sync (wait_idle sched s).1 (insert_crc m) c)).2.2 with
      | none =>
        rw [send_block_running s m c sched rest hl hw hd]
        simp [hd]
      | some b2 =>
        rw [send_block_done s m c sched rest b2 hl hw hd]
        simp only [Option.some.injEq, exists_eq_left', hd]
        cases b <;> cases b2 <;> simp
  have hgot : (modbus_send s m c true sched).ret = some true ↔
      ∃ rest, (wait_idle sched s).2.2 = some rest ∧
        (dispatch rest (begin_sync (wait_idle sched s).1 (insert_crc m) c)).1.state =
          .ModBus_GotReply := by
    rw [key true]
    constructor
    · rintro ⟨rest, h1, h2⟩
      exact ⟨rest, h1, (dispatch_outcome rest _ hsp).1.mp h2⟩
    · rintro ⟨rest, h1, h2⟩
      exact ⟨rest, h1, (dispatch_outcome rest _ hsp).1.mpr h2⟩
  refine ⟨hgot, ?_, ?_⟩
  · rw [key false]
    constructor
    · rintro ⟨rest, h1, h2⟩
      exact ⟨rest, h1, (dispatch_outcome rest _ hsp).2.1.mp h2⟩
    · rintro ⟨rest, h1, h2⟩
      exact ⟨rest, h1, (dispatch_outcome rest _ hsp).2.1.mpr h2⟩
  · intro hret
    obtain ⟨rest, h1, h2⟩ := hgot.mp hret
    obtain ⟨env, he, g1, g2, g3⟩ := dispatch_got_reply rest _ hsp h2
    have hmsg : (begin_sync (wait_idle sched s).1 (insert_crc m) c).sync_msg.msg =
        insert_crc m := add_message_msg _ _ _
    rw [hmsg] at g1 g2 g3
    refine ⟨rest, env, h1, he, g1, g2, ?_⟩
    intro hc
    have := g3 hc
    rw [g2] at this
    exact this

set_option maxRecDepth 1000000 in
/-- C27 on the concrete scenario: the blocking send of the 6-byte request
returns true, and its dispatcher stopped in GotReply. -/
theorem blocking_send_true_iff_got_reply_witness :
    (modbus_send demo_engine demo_short_request demo_callbacks true demo_scenario_sched).ret =
      some true ∧
    ∃ rest, (wait_idle demo_scenario_sched demo_engine).2.2 = some rest ∧
      (dispatch rest (begin_sync (wait_idle demo_scenario_sched demo_engine).1
        (insert_crc demo_short_request) demo_callbacks)).1.state = .ModBus_GotReply :=
  ⟨by decide,
   (blocking_send_true_iff_got_reply demo_engine demo_short_request demo_callbacks
    demo_scenario_sched (by decide)).1.mp (by decide)⟩

/-! ## The state between calls -/

/-- The wait loop of the blocking branch keeps the invariants of the ring. -/
theorem wait_idle_inv (sched : List PollEnv) (s : ModbusState) (h : Inv s) :
    Inv (wait_idle sched s).1 := by
  induction sched generalizing s with
  | nil => exact h
  | cons env rest ih =>
    have h1 := (poll_inv env s h).1
    by_cases hidle : (modbus_poll env s).1.state = .ModBus_Idle
    · simp only [wait_idle, if_pos hidle]
      exact h1
    · simp only [wait_idle, if_neg hidle]
      exact ih _ h1

/-- After any action on an engine that meets the ring invariants the state is
Idle, Silent, TX or AwaitReply, also when a blocking call has not returned,
and the invariants hold again when the call has returned.  Timeout, GotReply
and Exception are met only inside the blocking branch of `modbus_send`. -/
theorem step_state_between_calls (a : Action) (s : ModbusState) (h : Inv s) :
    ((step s a).1.state = .ModBus_Idle ∨ (step s a).1.state = .ModBus_Silent ∨
      (step s a).1.state = .ModBus_TX ∨ (step s a).1.state = .ModBus_AwaitReply) ∧
    ((step s a).2.2 = true → Inv (step s a).1) := by
  have hphase : ∀ t : ModbusState, Inv t →
      t.state = .ModBus_Idle ∨ t.state = .ModBus_Silent ∨
      t.state = .ModBus_TX ∨ t.state = .ModBus_AwaitReply := by
    intro t ht
    rcases ht.phase with ⟨h1 | h1, _⟩ | ⟨h1 | h1, _⟩
    · exact Or.inl h1
    · exact Or.inr (Or.inl h1)
    · exact Or.inr (Or.inr (Or.inl h1))
    · exact Or.inr (Or.inr (Or.inr h1))
  cases a with
  | poll env => exact ⟨hphase _ (poll_inv env s h).1, fun _ => (poll_inv env s h).1⟩
  | send m c => exact ⟨hphase _ (send_inv s h m c).1, fun _ => (send_inv s h m c).1⟩
  | send_block m c sched =>
    have hl := h.unlocked
    have w1 := wait_idle_inv sched s h
    have hwl := wait_idle_unlocked sched s hl
    have hsp := begin_sync_phase (wait_idle sched s).1 (insert_crc m) c hwl
    simp only [step]
    cases hw : (wait_idle sched s).2.2 with
    | none =>
      rw [send_block_waiting s m c sched hl hw]
      exact ⟨hphase _ w1, fun hr => by simp at hr⟩
    | some rest =>
      cases hd : (dispatch rest (begin_sync (wait_idle sched s).1 (insert_crc m) c)).2.2 with
      | none =>
        rw [send_block_running s m c sched rest hl hw hd]
        refine ⟨?_, fun hr => by simp at hr⟩
        rcases (dispatch_outcome rest _ hsp).2.2.mp hd with h1 | h1
        · exact Or.inr (Or.inr (Or.inl h1))
        · exact Or.inr (Or.inr (Or.inr h1))
      | some b =>
        rw [send_block_done s m c sched rest b hl hw hd]
        obtain ⟨d1, d2, d3, d4, _, _⟩ := dispatch_quiet rest _ hsp
        have hrel : (release (dispatch rest
            (begin_sync (wait_idle sched s).1 (insert_crc m) c)).1).state = .ModBus_Silent ∨
            (release (dispatch rest
            (begin_sync (wait_idle sched s).1 (insert_crc m) c)).1).state = .ModBus_Idle := by
          simp only [release]
          split
          · exact Or.inl rfl
          · exact Or.inr rfl
        refine ⟨?_, fun _ => ?_⟩
        · rcases hrel with h1 | h1
          · exact Or.inr (Or.inl h1)
          · exact Or.inl h1
        · exact Inv.of_same_ring _ _ w1 d2 d3 d1 d4
            (Or.inl ⟨by rcases hrel with h1 | h1
                        · exact Or.inr h1
                        · exact Or.inl h1, rfl⟩)

/-- Between the calls of a run from an engine that meets the ring invariants
the state is Idle, Silent, TX or AwaitReply. -/
theorem run_state_between_calls (actions : List Action) (s : ModbusState) (h : Inv s) :
    (run actions s).1.state = .ModBus_Idle ∨ (run actions s).1.state = .ModBus_Silent ∨
    (run actions s).1.state = .ModBus_TX ∨ (run actions s).1.state = .ModBus_AwaitReply := by
  induction actions generalizing s with
  | nil =>
    rcases h.phase with ⟨h1 | h1, _⟩ | ⟨h1 | h1, _⟩
    · exact Or.inl h1
    · exact Or.inr (Or.inl h1)
    · exact Or.inr (Or.inr (Or.inl h1))
    · exact Or.inr (Or.inr (Or.inr h1))
  | cons a rest ih =>
    obtain ⟨h1, h2⟩ := step_state_between_calls a s h
    by_cases hret : (step s a).2.2 = true
    · simp only [run, hret, if_true]
      exact ih _ (h2 hret)
    · simp only [run, hret]
      exact h1
/-! ## Claim C24: one poll, at most one transition -/

/-- C24: one call of `modbus_poll` leaves `state` as it is or makes exactly
one of the transitions Idle to TX, TX to AwaitReply, AwaitReply to GotReply,
Exception or Timeout (transaction not asynchronous), AwaitReply to Silent
(asynchronous transaction), Timeout to Silent, Silent to Idle.  In GotReply
and in Exception it changes nothing but the stored tick.  A non-blocking
`modbus_send` never changes `state`, the end of the blocking branch of
`modbus_send` leaves the engine in Silent or Idle, and between the calls of
any run from an idle engine with an empty ring the state is never GotReply,
Exception or Timeout: these are met only inside the blocking branch. -/
theorem poll_single_transition (env : PollEnv) (s : ModbusState) :
    ((modbus_poll env s).1.state = s.state ∨
      (s.state = .ModBus_Idle ∧ (modbus_poll env s).1.state = .ModBus_TX) ∨
      (s.state = .ModBus_TX ∧ (modbus_poll env s).1.state = .ModBus_AwaitReply) ∨
      (s.state = .ModBus_AwaitReply ∧
        ((modbus_poll env s).1.state = .ModBus_GotReply ∨
          (modbus_poll env s).1.state = .ModBus_Exception ∨
          (modbus_poll env s).1.state = .ModBus_Timeout) ∧
        ∃ r, s.packet = some r ∧ (entry_of s r).async = false) ∨
      (s.state = .ModBus_AwaitReply ∧ (modbus_poll env s).1.state = .ModBus_Silent ∧
        ∃ r, s.packet = some r ∧ (entry_of s r).async = true) ∨
      (s.state = .ModBus_Timeout ∧ (modbus_poll env s).1.state = .ModBus_Silent) ∨
      (s.state = .ModBus_Silent ∧ (modbus_poll env s).1.state = .ModBus_Idle)) ∧
    (s.state = .ModBus_GotReply ∨ s.state = .ModBus_Exception →
      (modbus_poll env s).1.state = s.state ∧ (modbus_poll env s).2 = [] ∧
      (modbus_poll env s).1.packet = s.packet ∧
      (modbus_poll env s).1.silence_until = s.silence_until ∧
      (modbus_poll env s).1.rx_timeout = s.rx_timeout) ∧
    (∀ m c sched, (modbus_send s m c false sched).st.state = s.state) ∧
    ((release s).state = .ModBus_Silent ∨ (release s).state = .ModBus_Idle) ∧
    (∀ actions s0, idle_empty s0 →
      (run actions s0).1.state ≠ .ModBus_GotReply ∧
      (run actions s0).1.state ≠ .ModBus_Exception ∧
      (run actions s0).1.state ≠ .ModBus_Timeout) := by
  refine ⟨?_, ?_, ?_, ?_, ?_⟩
  rotate_left 4
  · intro actions s0 h0
    rcases run_state_between_calls actions s0 (idle_empty_inv s0 h0) with h | h | h | h <;>
      rw [h] <;> simp
  · by_cases hgate : env.ms = s.last_ms ∨ s.spin_lock = true
    · rw [modbus_poll, if_pos hgate]
      exact Or.inl rfl
    · rw [modbus_poll, if_neg hgate]
      cases hst : s.state with
      | ModBus_Idle => simp only []; split_ifs <;> simp
      | ModBus_Silent => simp only []; split_ifs <;> simp
      | ModBus_TX => simp only []; split_ifs <;> simp
      | ModBus_AwaitReply =>
        cases hpk : s.packet with
        | none => simp [hst]
        | some r =>
          simp only [poll_await_reply]
          cases ha : (entry_of s r).async <;>
            cases r <;> simp only [store_entry] <;> split_ifs <;>
            first | contradiction | simp [ha, hst]
      | ModBus_Timeout => simp
      | ModBus_GotReply => simp
      | ModBus_Exception => simp
  · intro hs
    by_cases hgate : env.ms = s.last_ms ∨ s.spin_lock = true
    · rw [modbus_poll, if_pos hgate]
      exact ⟨rfl, rfl, rfl, rfl, rfl⟩
    · rw [modbus_poll, if_neg hgate]
      rcases hs with hs | hs <;> simp [hs]
  · intro m c sched
    unfold modbus_send
    simp only [Bool.false_eq_true, if_false]
    split_ifs <;> rfl
  · simp only [release]
    split
    · exact Or.inl rfl
    · exact Or.inr rfl

set_option maxRecDepth 1000000 in
/-- C24 on a concrete engine: the blocking transaction of the 6-byte request
is in GotReply after its reply has been captured at tick 3; a poll at tick 4
leaves it there and makes no call. -/
theorem poll_single_transition_witness :
    (run [.poll (demo_poll 2 []),
        .poll (demo_poll 3 ((frame_of demo_short_request).map Int.ofNat))]
      (begin_sync demo_engine (insert_crc demo_short_request) demo_callbacks)).1.state =
        .ModBus_GotReply ∧
    (modbus_poll (demo_poll 4 [])
      (run [.poll (demo_poll 2 []),
          .poll (demo_poll 3 ((frame_of demo_short_request).map Int.ofNat))]
        (begin_sync demo_engine (insert_crc demo_short_request) demo_callbacks)).1).1.state =
        .ModBus_GotReply ∧
    (modbus_poll (demo_poll 4 [])
      (run [.poll (demo_poll 2 []),
          .poll (demo_poll 3 ((frame_of demo_short_request).map Int.ofNat))]
        (begin_sync demo_engine (insert_crc demo_short_request) demo_callbacks)).1).2 = [] :=
  have h := (poll_single_transition (demo_poll 4 [])
    (run [.poll (demo_poll 2 []),
        .poll (demo_poll 3 ((frame_of demo_short_request).map Int.ofNat))]
      (begin_sync demo_engine (insert_crc demo_short_request) demo_callbacks)).1).2.1
    (Or.inl (by decide))
  ⟨by decide, h.1.trans (by decide), h.2.1⟩
/-! ## Claim C25: the response timeout -/

/-- A poll in AwaitReply past the gate that finds fewer than `rx_length`
bytes: with the countdown above 1 it only lowers the countdown by one and
stores the tick; with the countdown at 1 it ends the transaction, in Silent
for an asynchronous one and in Timeout or Exception otherwise. -/
theorem poll_await_short (env : PollEnv) (s : ModbusState) (r : PacketRef)
    (hgate : ¬ (env.ms = s.last_ms ∨ s.spin_lock = true))
    (hst : s.state = .ModBus_AwaitReply) (hpk : s.packet = some r)
    (hrx : env.rx_buffer_count < (entry_of s r).msg.rx_length) :
    (2 ≤ s.rx_timeout →
      modbus_poll env s =
        ({ s with rx_timeout := s.rx_timeout - 1, last_ms := env.ms, spin_lock := false },
         [Event.get_rx_buffer_count])) ∧
    (s.rx_timeout = 1 →
      ((entry_of s r).async = true → (modbus_poll env s).1.state = .ModBus_Silent) ∧
      ((entry_of s r).async = false →
        (modbus_poll env s).1.state = .ModBus_Timeout ∨
        (modbus_poll env s).1.state = .ModBus_Exception)) := by
  rw [modbus_poll, if_neg hgate]
  simp only [hst, hpk, poll_await_reply]
  refine ⟨?_, ?_⟩
  · intro h2
    have hto : ¬ (s.rx_timeout ≠ 0 ∧ s.rx_timeout - 1 = 0) := by omega
    rw [if_neg hto, if_neg (by omega)]
  · intro h1
    have hto : s.rx_timeout ≠ 0 ∧ s.rx_timeout - 1 = 0 := by omega
    rw [if_pos hto]
    refine ⟨?_, ?_⟩
    · intro ha
      rw [if_pos ha]
    · intro ha
      rw [if_neg (by simp [ha])]
      split_ifs
      · exact Or.inr rfl
      · exact Or.inl rfl
      · exact Or.inl rfl

/-- The engine after the first `n` calls of the scheduler `f`, each a poll. -/
theorem run_polls_succ (f : Nat → PollEnv) (n : Nat) (s : ModbusState) :
    (run ((List.range (n + 1)).map (fun j => Action.poll (f j))) s).1 =
      (run ((List.range n).map (fun j => Action.poll (f (j + 1)))) (modbus_poll (f 0) s).1).1 := by
  rw [List.range_succ_eq_map, List.map_cons, List.map_map]
  simp only [run, step, if_true]
  rfl

/-- The countdown in AwaitReply: when every poll sees a later tick and fewer
than `rx_length` bytes, the engine is still in AwaitReply, with `packet` and
its entry untouched, after fewer polls than the countdown holds, and has left
AwaitReply after exactly that many. -/
theorem await_countdown (T : Nat) : ∀ (f : Nat → PollEnv) (s : ModbusState) (r : PacketRef),
    s.state = .ModBus_AwaitReply → s.packet = some r → s.spin_lock = false →
    s.rx_timeout = T + 1 → s.last_ms < (f 0).ms → (∀ j, (f j).ms < (f (j + 1)).ms) →
    (∀ j, (f j).rx_buffer_count < (entry_of s r).msg.rx_length) →
    (∀ k, k ≤ T →
      (run ((List.range k).map (fun j => Action.poll (f j))) s).1.state = .ModBus_AwaitReply ∧
      (run ((List.range k).map (fun j => Action.poll (f j))) s).1.rx_timeout = T + 1 - k) ∧
    ((entry_of s r).async = true →
      (run ((List.range (T + 1)).map (fun j => Action.poll (f j))) s).1.state = .ModBus_Silent) ∧
    ((entry_of s r).async = false →
      (run ((List.range (T + 1)).map (fun j => Action.poll (f j))) s).1.state = .ModBus_Timeout ∨
      (run ((List.range (T + 1)).map (fun j => Action.poll (f j))) s).1.state =
        .ModBus_Exception) := by
  induction T with
  | zero =>
    intro f s r hst hpk hl hT hfirst htick hrx
    have hgate : ¬ ((f 0).ms = s.last_ms ∨ s.spin_lock = true) := by
      rw [hl]; simp; omega
    obtain ⟨_, h1⟩ := poll_await_short (f 0) s r hgate hst hpk (hrx 0)
    have hrun : (run ((List.range (0 + 1)).map (fun j => Action.poll (f j))) s).1 =
        (modbus_poll (f 0) s).1 := by
      rw [run_polls_succ]; rfl
    refine ⟨?_, ?_, ?_⟩
    · intro k hk
      have : k = 0 := by omega
      subst this
      exact ⟨hst, by simpa [run] using hT⟩
    · intro ha
      rw [hrun]
      exact (h1 (by omega)).1 ha
    · intro ha
      rw [hrun]
      exact (h1 (by omega)).2 ha
  | succ T ih =>
    intro f s r hst hpk hl hT hfirst htick hrx
    have hgate : ¬ ((f 0).ms = s.last_ms ∨ s.spin_lock = true) := by
      rw [hl]; simp; omega
    obtain ⟨h2, _⟩ := poll_await_short (f 0) s r hgate hst hpk (hrx 0)
    have hp := h2 (by omega)
    have hentry : entry_of (modbus_poll (f 0) s).1 r = entry_of s r := by
      rw [hp]; cases r <;> rfl
    obtain ⟨i1, i2, i3⟩ := ih (fun j => f (j + 1)) (modbus_poll (f 0) s).1 r
      (by rw [hp]; exact hst) (by rw [hp]; exact hpk) (by rw [hp])
      (by rw [hp]; show s.rx_timeout - 1 = T + 1; omega)
      (by rw [hp]; exact htick 0) (fun j => htick (j + 1))
      (by intro j; rw [hentry]; exact hrx (j + 1))
    rw [hentry] at i2 i3
    refine ⟨?_, ?_, ?_⟩
    · intro k hk
      cases k with
      | zero => exact ⟨hst, by simpa [run] using hT⟩
      | succ k =>
        rw [run_polls_succ]
        obtain ⟨a, b⟩ := i1 k (by omega)
        exact ⟨a, by rw [b]; omega⟩
    · intro ha
      rw [run_polls_succ]
      exact i2 ha
    · intro ha
      rw [run_polls_succ]
      exact i3 ha

/-- The polls of the first `n + m` scheduler calls are those of the first `n`
followed by those of the next `m`. -/
theorem run_polls_add (n m : Nat) : ∀ (f : Nat → PollEnv) (s : ModbusState),
    (run ((List.range (n + m)).map (fun j => Action.poll (f j))) s).1 =
      (run ((List.range m).map (fun j => Action.poll (f (n + j))))
        (run ((List.range n).map (fun j => Action.poll (f j))) s).1).1 := by
  induction n with
  | zero =>
    intro f s
    simp [run]
  | succ n ih =>
    intro f s
    have h1 : n + 1 + m = (n + m) + 1 := by omega
    rw [h1, run_polls_succ, run_polls_succ, ih]
    have h2 : (fun j => Action.poll (f (n + 1 + j))) = (fun j => Action.poll (f (n + j + 1))) := by
      funext j
      congr 2
      omega
    rw [h2]

/-- A poll in TX past the gate changes `state` when the transmit buffer is
empty, and otherwise only the stored tick. -/
theorem poll_tx_eq (env : PollEnv) (s : ModbusState)
    (hgate : ¬ (env.ms = s.last_ms ∨ s.spin_lock = true)) (hst : s.state = .ModBus_TX) :
    (modbus_poll env s).1 =
      if env.tx_buffer_count = 0 then
        { s with state := .ModBus_AwaitReply, last_ms := env.ms, spin_lock := false }
      else { s with last_ms := env.ms, spin_lock := false } := by
  rw [modbus_poll, if_neg hgate]
  simp only [hst]
  split_ifs <;> rfl

/-- The transmit phase: while the transmit buffer is not empty the engine
stays in TX and the countdown is not touched; the poll that finds it empty
moves to AwaitReply, the countdown still untouched. -/
theorem tx_phase (a : Nat) : ∀ (f : Nat → PollEnv) (s : ModbusState),
    s.state = .ModBus_TX → s.spin_lock = false →
    s.last_ms < (f 0).ms → (∀ j, (f j).ms < (f (j + 1)).ms) →
    (∀ j, j < a → (f j).tx_buffer_count ≠ 0) → (f a).tx_buffer_count = 0 →
    (∀ j, j ≤ a →
      (run ((List.range j).map (fun i => Action.poll (f i))) s).1.state = .ModBus_TX ∧
      (run ((List.range j).map (fun i => Action.poll (f i))) s).1.rx_timeout = s.rx_timeout) ∧
    (run ((List.range (a + 1)).map (fun i => Action.poll (f i))) s).1 =
      { s with state := .ModBus_AwaitReply, last_ms := (f a).ms, spin_lock := false } := by
  induction a with
  | zero =>
    intro f s hst hl hfirst htick hbusy hz
    have hgate : ¬ ((f 0).ms = s.last_ms ∨ s.spin_lock = true) := by
      rw [hl]; simp; omega
    refine ⟨?_, ?_⟩
    · intro j hj
      have : j = 0 := by omega
      subst this
      exact ⟨hst, rfl⟩
    · rw [run_polls_succ, poll_tx_eq _ _ hgate hst, if_pos hz]
      rfl
  | succ a ih =>
    intro f s hst hl hfirst htick hbusy hz
    have hgate : ¬ ((f 0).ms = s.last_ms ∨ s.spin_lock = true) := by
      rw [hl]; simp; omega
    have hp : (modbus_poll (f 0) s).1 = { s with last_ms := (f 0).ms, spin_lock := false } := by
      rw [poll_tx_eq _ _ hgate hst, if_neg (hbusy 0 (by omega))]
    obtain ⟨i1, i2⟩ := ih (fun j => f (j + 1)) (modbus_poll (f 0) s).1
      (by rw [hp]; exact hst) (by rw [hp]) (by rw [hp]; exact htick 0)
      (fun j => htick (j + 1)) (fun j hj => hbusy (j + 1) (by omega)) hz
    refine ⟨?_, ?_⟩
    · intro j hj
      cases j with
      | zero => exact ⟨hst, rfl⟩
      | succ j =>
        rw [run_polls_succ]
        obtain ⟨x, y⟩ := i1 j (by omega)
        exact ⟨x, by rw [y, hp]⟩
    · rw [run_polls_succ, i2, hp]

/-- C25: a transaction in TX with the countdown at `T ≥ 1` (the configured
response timeout, which the start of a transaction stores in it), polled by a
scheduler whose calls each see a later tick and fewer than `rx_length` bytes
received; the transmit buffer is empty for the first time at call `a`.  The
polls made in TX leave the countdown at `T`; the engine enters AwaitReply at
call `a`, is in AwaitReply after each of the next `T - 1` polls, and the
`T`-th poll made in AwaitReply ends the transaction: Silent for an
asynchronous transaction, Timeout or Exception otherwise. -/
theorem timeout_fires_on_poll_T (f : Nat → PollEnv) (s : ModbusState) (r : PacketRef)
    (a T : Nat) (hst : s.state = .ModBus_TX) (hpk : s.packet = some r)
    (hl : s.spin_lock = false) (hT : s.rx_timeout = T) (h1 : 1 ≤ T)
    (hfirst : s.last_ms < (f 0).ms) (htick : ∀ j, (f j).ms < (f (j + 1)).ms)
    (hbusy : ∀ j, j < a → (f j).tx_buffer_count ≠ 0) (hz : (f a).tx_buffer_count = 0)
    (hrx : ∀ j, (f j).rx_buffer_count < (entry_of s r).msg.rx_length) :
    (∀ j, j ≤ a →
      (run ((List.range j).map (fun i => Action.poll (f i))) s).1.state = .ModBus_TX ∧
      (run ((List.range j).map (fun i => Action.poll (f i))) s).1.rx_timeout = T) ∧
    (∀ k, k < T →
      (run ((List.range (a + 1 + k)).map (fun i => Action.poll (f i))) s).1.state =
        .ModBus_AwaitReply ∧
      (run ((List.range (a + 1 + k)).map (fun i => Action.poll (f i))) s).1.rx_timeout =
        T - k) ∧
    ((entry_of s r).async = true →
      (run ((List.range (a + 1 + T)).map (fun i => Action.poll (f i))) s).1.state =
        .ModBus_Silent) ∧
    ((entry_of s r).async = false →
      (run ((List.range (a + 1 + T)).map (fun i => Action.poll (f i))) s).1.state =
        .ModBus_Timeout ∨
      (run ((List.range (a + 1 + T)).map (fun i => Action.poll (f i))) s).1.state =
        .ModBus_Exception) := by
  obtain ⟨t1, t2⟩ := tx_phase a f s hst hl hfirst htick hbusy hz
  obtain ⟨T', rfl⟩ : ∃ T', T = T' + 1 := ⟨T - 1, by omega⟩
  have hentry : entry_of (run ((List.range (a + 1)).map (fun i => Action.poll (f i))) s).1 r =
      entry_of s r := by
    rw [t2]; cases r <;> rfl
  obtain ⟨c1, c2, c3⟩ := await_countdown T' (fun j => f (a + 1 + j))
    (run ((List.range (a + 1)).map (fun i => Action.poll (f i))) s).1 r
    (by rw [t2]) (by rw [t2]; exact hpk) (by rw [t2]) (by rw [t2]; exact hT)
    (by rw [t2]; exact htick a) (fun j => htick (a + 1 + j))
    (by intro j; rw [hentry]; exact hrx _)
  rw [hentry] at c2 c3
  refine ⟨?_, ?_, ?_, ?_⟩
  · intro j hj
    obtain ⟨x, y⟩ := t1 j hj
    exact ⟨x, y.trans hT⟩
  · intro k hk
    rw [run_polls_add]
    exact c1 k (by omega)
  · intro ha
    rw [run_polls_add]
    exact c2 ha
  · intro ha
    rw [run_polls_add]
    exact c3 ha

set_option maxRecDepth 1000000 in
/-- C25 on a concrete engine: a blocking transaction started on the engine
after initialisation (countdown 50), polled once per millisecond from tick 2
with nothing received.  It enters AwaitReply at the first poll, is still
there after 49 more polls and in Timeout after the 50th. -/
theorem timeout_fires_on_poll_T_witness :
    (begin_sync demo_engine (insert_crc (demo_request 1)) demo_callbacks).rx_timeout =
      demo_engine.modbus.rx_timeout ∧
    (run ((List.range (0 + 1 + 49)).map (fun i => Action.poll (demo_quiet_poll (i + 2))))
      (begin_sync demo_engine (insert_crc (demo_request 1)) demo_callbacks)).1.state =
      .ModBus_AwaitReply ∧
    ((run ((List.range (0 + 1 + 50)).map (fun i => Action.poll (demo_quiet_poll (i + 2))))
      (begin_sync demo_engine (insert_crc (demo_request 1)) demo_callbacks)).1.state =
      .ModBus_Timeout ∨
     (run ((List.range (0 + 1 + 50)).map (fun i => Action.poll (demo_quiet_poll (i + 2))))
      (begin_sync demo_engine (insert_crc (demo_request 1)) demo_callbacks)).1.state =
      .ModBus_Exception) :=
  have h := timeout_fires_on_poll_T (fun i => demo_quiet_poll (i + 2))
    (begin_sync demo_engine (insert_crc (demo_request 1)) demo_callbacks) .sync_msg 0 50
    rfl rfl (by decide) (by decide) (by decide) (by decide)
    (fun j => by simp [demo_quiet_poll, demo_poll])
    (fun j hj => absurd hj (Nat.not_lt_zero j)) rfl
    (fun j => by
      show 0 < (insert_crc (demo_request 1)).rx_length
      decide)
  ⟨rfl, (h.2.1 49 (by decide)).1, h.2.2.2 rfl⟩
/-! ## Claim C29: the slot of the transaction in flight -/

/-- After a run of polls and non-blocking sends from an idle engine with an
empty ring, every request waiting in the ring and the one in flight are
messages handed to `modbus_send` in that run, as `modbus_send` stored them. -/
theorem run_tracked (actions : List Action) (hnb : ∀ a ∈ actions, a.nonblocking)
    (s : ModbusState) (sent : List modbus_message_t) (h : Inv s) (ht : Tracked sent s) :
    Inv (run actions s).1 ∧ Tracked (sent ++ sent_messages actions) (run actions s).1 := by
  induction actions generalizing s sent with
  | nil => exact ⟨h, by simpa [sent_messages, run] using ht⟩
  | cons a rest ih =>
    obtain ⟨_, hret, _⟩ := step_inv s h a (hnb a (List.mem_cons_self _ _))
    obtain ⟨i1, i2⟩ := (step_replies a s sent h ht).2 hret
    simp only [run, hret, if_true, sent_messages, ← List.append_assoc]
    exact ih (fun b hb => hnb b (List.mem_cons_of_mem _ hb)) _ _ i1 i2

/-- While a transaction taken from the ring is in flight: its entry is the
slot just before `tail`, which is not among the waiting slots; a non-blocking
`modbus_send` leaves that slot, `packet` and `tail` alone, and when it stores
its message it stores it at `head`, a different slot; a poll after which the
transaction is still in flight leaves the ring and `packet` alone. -/
theorem in_flight_entry_kept (s : ModbusState) (h : Inv s)
    (hfl : s.state = .ModBus_TX ∨ s.state = .ModBus_AwaitReply) :
    s.packet = some (.slot (prev_slot s.tail)) ∧ prev_slot s.tail ∉ pending_slots s ∧
    (∀ m c,
      (modbus_send s m c false []).st.queue (prev_slot s.tail) = s.queue (prev_slot s.tail) ∧
      (modbus_send s m c false []).st.packet = s.packet ∧
      (modbus_send s m c false []).st.tail = s.tail ∧
      (accepts s = true → s.head ≠ prev_slot s.tail ∧
        ((modbus_send s m c false []).st.queue s.head).msg = insert_crc m)) ∧
    (∀ env, (modbus_poll env s).1.state = .ModBus_TX ∨
        (modbus_poll env s).1.state = .ModBus_AwaitReply →
      (modbus_poll env s).1.packet = s.packet ∧ (modbus_poll env s).1.queue = s.queue ∧
      (modbus_poll env s).1.tail = s.tail) := by
  have hpk : s.packet = some (.slot (prev_slot s.tail)) := by
    rcases h.phase with ⟨h1 | h1, _⟩ | ⟨_, h2, _⟩
    · rcases hfl with hb | hb <;> rw [h1] at hb <;> cases hb
    · rcases hfl with hb | hb <;> rw [h1] at hb <;> cases hb
    · exact h2
  refine ⟨hpk, prev_slot_not_pending s, ?_, ?_⟩
  · intro m c
    rw [send_async_eq s h, accepts_eq s h]
    have hnext := h.linked s.head h.head_lt
    by_cases hroom : (s.queue s.head).next ≠ s.tail
    · have hprev : prev_slot s.tail ≠ s.head := by
        have := h.head_lt
        have := h.tail_lt
        rw [hnext] at hroom
        simp only [prev_slot, MODBUS_QUEUE_LENGTH] at *
        split at hroom <;> omega
      rw [if_pos hroom]
      refine ⟨?_, rfl, rfl, fun _ => ⟨fun hc => hprev hc.symm, ?_⟩⟩
      · simp only [set_entry, if_neg hprev]
      · simp only [set_entry, if_true]
        exact add_message_msg _ _ _
    · rw [if_neg hroom]
      refine ⟨rfl, rfl, rfl, fun hacc => ?_⟩
      simp [hroom] at hacc
  · intro env hp
    by_cases hgate : env.ms = s.last_ms ∨ s.spin_lock = true
    · rw [modbus_poll, if_pos hgate]
      exact ⟨rfl, rfl, rfl⟩
    · rcases hfl with hst | hst
      · rw [poll_tx_eq env s hgate hst]
        split_ifs <;> exact ⟨rfl, rfl, rfl⟩
      · rw [modbus_poll, if_neg hgate] at hp ⊢
        simp only [hst, hpk, poll_await_reply, store_entry] at hp ⊢
        split_ifs at hp ⊢ <;> first
          | exact ⟨rfl, rfl, rfl⟩
          | (rcases hp with hp | hp <;> cases hp)

/-- C29: in every state reached from an idle engine with an empty ring by
polls and non-blocking sends in which a transaction is in flight (TX or
AwaitReply): `packet` is the ring slot just before `tail`, that slot is not
among those waiting, and it holds a message handed to `modbus_send` as it was
stored; a non-blocking `modbus_send` leaves that slot alone, and when it
stores its message it does so at `head`, which is another slot; a poll after
which the transaction is still in flight leaves the whole ring alone. -/
theorem in_flight_slot_not_overwritten (actions : List Action)
    (hnb : ∀ a ∈ actions, a.nonblocking) (s0 : ModbusState) (h0 : idle_empty s0)
    (hfl : (run actions s0).1.state = .ModBus_TX ∨
      (run actions s0).1.state = .ModBus_AwaitReply) :
    (run actions s0).1.packet = some (.slot (prev_slot (run actions s0).1.tail)) ∧
    prev_slot (run actions s0).1.tail ∉ pending_slots (run actions s0).1 ∧
    (∃ m ∈ sent_messages actions,
      ((run actions s0).1.queue (prev_slot (run actions s0).1.tail)).msg = insert_crc m) ∧
    (∀ m c,
      (modbus_send (run actions s0).1 m c false []).st.queue
          (prev_slot (run actions s0).1.tail) =
        (run actions s0).1.queue (prev_slot (run actions s0).1.tail) ∧
      (modbus_send (run actions s0).1 m c false []).st.packet = (run actions s0).1.packet ∧
      (accepts (run actions s0).1 = true →
        (run actions s0).1.head ≠ prev_slot (run actions s0).1.tail)) ∧
    (∀ env, (modbus_poll env (run actions s0).1).1.state = .ModBus_TX ∨
        (modbus_poll env (run actions s0).1).1.state = .ModBus_AwaitReply →
      (modbus_poll env (run actions s0).1).1.packet = (run actions s0).1.packet ∧
      (modbus_poll env (run actions s0).1).1.queue = (run actions s0).1.queue) := by
  obtain ⟨hinv, htr⟩ := run_tracked actions hnb s0 [] (idle_empty_inv s0 h0)
    (idle_empty_tracked s0 h0)
  obtain ⟨k1, k2, k3, k4⟩ := in_flight_entry_kept _ hinv hfl
  refine ⟨k1, k2, ?_, ?_, ?_⟩
  · obtain ⟨m, hm, he⟩ := htr.2 _ k1
    exact ⟨m, by simpa using hm, he⟩
  · intro m c
    obtain ⟨a, b, _, d⟩ := k3 m c
    exact ⟨a, b, fun hacc => (d hacc).1⟩
  · intro env hp
    obtain ⟨a, b, _⟩ := k4 env hp
    exact ⟨a, b⟩

theorem demo_busy_actions_nonblocking : ∀ a ∈ demo_busy_actions, a.nonblocking := by
  decide

set_option maxRecDepth 1000000 in
theorem demo_busy_actions_in_flight :
    (run demo_busy_actions demo_engine).1.state = .ModBus_TX ∨
      (run demo_busy_actions demo_engine).1.state = .ModBus_AwaitReply :=
  Or.inl (by decide)

set_option maxRecDepth 1000000 in
/-- C29 on a concrete run: seven requests are queued, the first is taken at
tick 1 (slot 0 in flight, `tail` = 1) and a further request is stored at slot
7, after which `head` is slot 0 again and the ring is full: `packet` is the
slot before `tail`, slot 0, and the next send is not stored. -/
theorem in_flight_slot_not_overwritten_witness :
    (run demo_busy_actions demo_engine).1.packet =
      some (.slot (prev_slot (run demo_busy_actions demo_engine).1.tail)) ∧
    prev_slot (run demo_busy_actions demo_engine).1.tail = 0 ∧
    (run demo_busy_actions demo_engine).1.head = 0 ∧
    accepts (run demo_busy_actions demo_engine).1 = false :=
  ⟨(in_flight_slot_not_overwritten demo_busy_actions demo_busy_actions_nonblocking demo_engine
    demo_engine_idle_empty demo_busy_actions_in_flight).1, by decide, by decide, by decide⟩
/-! ## Claim C30: buffer safety under the length precondition -/

/-- A poll in AwaitReply that captures a reply reads exactly `rx_length`
bytes from the transport, whether the transaction is asynchronous or not. -/
theorem capture_reads (env : PollEnv) (s : ModbusState) (r : PacketRef)
    (hst : s.state = .ModBus_AwaitReply) (hpk : s.packet = some r)
    (hgate : env.ms ≠ s.last_ms) (hlock : s.spin_lock = false) (hcount : s.rx_timeout ≠ 1)
    (hlen : 1 ≤ (entry_of s r).msg.rx_length)
    (hrx : (entry_of s r).msg.rx_length ≤ env.rx_buffer_count) :
    (modbus_poll env s).2.count Event.read = (entry_of s r).msg.rx_length := by
  have hgate' : ¬ (env.ms = s.last_ms ∨ s.spin_lock = true) := by
    rw [hlock]; simp [hgate]
  have hto : ¬ (s.rx_timeout ≠ 0 ∧ s.rx_timeout - 1 = 0) := by omega
  have hx : ∀ e c, (exception_events r e c).count Event.read = 0 := by
    intro e c
    unfold exception_events
    split <;> simp
  have hy : ∀ e, (packet_events r e).count Event.read = 0 := by
    intro e
    unfold packet_events
    split <;> simp
  rw [modbus_poll, if_neg hgate']
  simp only [hst, hpk, poll_await_reply, if_neg hto, ge_iff_le, if_pos hrx,
    capture_count_pos _ hlen]
  split_ifs <;> simp [List.count_cons, List.count_append, List.count_replicate_self, hx, hy]

/-- C30: for a message that meets the length precondition (`adu` of
`MODBUS_MAX_ADU_SIZE` bytes, `2 ≤ tx_length ≤ MODBUS_MAX_ADU_SIZE`,
`1 ≤ rx_length ≤ MODBUS_MAX_ADU_SIZE`, and `rx_length ≥ 2` when `crc_check`
is set): every position of `adu` touched by the CRC insertion of
`modbus_send`, by the capture loop and by the receive-side CRC check is at
least 0 and below `MODBUS_MAX_ADU_SIZE`; the length arguments
`tx_length - 2` and `rx_length - 2` of `modbus_CRC16x` are not negative
before their conversion to unsigned; the capture loop makes `rx_length`
passes, so the poll that captures the reply calls `stream.read` exactly
`rx_length` times; and `adu` keeps its size through the CRC insertion and
the capture. -/
theorem adu_accesses_in_bounds (m : modbus_message_t) (h : msg_wf m) :
    (∀ i ∈ send_accesses m ++ capture_accesses m ++ check_accesses m,
      0 ≤ i ∧ i < (MODBUS_MAX_ADU_SIZE : Int)) ∧
    (to_uint_fast16 ((m.tx_length : Int) - 2) : Int) = (m.tx_length : Int) - 2 ∧
    (m.crc_check = true →
      (to_uint_fast16 ((m.rx_length : Int) - 2) : Int) = (m.rx_length : Int) - 2) ∧
    capture_count m.rx_length = m.rx_length ∧
    (∀ env s r, s.state = .ModBus_AwaitReply → s.packet = some r → env.ms ≠ s.last_ms →
      s.spin_lock = false → s.rx_timeout ≠ 1 → (entry_of s r).msg = insert_crc m →
      m.rx_length ≤ env.rx_buffer_count →
      (modbus_poll env s).2.count Event.read = m.rx_length) ∧
    (insert_crc m).adu.length = MODBUS_MAX_ADU_SIZE ∧
    (∀ rx, (captured m rx).adu.length = MODBUS_MAX_ADU_SIZE) := by
  obtain ⟨hlen, _, htx2, htx, hrx1, hrx, hcrc⟩ := h
  simp only [ MODBUS_MAX_ADU_SIZE] at *
  have e1 : to_uint_fast16 ((m.tx_length : Int) - 2) = m.tx_length - 2 :=
    to_uint_fast16_sub_two _ htx2 (by omega)
  have hcap := capture_count_pos _ hrx1
  have hins : (insert_crc m).adu.length = 10 := by
    simp [insert_crc, hlen]
  refine ⟨?_, ?_, ?_, hcap, ?_, hins, ?_⟩
  rotate_left 3
  · intro env s r hst hpk hgate hlock hcount hmsg hcnt
    have hrl : (entry_of s r).msg.rx_length = m.rx_length := by rw [hmsg]; rfl
    have := capture_reads env s r hst hpk hgate hlock hcount (by rw [hrl]; exact hrx1)
      (by rw [hrl]; exact hcnt)
    rw [hrl] at this
    exact this
  · intro rx
    show (read_reply rx (capture_count m.rx_length) 0 (insert_crc m).adu).length = 10
    rw [read_reply_length, hins]
  · intro i hi
    simp only [List.mem_append, send_accesses, capture_accesses, check_accesses, crc_accesses,
      e1, hcap, List.mem_map, List.mem_range, List.mem_cons, List.mem_singleton,
      List.not_mem_nil, or_false, Int.ofNat_eq_coe] at hi
    rcases hi with (((⟨k, hk, rfl⟩ | hi) | ⟨k, hk, rfl⟩) | hi)
    · constructor <;> omega
    · rcases hi with rfl | rfl <;> constructor <;> omega
    · constructor <;> omega
    · by_cases hc : m.crc_check = true
      · have h2 := hcrc hc
        have e2 : to_uint_fast16 ((m.rx_length : Int) - 2) = m.rx_length - 2 :=
          to_uint_fast16_sub_two _ h2 (by omega)
        simp only [hc, if_true, e2, List.mem_append, List.mem_map, List.mem_range,
          List.mem_cons, List.mem_singleton, List.not_mem_nil, or_false,
          Int.ofNat_eq_coe] at hi
        rcases hi with ⟨k, hk, rfl⟩ | rfl | rfl <;> constructor <;> omega
      · simp [hc] at hi
  · rw [e1]; omega
  · intro hc
    have h2 := hcrc hc
    rw [to_uint_fast16_sub_two _ h2 (by omega)]
    omega

/-- C30 on the 6-byte request of the concrete scenario: the positions touched
are 0 to 5. -/
theorem adu_accesses_in_bounds_witness :
    msg_wf demo_short_request ∧
    (∀ i ∈ send_accesses demo_short_request ++ capture_accesses demo_short_request ++
        check_accesses demo_short_request, 0 ≤ i ∧ i < (MODBUS_MAX_ADU_SIZE : Int)) ∧
    send_accesses demo_short_request = [0, 1, 2, 3, 5, 4] ∧
    capture_accesses demo_short_request = [0, 1, 2, 3, 4, 5] ∧
    check_accesses demo_short_request = [0, 1, 2, 3, 4, 5] :=
  ⟨by decide, (adu_accesses_in_bounds demo_short_request (by decide)).1, by decide, by decide,
    by decide⟩

/-- Without the precondition the claim of C30 is not empty: with
`tx_length = 1` the CRC insertion of `modbus_send` touches position -1 and
the CRC length wraps to 4294967295. -/
theorem send_accesses_short_frame :
    (-1 : Int) ∈ send_accesses { demo_short_request with tx_length := 1 } ∧
    to_uint_fast16 ((1 : Int) - 2) = 4294967295 := by
  refine ⟨?_, by decide⟩
  unfold send_accesses
  apply List.mem_append_right
  simp
/-! ## Claim C23: the re-entrancy guard -/

/-- The guard of `modbus_poll`: a call that finds `spin_lock` set returns at
once, whatever the tick. -/
theorem poll_guarded (env : PollEnv) (s : ModbusState) (h : s.spin_lock = true) :
    modbus_poll env s = (s, []) := by
  rw [modbus_poll, if_pos (Or.inr h)]

/-- C23: `modbus_poll` captures the reply of an asynchronous transaction and
calls `on_rx_packet` or `on_rx_exception`.  While the callback runs the guard
`spin_lock` is set, so a call of `modbus_poll` made from inside the callback,
whatever the tick and the transport answer, returns the statics unchanged
(state, countdown, silence deadline, ring, `packet`) and makes no call; the
outer call then finishes exactly as it does without the nested call. -/
theorem nested_poll_is_guarded (env nested : PollEnv) (s : ModbusState) (r : PacketRef)
    (hst : s.state = .ModBus_AwaitReply) (hpk : s.packet = some r)
    (hasync : (entry_of s r).async = true)
    (hgate : env.ms ≠ s.last_ms) (hlock : s.spin_lock = false) (hcount : s.rx_timeout ≠ 1)
    (hrx : (entry_of s r).msg.rx_length ≤ env.rx_buffer_count) :
    (poll_in_callback env s r).spin_lock = true ∧
    (poll_in_callback env s r).packet = some r ∧
    modbus_poll nested (poll_in_callback env s r) = (poll_in_callback env s r, []) ∧
    (modbus_poll env s).1 = poll_after_callback env (poll_in_callback env s r) ∧
    (modbus_poll env s).1 =
      poll_after_callback env (modbus_poll nested (poll_in_callback env s r)).1 := by
  have hgate' : ¬ (env.ms = s.last_ms ∨ s.spin_lock = true) := by
    rw [hlock]; simp [hgate]
  have hto : ¬ (s.rx_timeout ≠ 0 ∧ s.rx_timeout - 1 = 0) := by omega
  have hguard : modbus_poll nested (poll_in_callback env s r) = (poll_in_callback env s r, []) :=
    poll_guarded nested _ (by cases r <;> rfl)
  have hp : modbus_poll env s = poll_await_reply env s r := by
    rw [modbus_poll, if_neg hgate']
    simp only [hst, hpk]
  have hfin : (modbus_poll env s).1 = poll_after_callback env (poll_in_callback env s r) := by
    rw [hp]
    unfold poll_await_reply
    simp only [if_neg hto, ge_iff_le, if_pos hrx, if_pos hasync]
    cases r <;> split_ifs <;> rfl
  refine ⟨by cases r <;> rfl, ?_, hguard, hfin, ?_⟩
  · cases r <;> exact hpk
  · rw [hguard]
    exact hfin

set_option maxRecDepth 1000000 in
/-- C23 on a concrete run: the request queued with both callbacks is in
AwaitReply after the polls at ticks 1 and 2; while the poll at tick 3 calls
`on_rx_packet` with the 8-byte reply, a nested poll at tick 4 changes
nothing. -/
theorem nested_poll_is_guarded_witness :
    (poll_in_callback (demo_poll 3 demo_reply)
      (run [.send (demo_request 1) demo_callbacks, .poll (demo_poll 1 []),
        .poll (demo_poll 2 [])] demo_engine).1 (.slot 0)).spin_lock = true ∧
    modbus_poll (demo_poll 4 [])
      (poll_in_callback (demo_poll 3 demo_reply)
        (run [.send (demo_request 1) demo_callbacks, .poll (demo_poll 1 []),
          .poll (demo_poll 2 [])] demo_engine).1 (.slot 0)) =
      (poll_in_callback (demo_poll 3 demo_reply)
        (run [.send (demo_request 1) demo_callbacks, .poll (demo_poll 1 []),
          .poll (demo_poll 2 [])] demo_engine).1 (.slot 0), []) :=
  have h := nested_poll_is_guarded (demo_poll 3 demo_reply) (demo_poll 4 [])
    (run [.send (demo_request 1) demo_callbacks, .poll (demo_poll 1 []),
      .poll (demo_poll 2 [])] demo_engine).1 (.slot 0)
    (by decide) (by decide) (by decide) (by decide) (by decide) (by decide) (by decide)
  ⟨h.1, h.2.2.1⟩
/-! ## Claim C21: `modbus_reset` -/

/-- When the loop of `modbus_reset` has ended the engine is in Idle. -/
theorem reset_drain_idle (polls : List PollEnv) (s : ModbusState)
    (h : (reset_drain polls s).2.2 = true) : (reset_drain polls s).1.state = .ModBus_Idle := by
  induction polls generalizing s with
  | nil => simpa [reset_drain] using h
  | cons env rest ih =>
    by_cases hidle : s.state = .ModBus_Idle
    · simp only [reset_drain, if_pos hidle]
      exact hidle
    · simp only [reset_drain, if_neg hidle] at h ⊢
      exact ih _ h

/-- From a state other than Idle the loop of `modbus_reset` is the wait loop
of the blocking branch of `modbus_send`. -/
theorem reset_drain_eq_wait_idle (polls : List PollEnv) (s : ModbusState)
    (hbusy : s.state ≠ .ModBus_Idle) :
    reset_drain polls s =
      ((wait_idle polls s).1, (wait_idle polls s).2.1, (wait_idle polls s).2.2.isSome) := by
  induction polls generalizing s with
  | nil => simp [reset_drain, wait_idle, hbusy]
  | cons env rest ih =>
    simp only [reset_drain, if_neg hbusy, wait_idle]
    by_cases hidle : (modbus_poll env s).1.state = .ModBus_Idle
    · rw [if_pos hidle]
      cases rest with
      | nil => simp [reset_drain, hidle]
      | cons e2 rest => simp [reset_drain, hidle]
    · rw [if_neg hidle, ih _ hidle]

/-- A poll made in a state other than Idle takes nothing from the ring. -/
theorem poll_busy_ring (env : PollEnv) (s : ModbusState) (hbusy : s.state ≠ .ModBus_Idle) :
    (modbus_poll env s).1.head = s.head ∧ (modbus_poll env s).1.tail = s.tail := by
  by_cases hgate : env.ms = s.last_ms ∨ s.spin_lock = true
  · rw [modbus_poll, if_pos hgate]
    exact ⟨rfl, rfl⟩
  · rw [modbus_poll, if_neg hgate]
    by_cases hA : s.state = .ModBus_AwaitReply
    · simp only [hA]
      cases hpk : s.packet with
      | none => exact ⟨rfl, rfl⟩
      | some r =>
        simp only [poll_await_reply]
        cases r <;> simp only [store_entry] <;> split_ifs <;> exact ⟨rfl, rfl⟩
    · cases hst : s.state <;> first
        | exact absurd hst hA
        | exact absurd hst hbusy
        | exact ⟨rfl, rfl⟩
        | (simp only []; split_ifs <;> exact ⟨rfl, rfl⟩)

/-- No call of `modbus_poll` flushes the transmit buffer. -/
theorem poll_no_flush_tx (env : PollEnv) (s : ModbusState) :
    Event.flush_tx_buffer ∉ (modbus_poll env s).2 := by
  have hd : ∀ tx, Event.flush_tx_buffer ∉ direction_events s tx := by
    intro tx
    unfold direction_events
    split <;> simp
  have hx : ∀ r e c, Event.flush_tx_buffer ∉ exception_events r e c := by
    intro r e c
    unfold exception_events
    split <;> simp
  have hy : ∀ r e, Event.flush_tx_buffer ∉ packet_events r e := by
    intro r e
    unfold packet_events
    split <;> simp
  by_cases hgate : env.ms = s.last_ms ∨ s.spin_lock = true
  · rw [modbus_poll, if_pos hgate]
    simp
  · rw [modbus_poll, if_neg hgate]
    by_cases hA : s.state = .ModBus_AwaitReply
    · simp only [hA]
      cases hpk : s.packet with
      | none => simp
      | some r =>
        simp only [poll_await_reply]
        split_ifs <;> simp [hx, hy, List.mem_replicate]
    · cases hst : s.state <;> first
        | exact absurd hst hA
        | (simp only []; split_ifs <;> simp [hd])
        | simp

/-- The loop of `modbus_reset` only polls: the engine and the events are
those of the polls of a prefix of the calls; `head` and `tail` are not
moved, and the transmit buffer is not flushed. -/
theorem reset_drain_polls (polls : List PollEnv) (s : ModbusState) :
    (∃ n, (reset_drain polls s).1 = (run ((polls.take n).map Action.poll) s).1 ∧
      (reset_drain polls s).2.1 = (run ((polls.take n).map Action.poll) s).2) ∧
    (reset_drain polls s).1.head = s.head ∧ (reset_drain polls s).1.tail = s.tail ∧
    Event.flush_tx_buffer ∉ (reset_drain polls s).2.1 := by
  induction polls generalizing s with
  | nil => exact ⟨⟨0, rfl, rfl⟩, rfl, rfl, by simp [reset_drain]⟩
  | cons env rest ih =>
    by_cases hidle : s.state = .ModBus_Idle
    · rw [reset_drain, if_pos hidle]
      exact ⟨⟨0, rfl, rfl⟩, rfl, rfl, by simp⟩
    · simp only [reset_drain, if_neg hidle]
      obtain ⟨⟨n, h1, h2⟩, h3, h4, h5⟩ := ih (modbus_poll env s).1
      obtain ⟨p1, p2⟩ := poll_busy_ring env s hidle
      refine ⟨⟨n + 1, ?_, ?_⟩, h3.trans p1, h4.trans p2, ?_⟩
      · simp only [List.take_succ_cons, List.map_cons, run, step, if_true]
        exact h1
      · simp only [List.take_succ_cons, List.map_cons, run, step, if_true]
        rw [h2]
      · intro hm
        rcases List.mem_append.mp hm with hm | hm
        · exact poll_no_flush_tx env s hm
        · exact h5 hm

/-- C21: `modbus_reset` entered with the guard clear.  With the abort flag
set it clears `packet`, sets `tail` to `head`, clears the silence deadline,
sets `state` to Idle, flushes the transmit and the receive buffer, and goes
on to `driver_reset` without a poll.  Without the flag it does nothing but
call `modbus_poll` while `state` is not Idle: `head` and `tail` are where
they were, no buffer is flushed by the reset itself, nothing at all happens
when the engine is Idle already, and for an engine reached by polls and
non-blocking sends, polled with advancing ticks, the loop ends.  In both
cases `state` is Idle when `driver_reset` is reached. -/
theorem reset_aborts_only_on_abort (s : ModbusState) (polls : List PollEnv)
    (hl : s.spin_lock = false) :
    ((modbus_reset true polls s).st =
        { s with packet := none, tail := s.head, silence_until := 0, state := .ModBus_Idle } ∧
      (modbus_reset true polls s).events = [Event.flush_tx_buffer, Event.flush_rx_buffer] ∧
      (modbus_reset true polls s).done = true ∧
      (modbus_reset true polls s).st.head = (modbus_reset true polls s).st.tail) ∧
    ((∃ n, (modbus_reset false polls s).st = (run ((polls.take n).map Action.poll) s).1 ∧
        (modbus_reset false polls s).events = (run ((polls.take n).map Action.poll) s).2) ∧
      (modbus_reset false polls s).st.head = s.head ∧
      (modbus_reset false polls s).st.tail = s.tail ∧
      Event.flush_tx_buffer ∉ (modbus_reset false polls s).events ∧
      (s.state = .ModBus_Idle →
        (modbus_reset false polls s).st = s ∧ (modbus_reset false polls s).events = [] ∧
        (modbus_reset false polls s).done = true)) ∧
    (∀ abort, (modbus_reset abort polls s).done = true →
      (modbus_reset abort polls s).st.state = .ModBus_Idle) ∧
    (∀ f : Nat → PollEnv, Inv s → 1 ≤ s.modbus.rx_timeout →
      (s.state = .ModBus_TX ∨ s.state = .ModBus_AwaitReply → 1 ≤ s.rx_timeout) →
      s.last_ms < (f 0).ms → (∀ j, (f j).ms < (f (j + 1)).ms) →
      (∀ k, ∃ j, k ≤ j ∧ (f j).tx_buffer_count = 0) →
      ∃ N, ∀ N', N ≤ N' → (modbus_reset false ((List.range N').map f) s).done = true) := by
  have hdrain : ∀ (p : List PollEnv) (t : ModbusState), t.state = .ModBus_Idle →
      reset_drain p t = (t, [], true) := by
    intro p t ht
    cases p with
    | nil => simp [reset_drain, ht]
    | cons e p => simp [reset_drain, ht]
  have hab : modbus_reset true polls s =
      { st := { s with packet := none, tail := s.head, silence_until := 0,
                       state := .ModBus_Idle },
        events := [Event.flush_tx_buffer, Event.flush_rx_buffer], done := true } := by
    unfold modbus_reset
    simp only [hl, Bool.false_eq_true, if_false, if_true]
    rw [hdrain _ _ rfl]
    rfl
  have hno : ∀ p, modbus_reset false p s =
      { st := (reset_drain p s).1, events := (reset_drain p s).2.1,
        done := (reset_drain p s).2.2 } := by
    intro p
    unfold modbus_reset
    simp only [hl, Bool.false_eq_true, if_false]
  obtain ⟨d1, d2, d3, d4⟩ := reset_drain_polls polls s
  refine ⟨?_, ?_, ?_, ?_⟩
  · rw [hab]
    exact ⟨rfl, rfl, rfl, rfl⟩
  · rw [hno]
    refine ⟨d1, d2, d3, d4, ?_⟩
    intro hidle
    rw [hdrain _ _ hidle]
    exact ⟨rfl, rfl, rfl⟩
  · intro abort hdone
    cases abort with
    | true => rw [hab]
    | false =>
      rw [hno] at hdone ⊢
      exact reset_drain_idle polls s hdone
  · intro f hinv hcfg hrun hfirst htick htx
    by_cases hidle : s.state = .ModBus_Idle
    · refine ⟨0, fun N' _ => ?_⟩
      rw [hno, hdrain _ _ hidle]
    · obtain ⟨n, hn⟩ := wait_done f s ⟨hfirst, htick, htx⟩ hinv hcfg hrun
      refine ⟨n, fun N' hN => ?_⟩
      obtain ⟨k, rfl⟩ : ∃ k, N' = n + k := ⟨N' - n, by omega⟩
      rw [hno, sched_add, reset_drain_eq_wait_idle _ _ hidle, (hn _).1]
      rfl

set_option maxRecDepth 1000000 in
/-- C21 on a concrete engine: two requests are queued and the first is in
AwaitReply at tick 2.  A reset without the abort flag polls at ticks 3 to 54
until the countdown has ended and the silence has passed, and leaves the
second request in the ring; a reset with the abort flag empties the ring at
once. -/
theorem reset_aborts_only_on_abort_witness :
    (run [.send (demo_request 1) demo_callbacks, .send (demo_request 2) demo_callbacks,
      .poll (demo_poll 1 []), .poll (demo_poll 2 [])] demo_engine).1.state =
      .ModBus_AwaitReply ∧
    (modbus_reset true []
      (run [.send (demo_request 1) demo_callbacks, .send (demo_request 2) demo_callbacks,
        .poll (demo_poll 1 []), .poll (demo_poll 2 [])] demo_engine).1).events =
      [Event.flush_tx_buffer, Event.flush_rx_buffer] ∧
    (modbus_reset false (demo_sched 2 52 [])
      (run [.send (demo_request 1) demo_callbacks, .send (demo_request 2) demo_callbacks,
        .poll (demo_poll 1 []), .poll (demo_poll 2 [])] demo_engine).1).done = true ∧
    (modbus_reset false (demo_sched 2 52 [])
      (run [.send (demo_request 1) demo_callbacks, .send (demo_request 2) demo_callbacks,
        .poll (demo_poll 1 []), .poll (demo_poll 2 [])] demo_engine).1).st.state =
      .ModBus_Idle ∧
    pending_slots (modbus_reset false (demo_sched 2 52 [])
      (run [.send (demo_request 1) demo_callbacks, .send (demo_request 2) demo_callbacks,
        .poll (demo_poll 1 []), .poll (demo_poll 2 [])] demo_engine).1).st = [1] :=
  have h := reset_aborts_only_on_abort
    (run [.send (demo_request 1) demo_callbacks, .send (demo_request 2) demo_callbacks,
      .poll (demo_poll 1 []), .poll (demo_poll 2 [])] demo_engine).1
  ⟨by decide, (h [] (by decide)).1.2.1, by decide,
   (h (demo_sched 2 52 []) (by decide)).2.2.1 false (by decide), by decide⟩

end Modbus
